import Mathlib

/-!
Shallow embedding of the match-3 engine core:
`src/utils/boardUtils.ts`, `src/utils/matchDetection.ts`,
`src/utils/constants.ts` and the game-logic hook (swap resolution,
cascade scoring, combo fusion) of `src/unnamed/part_012`.

Modelling conventions:
* A cell color is `Option GColor`; `none` models the empty string `''`.
  The palette is the fixed six-color `COLORS` array of `constants.ts`.
* `Math.random()`-driven draws are explicit streams (`Nat → GColor`,
  `Nat → Bool`, `Nat → Nat × Nat`) threaded with a draw counter, so every
  function is a deterministic function of the board and the stream.
* JS rejection loops (`while (bad) redraw`) terminate with probability 1
  but not absolutely; they are modelled with a fuel bound whose fallback
  returns the first palette color satisfying the loop's exit condition,
  so the fallback preserves exactly the postcondition the source loop has
  whenever it terminates.
* A `Board` is a list of rows like the source's `Block[][]`; reads the
  source performs via optional chaining (`board[r]?.[c]`) are modelled
  by explicit bound checks, and all other reads/writes happen at
  indices `< GRID_SIZE` exactly as in the source loops.
* JS `Set` objects are modelled by insertion-ordered duplicate-free
  lists (`setAdd`), and JS stable `sort` by a stable insertion sort /
  first-maximum fold.
* Block `id` strings (`Date.now()`/`Math.random()` tags used only for
  React re-render bookkeeping) are omitted: the engine compares cells by
  value (color, specialType, obstacle), never by id.
-/

namespace SpoilMuch

/-- The six entries of `COLORS` in `constants.ts`, in array order. -/
inductive GColor
  | red | green | blue | yellow | magenta | orange
deriving DecidableEq, Repr

/-- A cell color: `none` models the empty string `''`. -/
abbrev Color := Option GColor

/-- `COLORS` as a list, in source order. -/
def allGColors : List GColor :=
  [.red, .green, .blue, .yellow, .magenta, .orange]

/-- `SpecialType` of `boardUtils.ts` without the `null` case
(`Option SpecialKind` plays the role of the nullable union). -/
inductive SpecialKind
  | rocketH | rocketV | bomb | propeller | rainbow
deriving DecidableEq, Repr

abbrev SpecialType := Option SpecialKind

/-- `ObstacleType` of `boardUtils.ts`. -/
inductive ObstacleKind
  | box | ice | chain | blocker | grass
deriving DecidableEq, Repr

/-- `Obstacle` of `boardUtils.ts`: a kind plus a hit counter. -/
structure Obstacle where
  type : ObstacleKind
  health : Int
deriving DecidableEq, Repr

/-- `Block` of `boardUtils.ts`, minus the cosmetic `id` string. -/
structure Block where
  color : Color
  row : Nat
  col : Nat
  specialType : SpecialType
  obstacle : Option Obstacle
deriving DecidableEq, Repr

/-- `GRID_SIZE` of `constants.ts`. -/
abbrev GRID_SIZE : Nat := 8

/-- A board position `(row, col)`. -/
abbrev Pos := Nat × Nat

/-- The board, a list of rows exactly like the source's `Block[][]`.
All embedded operations read and write only indices `< GRID_SIZE`.
`cloneBoard` of the source is a deep copy taken before mutation; on
immutable values it is the identity and is therefore dropped here. -/
abbrev Board := List (List Block)

/-- The fresh empty block the source writes on removal/gravity
(`{color: '', specialType: null, obstacle: null}`). -/
def emptyBlock (r c : Nat) : Block :=
  { color := none, row := r, col := c, specialType := none, obstacle := none }

/-- A placeholder block for out-of-range reads (never produced by the
source's in-bounds index arithmetic on its 8×8 arrays). -/
def junkBlock : Block := emptyBlock 0 0

/-- Array read `board[r][c]`. -/
def getBlock (b : Board) (r c : Nat) : Block :=
  (b.getD r []).getD c junkBlock

/-- Array write `board[r][c] = blk`. -/
def setBlock (b : Board) (r c : Nat) (blk : Block) : Board :=
  b.set r ((b.getD r []).set c blk)

/-- `block.obstacle?.type === 'blocker'`. -/
def isBlockerB (block : Block) : Bool :=
  match block.obstacle with
  | some ob => ob.type = .blocker
  | none => false

/-- `canSwap` of `boardUtils.ts`. -/
def canSwap (block : Block) : Bool :=
  if block.color = none then false
  else if isBlockerB block then false
  else true

/-- `canMatch` of `boardUtils.ts` (same definition as `canSwap`). -/
def canMatch (block : Block) : Bool :=
  if block.color = none then false
  else if isBlockerB block then false
  else true

/-- `areAdjacent` of `boardUtils.ts`. -/
def areAdjacent (row1 col1 row2 col2 : Nat) : Bool :=
  let rowDiff := ((row1 : Int) - row2).natAbs
  let colDiff := ((col1 : Int) - col2).natAbs
  (rowDiff = 1 && colDiff = 0) || (rowDiff = 0 && colDiff = 1)

/-- `swapBlocks` of `boardUtils.ts` (clone + exchange, refreshing the
`row`/`col` fields; the id refresh is dropped with the id field). -/
def swapBlocks (board : Board) (row1 col1 row2 col2 : Nat) : Board :=
  let temp := getBlock board row1 col1
  let other := getBlock board row2 col2
  let nb := setBlock board row1 col1 { other with row := row1, col := col1 }
  setBlock nb row2 col2 { temp with row := row2, col := col2 }

/-- Insertion into a JS `Set` modelled as an insertion-ordered
duplicate-free list (`Set.add`). -/
def setAdd (s : List Pos) (p : Pos) : List Pos :=
  if p ∈ s then s else s ++ [p]

/-- The value projection of a block: the three fields the engine
compares boards by (color, specialType, obstacle). -/
def content (b : Block) : Color × SpecialType × Option Obstacle :=
  (b.color, b.specialType, b.obstacle)

/-- Value equality of two boards at every grid position. -/
def boardEq3 (a b : Board) : Prop :=
  ∀ r, r < GRID_SIZE → ∀ c, c < GRID_SIZE →
    content (getBlock a r c) = content (getBlock b r c)

instance (a b : Board) : Decidable (boardEq3 a b) :=
  Nat.decidableBallLT GRID_SIZE
    (fun r _ => ∀ c, c < GRID_SIZE → content (getBlock a r c) = content (getBlock b r c))

/-! ## Match detection (`src/utils/matchDetection.ts`) -/

inductive MatchDirection
  | horizontal | vertical
deriving DecidableEq, Repr

/-- `Match` of `matchDetection.ts`. -/
structure Match where
  blocks : List Pos
  direction : MatchDirection
deriving DecidableEq, Repr

/-- `ObstacleDamage` of `matchDetection.ts`. -/
structure ObstacleDamage where
  row : Nat
  col : Nat
  type : ObstacleKind
  destroyed : Bool
deriving DecidableEq, Repr

structure RocketCreation where
  row : Nat
  col : Nat
  type : SpecialKind
deriving DecidableEq, Repr

structure RocketActivation where
  row : Nat
  col : Nat
  type : SpecialKind
deriving DecidableEq, Repr

structure RainbowCreation where
  row : Nat
  col : Nat
  color : Color
deriving DecidableEq, Repr

structure RainbowActivation where
  row : Nat
  col : Nat
  targetColor : Color
deriving DecidableEq, Repr

structure PropellerActivation where
  row : Nat
  col : Nat
  targetRow : Nat
  targetCol : Nat
deriving DecidableEq, Repr

/-- `MatchResult` of `matchDetection.ts`. `bombCreations` stays empty in
`findMatches` exactly as in the source (nothing ever pushes to it). -/
structure MatchResult where
  matchList : List Match
  rocketCreations : List RocketCreation
  rocketActivations : List RocketActivation
  rainbowCreations : List RainbowCreation
  rainbowActivations : List RainbowActivation
  bombCreations : List (Nat × Nat × Color)
  bombActivations : List Pos
  propellerActivations : List PropellerActivation
  obstacleDamage : List ObstacleDamage
deriving DecidableEq, Repr

/-- `canBlockMatch` inside `findMatches`: `board[r]?.[c]` exists, has a
color, and is not a blocker. -/
def canBlockMatch (board : Board) (r c : Nat) : Bool :=
  if r < GRID_SIZE ∧ c < GRID_SIZE then
    let block := getBlock board r c
    if block.color = none then false
    else if isBlockerB block then false
    else true
  else false

/-- The mutable collections of the two scan loops of `findMatches`. -/
structure ScanSt where
  matched : List Pos
  hMatches : List Match
  vMatches : List Match
  rocketActivations : List RocketActivation
  rainbowActivations : List RainbowActivation
  bombActivations : List Pos
  obstacleDamage : List ObstacleDamage
  damagedObstacles : List Pos
deriving Repr

def ScanSt.init : ScanSt :=
  ⟨[], [], [], [], [], [], [], []⟩

/-- The special-token activation step inside the run walk (`if
(block.specialType === …)` chain). -/
def recordActivation (block : Block) (runColor : GColor) (r c : Nat) (st : ScanSt) : ScanSt :=
  match block.specialType with
  | some .rocketH =>
      { st with rocketActivations := st.rocketActivations ++ [⟨r, c, .rocketH⟩] }
  | some .rocketV =>
      { st with rocketActivations := st.rocketActivations ++ [⟨r, c, .rocketV⟩] }
  | some .rainbow =>
      { st with rainbowActivations := st.rainbowActivations ++ [⟨r, c, some runColor⟩] }
  | some .bomb =>
      { st with bombActivations := st.bombActivations ++ [(r, c)] }
  | _ => st

/-- The matched-cell obstacle damage step inside the run walk. -/
def recordDamage (block : Block) (r c : Nat) (st : ScanSt) : ScanSt :=
  match block.obstacle with
  | some ob =>
      if ob.type ≠ .blocker ∧ (r, c) ∉ st.damagedObstacles then
        { st with
            damagedObstacles := st.damagedObstacles ++ [(r, c)],
            obstacleDamage := st.obstacleDamage ++ [⟨r, c, ob.type, ob.health ≤ 1⟩] }
      else st
  | none => st

/-- Body of the run-walking `while` loops of both scans: visit one cell
of a run of color `runColor` at `(r, c)` — push it on the run (unless
already matched), record it as matched, record the activation of a
special sitting on it, and queue obstacle damage once.  The horizontal
and vertical loops of the source contain two identical copies of this
block; both walks below share this single copy. -/
def visitCell (board : Board) (runColor : GColor) (r c : Nat)
    (blocks : List Pos) (st : ScanSt) : List Pos × ScanSt :=
  if (r, c) ∈ st.matched then (blocks, st)
  else
    let block := getBlock board r c
    let st := { st with matched := st.matched ++ [(r, c)] }
    let st := recordActivation block runColor r c st
    let st := recordDamage block r c st
    (blocks ++ [(r, c)], st)

/-- The `while (endCol < GRID_SIZE && …)` run walk of the horizontal
scan; returns the final `endCol` together with the collected run.  The
fuel (`GRID_SIZE - col` at the call site) bounds the at most
`GRID_SIZE - col` iterations. -/
def walkH (board : Board) (row : Nat) (runColor : GColor) :
    Nat → Nat → List Pos → ScanSt → Nat × List Pos × ScanSt
  | 0, endCol, blocks, st => (endCol, blocks, st)
  | fuel + 1, endCol, blocks, st =>
    if endCol < GRID_SIZE ∧ canBlockMatch board row endCol ∧
        (getBlock board row endCol).color = some runColor then
      let (blocks, st) := visitCell board runColor row endCol blocks st
      walkH board row runColor fuel (endCol + 1) blocks st
    else (endCol, blocks, st)

/-- Vertical run walk (rows increase). -/
def walkV (board : Board) (col : Nat) (runColor : GColor) :
    Nat → Nat → List Pos → ScanSt → Nat × List Pos × ScanSt
  | 0, endRow, blocks, st => (endRow, blocks, st)
  | fuel + 1, endRow, blocks, st =>
    if endRow < GRID_SIZE ∧ canBlockMatch board endRow col ∧
        (getBlock board endRow col).color = some runColor then
      let (blocks, st) := visitCell board runColor endRow col blocks st
      walkV board col runColor fuel (endRow + 1) blocks st
    else (endRow, blocks, st)

/-- The `for (col …)` loop of the horizontal scan over one row; after a
run the loop resumes at `endCol` (`col = endCol - 1` followed by the
`col++`).  Fuel `GRID_SIZE` bounds the at most `GRID_SIZE` iterations of
the strictly advancing index. -/
def hScanRow (board : Board) (row : Nat) : Nat → Nat → ScanSt → ScanSt
  | 0, _, st => st
  | fuel + 1, col, st =>
    if col < GRID_SIZE - 2 then
      if canBlockMatch board row col then
        match (getBlock board row col).color with
        | none => hScanRow board row fuel (col + 1) st
        | some color =>
          if canBlockMatch board row (col + 1) ∧ canBlockMatch board row (col + 2) ∧
              (getBlock board row (col + 1)).color = some color ∧
              (getBlock board row (col + 2)).color = some color then
            let (endCol, blocks, st) := walkH board row color (GRID_SIZE - col) col [] st
            let st :=
              if blocks.length ≥ 3 then
                { st with hMatches := st.hMatches ++ [⟨blocks, .horizontal⟩] }
              else st
            hScanRow board row fuel endCol st
          else hScanRow board row fuel (col + 1) st
      else hScanRow board row fuel (col + 1) st
    else st

/-- Vertical analogue of `hScanRow` for one column. -/
def vScanCol (board : Board) (col : Nat) : Nat → Nat → ScanSt → ScanSt
  | 0, _, st => st
  | fuel + 1, row, st =>
    if row < GRID_SIZE - 2 then
      if canBlockMatch board row col then
        match (getBlock board row col).color with
        | none => vScanCol board col fuel (row + 1) st
        | some color =>
          if canBlockMatch board (row + 1) col ∧ canBlockMatch board (row + 2) col ∧
              (getBlock board (row + 1) col).color = some color ∧
              (getBlock board (row + 2) col).color = some color then
            let (endRow, blocks, st) := walkV board col color (GRID_SIZE - row) row [] st
            let st :=
              if blocks.length ≥ 3 then
                { st with vMatches := st.vMatches ++ [⟨blocks, .vertical⟩] }
              else st
            vScanCol board col fuel endRow st
          else vScanCol board col fuel (row + 1) st
      else vScanCol board col fuel (row + 1) st
    else st

/-- Both scan phases: all rows, then all columns. -/
def runScans (board : Board) : ScanSt :=
  let st := (List.range GRID_SIZE).foldl (fun st row => hScanRow board row GRID_SIZE 0 st) ScanSt.init
  (List.range GRID_SIZE).foldl (fun st col => vScanCol board col GRID_SIZE 0 st) st

/-- Row-major list of all grid positions. -/
def allPositions : List Pos :=
  (List.range GRID_SIZE).flatMap (fun r => (List.range GRID_SIZE).map (fun c => (r, c)))

/-- The in-bounds 3×3 neighbourhood of `(row, col)`, in the
`dr = -1..1, dc = -1..1` iteration order of the source. -/
def cells3x3 (row col : Nat) : List Pos :=
  ([-1, 0, 1] : List Int).foldl (fun acc dr =>
    ([-1, 0, 1] : List Int).foldl (fun acc dc =>
      let r := (row : Int) + dr
      let c := (col : Int) + dc
      if 0 ≤ r ∧ r < (GRID_SIZE : Int) ∧ 0 ≤ c ∧ c < (GRID_SIZE : Int) then
        acc ++ [(r.toNat, c.toNat)]
      else acc) acc) []

/-- Step 4 of the detector: the provisional will-be-cleared set (matched
cells, rocket rows/columns, rainbow target-color cells, bomb 3×3s). -/
def buildWillBeCleared (board : Board) (matchList : List Match)
    (rockets : List RocketActivation) (rainbows : List RainbowActivation)
    (bombs : List Pos) : List Pos :=
  let s := matchList.foldl (fun s m => m.blocks.foldl setAdd s) []
  let s := rockets.foldl (fun s rocket =>
    if rocket.type = .rocketH then
      (List.range GRID_SIZE).foldl (fun s c => setAdd s (rocket.row, c)) s
    else
      (List.range GRID_SIZE).foldl (fun s r => setAdd s (r, rocket.col)) s) s
  let s := rainbows.foldl (fun s rainbow =>
    allPositions.foldl (fun s p =>
      if (getBlock board p.1 p.2).color = rainbow.targetColor then setAdd s p else s) s) s
  bombs.foldl (fun s bomb => (cells3x3 bomb.1 bomb.2).foldl setAdd s) s

/-- A scored target candidate of the propeller search. -/
structure TCand where
  row : Nat
  col : Nat
  key : Nat
deriving DecidableEq, Repr

/-- First element of maximal key.  The source sorts with the stable JS
`sort((a, b) => b.key - a.key)` and takes element 0, which is exactly
the earliest maximum. -/
def pickFirstMax (l : List TCand) : Option TCand :=
  l.foldl (fun best x =>
    match best with
    | none => some x
    | some b => if x.key > b.key then some x else some b) none

/-- Priority 1 of the propeller search: non-propeller specials outside
the cleared set, rainbow priority 3, bomb 2, rockets 1. -/
def specialTargets (board : Board) (cleared : List Pos) : List TCand :=
  (List.range GRID_SIZE).foldl (fun acc r =>
    (List.range GRID_SIZE).foldl (fun acc c =>
      if (r, c) ∈ cleared then acc
      else
        match (getBlock board r c).specialType with
        | some k =>
          if k ≠ .propeller then
            let priority : Nat := if k = .rainbow then 3 else if k = .bomb then 2 else 1
            acc ++ [⟨r, c, priority⟩]
          else acc
        | none => acc) acc) []

/-- Number of orthogonal neighbours of `(r, c)` sharing `color` and not
already cleared. -/
def neighborScore (board : Board) (cleared : List Pos) (r c : Nat) (color : Color) : Nat :=
  ([((-1 : Int), (0 : Int)), (1, 0), (0, -1), (0, 1)]).foldl (fun sc d =>
    let nr := (r : Int) + d.1
    let nc := (c : Int) + d.2
    if 0 ≤ nr ∧ nr < (GRID_SIZE : Int) ∧ 0 ≤ nc ∧ nc < (GRID_SIZE : Int) then
      if (getBlock board nr.toNat nc.toNat).color = color ∧ (nr.toNat, nc.toNat) ∉ cleared then
        sc + 1
      else sc
    else sc) 0

/-- Priority 2 of the propeller search.  The source score
`count + r * 0.1` is stored here ×10 as `10 * count + r`; with
`r < 10` this preserves all float comparisons and the `> 0` test
exactly. -/
def colorCandidates (board : Board) (cleared : List Pos) : List TCand :=
  (List.range GRID_SIZE).foldl (fun acc r =>
    (List.range GRID_SIZE).foldl (fun acc c =>
      if (r, c) ∈ cleared then acc
      else if (getBlock board r c).color = none then acc
      else
        let key := 10 * neighborScore board cleared r c (getBlock board r c).color + r
        if key > 0 then acc ++ [⟨r, c, key⟩] else acc) acc) []

/-- Priority 3: the first non-cleared colored cell scanning rows from
the bottom up, columns left to right. -/
def fallbackScan (board : Board) (cleared : List Pos) : Option Pos :=
  ((List.range GRID_SIZE).reverse.flatMap (fun r =>
      (List.range GRID_SIZE).map (fun c => (r, c)))).find?
    (fun p => decide (p ∉ cleared ∧ (getBlock board p.1 p.2).color ≠ none))

/-- One propeller's target, priorities 1–3 then the board-center
fallback `(⌊GRID_SIZE / 2⌋, ⌊GRID_SIZE / 2⌋)`. -/
def choosePropellerTarget (board : Board) (cleared : List Pos) : Pos :=
  match pickFirstMax (specialTargets board cleared) with
  | some t => (t.row, t.col)
  | none =>
    match pickFirstMax (colorCandidates board cleared) with
    | some t => (t.row, t.col)
    | none =>
      match fallbackScan board cleared with
      | some p => p
      | none => (GRID_SIZE / 2, GRID_SIZE / 2)

/-- Step 5: resolve the propellers in match order; each resolved
target's 3×3 area joins the cleared set before the next propeller. -/
def resolvePropellers (board : Board) (props : List Pos) (cleared : List Pos) :
    List PropellerActivation × List Pos :=
  props.foldl
    (fun acc p =>
      let t := choosePropellerTarget board acc.2
      let cleared := (cells3x3 t.1 t.2).foldl setAdd acc.2
      (acc.1 ++ [⟨p.1, p.2, t.1, t.2⟩], cleared))
    ([], cleared)

/-- The propeller cells of the detected matches, in match/blocks order
(the source tests `board[row][col].specialType === 'propeller'` inside
the double loop over matchList). -/
def propellerCells (board : Board) (matchList : List Match) : List Pos :=
  (matchList.flatMap (·.blocks)).filter
    (fun p => (getBlock board p.1 p.2).specialType = some .propeller)

/-- Step 6: L/T intersection detection — every cell shared by a
horizontal and a vertical match yields one rainbow creation. -/
def intersectionScan (board : Board) (hM vM : List Match) :
    List Pos × List RainbowCreation :=
  hM.foldl (fun acc hm =>
    vM.foldl (fun acc vm =>
      hm.blocks.foldl (fun acc hb =>
        vm.blocks.foldl (fun acc vb =>
          if hb.1 = vb.1 ∧ hb.2 = vb.2 then
            if hb ∈ acc.1 then acc
            else (acc.1 ++ [hb], acc.2 ++ [⟨hb.1, hb.2, (getBlock board hb.1 hb.2).color⟩])
          else acc) acc) acc) acc) ([], [])

/-- Step 7: a rainbow creation at the middle cell of every match of
length ≥ 5 whose middle is not an L/T intersection point. -/
def bigMatchRainbows (board : Board) (matchList : List Match) (interPts : List Pos)
    (acc : List RainbowCreation) : List RainbowCreation :=
  matchList.foldl (fun acc m =>
    if m.blocks.length ≥ 5 then
      let pos := m.blocks.getD (m.blocks.length / 2) (0, 0)
      if pos ∈ interPts then acc
      else acc ++ [⟨pos.1, pos.2, (getBlock board pos.1 pos.2).color⟩]
    else acc) acc

/-- Step 8: a rocket creation at the middle cell of every length-4
match, oriented by direction, skipping rainbow cells and duplicates. -/
def fourMatchRockets (matchList : List Match) (rainbowPositions : List Pos) :
    List RocketCreation :=
  matchList.foldl (fun acc m =>
    if m.blocks.length = 4 then
      let pos := m.blocks.getD (m.blocks.length / 2) (0, 0)
      if pos ∈ rainbowPositions then acc
      else if acc.any (fun r => r.row = pos.1 ∧ r.col = pos.2) then acc
      else
        acc ++ [⟨pos.1, pos.2,
          if m.direction = .horizontal then SpecialKind.rocketH else .rocketV⟩]
    else acc) []

/-- Final pass: one point of damage to every ice obstacle orthogonally
adjacent to a matched cell, deduplicated against already-queued damage. -/
def iceAdjacentDamage (board : Board) (matchList : List Match)
    (damaged : List Pos) (damage : List ObstacleDamage) :
    List Pos × List ObstacleDamage :=
  matchList.foldl (fun acc m =>
    m.blocks.foldl (fun acc p =>
      ([((-1 : Int), (0 : Int)), (1, 0), (0, -1), (0, 1)]).foldl (fun acc d =>
        let nr := (p.1 : Int) + d.1
        let nc := (p.2 : Int) + d.2
        if 0 ≤ nr ∧ nr < (GRID_SIZE : Int) ∧ 0 ≤ nc ∧ nc < (GRID_SIZE : Int) then
          match (getBlock board nr.toNat nc.toNat).obstacle with
          | some ob =>
            if ob.type = .ice ∧ (nr.toNat, nc.toNat) ∉ acc.1 then
              (acc.1 ++ [(nr.toNat, nc.toNat)],
               acc.2 ++ [⟨nr.toNat, nc.toNat, .ice, ob.health ≤ 1⟩])
            else acc
          | none => acc
        else acc) acc) acc) (damaged, damage)

/-- `findMatches` of `matchDetection.ts`.  `matches` is pushed in the
source in lockstep with `horizontalMatches`/`verticalMatches`, and the
whole horizontal phase precedes the vertical one, so
`matchList = hMatches ++ vMatches`. -/
def findMatches (board : Board) : MatchResult :=
  let st := runScans board
  let matchList := st.hMatches ++ st.vMatches
  let willBeCleared :=
    buildWillBeCleared board matchList st.rocketActivations st.rainbowActivations
      st.bombActivations
  let (propellerActivations, _) :=
    resolvePropellers board (propellerCells board matchList) willBeCleared
  let (interPts, rainbowCreations) := intersectionScan board st.hMatches st.vMatches
  let rainbowCreations := bigMatchRainbows board matchList interPts rainbowCreations
  let rainbowPositions := rainbowCreations.map (fun r => (r.row, r.col))
  let rocketCreations := fourMatchRockets matchList rainbowPositions
  let (_, obstacleDamage) :=
    iceAdjacentDamage board matchList st.damagedObstacles st.obstacleDamage
  { matchList := matchList
    rocketCreations := rocketCreations
    rocketActivations := st.rocketActivations
    rainbowCreations := rainbowCreations
    rainbowActivations := st.rainbowActivations
    bombCreations := []
    bombActivations := st.bombActivations
    propellerActivations := propellerActivations
    obstacleDamage := obstacleDamage }

/-! ## Gravity, refill and scoring (`src/utils/matchDetection.ts`) -/

/-- The per-column loop of `applyGravity`: rows are visited from the
bottom (`row = GRID_SIZE - 1`) upwards, carrying the `emptyRow` write
cursor; a blocker resets the cursor to the row above it, a colored cell
falls to `emptyRow` (vacating its own row with a fresh empty block) and
decrements the cursor.  `rowsLeft` counts the remaining iterations, so
the row being visited is `rowsLeft - 1`. -/
def gravColumn (c : Nat) : Nat → Int → Board → Board
  | 0, _, nb => nb
  | rowsLeft + 1, emptyRow, nb =>
    let row := rowsLeft
    let block := getBlock nb row c
    if isBlockerB block then
      gravColumn c rowsLeft ((row : Int) - 1) nb
    else if block.color ≠ none then
      if (row : Int) ≠ emptyRow then
        let nb := setBlock nb emptyRow.toNat c { block with row := emptyRow.toNat, col := c }
        let nb := setBlock nb row c (emptyBlock row c)
        gravColumn c rowsLeft (emptyRow - 1) nb
      else
        gravColumn c rowsLeft (emptyRow - 1) nb
    else
      gravColumn c rowsLeft emptyRow nb

/-- `applyGravity` of `matchDetection.ts`. -/
def applyGravity (board : Board) : Board :=
  (List.range GRID_SIZE).foldl
    (fun nb col => gravColumn col GRID_SIZE ((GRID_SIZE : Int) - 1) nb) board

/-- `fillEmptySpaces` of `matchDetection.ts`: every empty non-blocker
cell receives the next `getRandomColor()` draw; the draw counter
advances in the row-major visit order of the source's two loops. -/
def fillEmptySpaces (board : Board) (stream : Nat → GColor) : Board :=
  (allPositions.foldl
    (fun (acc : Board × Nat) p =>
      let (nb, i) := acc
      let block := getBlock nb p.1 p.2
      if isBlockerB block then acc
      else if block.color = none then
        (setBlock nb p.1 p.2
          { color := some (stream i), row := p.1, col := p.2,
            specialType := none, obstacle := none }, i + 1)
      else acc)
    (board, 0)).1

/-- `calculateScore` of `matchDetection.ts`. -/
def calculateScore (mr : MatchResult) : Nat :=
  let s := mr.matchList.foldl (fun score m =>
    let blockCount := m.blocks.length
    let score := score + blockCount * 10
    if blockCount > 3 then score + (blockCount - 3) * 15 else score) 0
  s + mr.rocketActivations.length * 50 + mr.rainbowActivations.length * 100 +
    mr.bombActivations.length * 75 + mr.propellerActivations.length * 60

/-- The closed-form round score of spec §4.3: Σ over matches of
`10·len + 15·max(0, len−3)` plus the activation bonuses (truncated
subtraction on `Nat` is exactly `max(0, len−3)`). -/
def specRoundScore (mr : MatchResult) : Nat :=
  (mr.matchList.map (fun m => 10 * m.blocks.length + 15 * (m.blocks.length - 3))).sum +
    50 * mr.rocketActivations.length + 100 * mr.rainbowActivations.length +
    75 * mr.bombActivations.length + 60 * mr.propellerActivations.length

/-- The score/combo update of one cascade round, from `processMatches`
in the game-logic hook: on a round with matches the score grows by
`Math.floor(calculateScore(mr) · (1 + combo · 0.5))` and the combo
counter increments; on an empty round the combo resets to 0.  With
`baseScore` and `combo` integers, `baseScore · (1 + combo · 0.5)` is
computed exactly by binary floats (it is `baseScore · (2 + combo) / 2`,
a half-integer far below 2^53), so the floor is `Nat` division by 2. -/
def processRound (board : Board) (score combo : Nat) : Nat × Nat :=
  let mr := findMatches board
  if mr.matchList.length > 0 then
    let baseScore := calculateScore mr
    let earnedScore := baseScore * (2 + combo) / 2
    (score + earnedScore, combo + 1)
  else (score, 0)

/-! ## Initial board construction (`src/utils/boardUtils.ts`) -/

/-- Color of cell `(r, c)` of a board built as a list of rows. -/
def colorAt (bb : List (List Block)) (r c : Nat) : Color :=
  (getBlock bb r c).color

/-- The horizontal reroll condition of `createInitialBoard`:
`col >= 2 && rowBlocks[col-1].color === color && rowBlocks[col-2].color === color`. -/
def badHoriz (rowBlocks : List Block) (col : Nat) (c : GColor) : Bool :=
  col ≥ 2 ∧ (rowBlocks.getD (col - 1) junkBlock).color = some c ∧
    (rowBlocks.getD (col - 2) junkBlock).color = some c

/-- The vertical reroll condition of `createInitialBoard`:
`row >= 2 && board[row-1][col].color === color && board[row-2][col].color === color`. -/
def badVert (bb : List (List Block)) (row col : Nat) (c : GColor) : Bool :=
  row ≥ 2 ∧ colorAt bb (row - 1) col = some c ∧ colorAt bb (row - 2) col = some c

/-- First palette color passing `bad`; fallback of the fuel-bounded
reroll loop (see the modelling conventions in the header). -/
def firstGoodColor (bad : GColor → Bool) (dflt : GColor) : GColor :=
  (allGColors.find? (fun g => !bad g)).getD dflt

/-- `while (bad(color)) color = getRandomColor()`, fuel-bounded.
Returns the final color and draw index.  On fuel exhaustion the first
palette color passing `bad` is returned, preserving the loop's exit
condition whenever any palette color passes. -/
def whileBad (bad : GColor → Bool) (s : Nat → GColor) :
    Nat → GColor → Nat → GColor × Nat
  | 0, c, i => if bad c then (firstGoodColor bad c, i) else (c, i)
  | fuel + 1, c, i => if bad c then whileBad bad s fuel (s i) (i + 1) else (c, i)

/-- Fuel for the reroll loops (any bound ≥ the 6 palette colors makes
the fallback unreachable for streams that cycle the palette). -/
def colorFuel : Nat := 64

/-- The color choice for one cell of `createInitialBoard`: draw, reroll
while it completes a horizontal triple, then reroll while it completes
a vertical triple (in that order, as in the source). -/
def colorPick (bb : List (List Block)) (row : Nat) (rowBlocks : List Block)
    (s : Nat → GColor) (i : Nat) : GColor × Nat :=
  let col := rowBlocks.length
  let p1 := whileBad (badHoriz rowBlocks col) s colorFuel (s i) (i + 1)
  whileBad (badVert bb row col) s colorFuel p1.1 p1.2

/-- The inner `for (col …)` loop of `createInitialBoard`. -/
def buildRow (bb : List (List Block)) (row : Nat) (s : Nat → GColor) :
    Nat → List Block → Nat → List Block × Nat
  | 0, rowBlocks, i => (rowBlocks, i)
  | fuel + 1, rowBlocks, i =>
    let p := colorPick bb row rowBlocks s i
    buildRow bb row s fuel
      (rowBlocks ++ [{ color := some p.1, row := row, col := rowBlocks.length,
                       specialType := none, obstacle := none }]) p.2

/-- The outer `for (row …)` loop of `createInitialBoard`. -/
def buildRows (s : Nat → GColor) : Nat → List (List Block) → Nat → List (List Block)
  | 0, bb, _ => bb
  | fuel + 1, bb, i =>
    let p := buildRow bb bb.length s GRID_SIZE [] i
    buildRows s fuel (bb ++ [p.1]) p.2

/-- Set `specialType` of cell `(r, c)` in a list-of-rows board. -/
def setSpecial (bb : List (List Block)) (r c : Nat) (t : SpecialType) :
    List (List Block) :=
  bb.set r ((bb.getD r []).set c { (bb.getD r []).getD c junkBlock with specialType := t })

/-- `ROCKET_COUNTS` / `PROPELLER_COUNTS` of `boardUtils.ts`. -/
inductive Difficulty | easy | medium
deriving DecidableEq, Repr

def ROCKET_COUNTS : Difficulty → Nat
  | .easy => 4
  | .medium => 0

def PROPELLER_COUNTS : Difficulty → Nat
  | .easy => 2
  | .medium => 0

/-- The rejection-sampling placement loops of `createInitialBoard`: draw
positions until `count` fresh ones are found (fuel-bounded; each attempt
consumes one draw of the position stream, and each successful rocket
placement one draw of the orientation stream). -/
def placeSpecials (bb : List (List Block)) (posStream : Nat → Pos)
    (orientStream : Nat → Bool) (isRocket : Bool) (count : Nat) :
    Nat → List Pos → Nat → Nat → List (List Block) × List Pos × Nat × Nat
  | 0, used, pi2, oi => (bb, used, pi2, oi)
  | fuel + 1, used, pi2, oi =>
    if used.length < count then
      let p := posStream pi2
      if p ∈ used then placeSpecials bb posStream orientStream isRocket count fuel used (pi2 + 1) oi
      else
        let t : SpecialType :=
          if isRocket then
            if orientStream oi then some .rocketH else some .rocketV
          else some .propeller
        let bb2 := setSpecial bb p.1 p.2 t
        -- continue on the updated board
        (placeSpecials bb2 posStream orientStream isRocket count fuel (used ++ [p]) (pi2 + 1)
          (if isRocket then oi + 1 else oi))
    else (bb, used, pi2, oi)

/-- `createInitialBoard` of `boardUtils.ts`, parameterised by the color,
position and orientation streams that model its `Math.random()` calls.
In the source the propeller loop starts from the `usedPositions`
accumulated by the rocket loop, as here. -/
def createInitialBoard (difficulty : Difficulty) (s : Nat → GColor)
    (posStream : Nat → Pos) (orientStream : Nat → Bool) : List (List Block) :=
  let bb := buildRows s GRID_SIZE [] 0
  let rocketCount := ROCKET_COUNTS difficulty
  let (bb, used, pi2, oi) :=
    placeSpecials bb posStream orientStream true rocketCount 64 [] 0 0
  let propellerCount := PROPELLER_COUNTS difficulty
  let (bb, _, _, _) :=
    placeSpecials bb posStream orientStream false (used.length + propellerCount) 64 used pi2 oi
  bb

/-! ## Combo fusion engine and swap resolution (game-logic hook) -/

/-- `ComboType` of the game-logic hook. -/
inductive ComboType
  | rocketRocket | rocketBomb | rocketRainbow | bombBomb | bombRainbow
  | rainbowRainbow | propellerRocket | propellerBomb | propellerRainbow
  | propellerPropeller
deriving DecidableEq, Repr

/-- The rocket-orientation normalisation inside `detectComboType`. -/
inductive NormSpecial
  | rocket | bomb | rainbow | propeller
deriving DecidableEq, Repr

def normalizeSpecial : SpecialType → Option NormSpecial
  | some .rocketH => some .rocket
  | some .rocketV => some .rocket
  | some .bomb => some .bomb
  | some .rainbow => some .rainbow
  | some .propeller => some .propeller
  | none => none

/-- `detectComboType` of the game-logic hook: the fusion selected by the
unordered pair of normalised special kinds (the source sorts the two
names and looks the joined key up in `comboMap`). -/
def detectComboType (type1 type2 : SpecialType) : Option ComboType :=
  let pair (a b : NormSpecial) : Option ComboType :=
    match a, b with
    | .rocket, .rocket => some .rocketRocket
    | .rocket, .bomb => some .rocketBomb
    | .bomb, .rocket => some .rocketBomb
    | .rocket, .rainbow => some .rocketRainbow
    | .rainbow, .rocket => some .rocketRainbow
    | .bomb, .bomb => some .bombBomb
    | .bomb, .rainbow => some .bombRainbow
    | .rainbow, .bomb => some .bombRainbow
    | .rainbow, .rainbow => some .rainbowRainbow
    | .propeller, .rocket => some .propellerRocket
    | .rocket, .propeller => some .propellerRocket
    | .propeller, .bomb => some .propellerBomb
    | .bomb, .propeller => some .propellerBomb
    | .propeller, .rainbow => some .propellerRainbow
    | .rainbow, .propeller => some .propellerRainbow
    | .propeller, .propeller => some .propellerPropeller
  match normalizeSpecial type1, normalizeSpecial type2 with
  | some n1, some n2 => pair n1 n2
  | _, _ => none

/-- The candidate score of `findBestPropellerTargets` in the game-logic
hook: special-kind bonus plus `r * 2` (all integer arithmetic). -/
def comboTargetScore (block : Block) (r : Nat) : Nat :=
  (match block.specialType with
   | some .rainbow => 100
   | some .bomb => 80
   | some .rocketH => 60
   | some .rocketV => 60
   | some .propeller => 40
   | none => 0) + r * 2

/-- Stable descending insertion sort: an earlier element stays before a
later one of equal key, matching the stable JS `sort((a, b) => b.score - a.score)`. -/
def insertDesc (x : TCand) : List TCand → List TCand
  | [] => [x]
  | y :: ys => if x.key ≥ y.key then x :: y :: ys else y :: insertDesc x ys

def sortDesc (l : List TCand) : List TCand := l.foldr insertDesc []

/-- `findBestPropellerTargets` of the game-logic hook (the combo
variant): every colored non-cleared cell is a candidate, sorted stably
by descending score, and the first `count` are taken. -/
def findBestPropellerTargets (board : Board) (count : Nat) (alreadyCleared : List Pos) :
    List Pos :=
  let candidates :=
    (List.range GRID_SIZE).foldl (fun acc r =>
      (List.range GRID_SIZE).foldl (fun acc c =>
        if (r, c) ∈ alreadyCleared then acc
        else if (getBlock board r c).color = none then acc
        else acc ++ [⟨r, c, comboTargetScore (getBlock board r c) r⟩]) acc) []
  ((sortDesc candidates).take count).map (fun t => (t.row, t.col))

/-- The in-bounds 5×5 neighbourhood of `(row, col)` (`dr, dc ∈ -2..2`). -/
def cells5x5 (row col : Nat) : List Pos :=
  ([-2, -1, 0, 1, 2] : List Int).foldl (fun acc dr =>
    ([-2, -1, 0, 1, 2] : List Int).foldl (fun acc dc =>
      let r := (row : Int) + dr
      let c := (col : Int) + dc
      if 0 ≤ r ∧ r < (GRID_SIZE : Int) ∧ 0 ≤ c ∧ c < (GRID_SIZE : Int) then
        acc ++ [(r.toNat, c.toNat)]
      else acc) acc) []

/-- The clear set (`toRemove`) computed by `executeCombo`, starting from
the swap cell itself.  The `rocket-rainbow` branch consumes one draw of
the orientation stream per matching cell (`Math.random() > 0.5` picks
`rocket-h`). -/
def comboToRemove (comboType : ComboType) (row col : Nat) (color : Color)
    (newBoard : Board) (orientStream : Nat → Bool) : List Pos :=
  let toRemove := setAdd [] (row, col)
  match comboType with
  | .rocketRocket =>
    let toRemove := (List.range GRID_SIZE).foldl (fun s c => setAdd s (row, c)) toRemove
    (List.range GRID_SIZE).foldl (fun s r => setAdd s (r, col)) toRemove
  | .rocketBomb =>
    ([-1, 0, 1] : List Int).foldl (fun s dr =>
      let r := (row : Int) + dr
      if 0 ≤ r ∧ r < (GRID_SIZE : Int) then
        (List.range GRID_SIZE).foldl (fun s c => setAdd s (r.toNat, c)) s
      else s) toRemove
  | .bombBomb => (cells5x5 row col).foldl setAdd toRemove
  | .rainbowRainbow => allPositions.foldl setAdd toRemove
  | .rocketRainbow =>
    (allPositions.foldl (fun (acc : List Pos × Nat) p =>
      let (s, k) := acc
      if (getBlock newBoard p.1 p.2).color = color then
        let s := setAdd s p
        if orientStream k then
          ((List.range GRID_SIZE).foldl (fun s cc => setAdd s (p.1, cc)) s, k + 1)
        else
          ((List.range GRID_SIZE).foldl (fun s rr => setAdd s (rr, p.2)) s, k + 1)
      else acc) (toRemove, 0)).1
  | .bombRainbow =>
    allPositions.foldl (fun s p =>
      if (getBlock newBoard p.1 p.2).color = color then
        (cells3x3 p.1 p.2).foldl setAdd s
      else s) toRemove
  | .propellerRocket | .propellerPropeller | .propellerRainbow =>
    let targets := findBestPropellerTargets newBoard 3 toRemove
    targets.foldl (fun s t => (cells3x3 t.1 t.2).foldl setAdd s) toRemove
  | .propellerBomb =>
    let targets := findBestPropellerTargets newBoard 1 toRemove
    match targets with
    | t :: _ => (cells5x5 t.1 t.2).foldl setAdd toRemove
    | [] => toRemove

/-- Outcome of one combo fusion. -/
structure ComboOutcome where
  board : Board
  toRemove : List Pos
  comboScore : Nat
deriving DecidableEq

/-- `executeCombo` of the game-logic hook: compute the clear set, award
the flat `200 + 15 · |toRemove|` bonus, and blank color/specialType of
every cleared cell (the write `{...newBoard[r][c], color: '',
specialType: null}` keeps the obstacle field). -/
def executeCombo (comboType : ComboType) (row col : Nat) (color : Color)
    (currentBoard : Board) (orientStream : Nat → Bool) : ComboOutcome :=
  let newBoard := currentBoard
  let toRemove := comboToRemove comboType row col color newBoard orientStream
  let comboScore := 200 + toRemove.length * 15
  let cleared := toRemove.foldl
    (fun nb p => setBlock nb p.1 p.2
      { getBlock nb p.1 p.2 with color := none, specialType := none }) newBoard
  { board := cleared, toRemove := toRemove, comboScore := comboScore }

/-- The score/combo state update of `executeCombo`
(`setScore(prev => prev + comboScore)`, `setCombo(prev => prev + 1)`):
the flat bonus is added without the cascade combo multiplier. -/
def executeComboScoreUpdate (comboScore score combo : Nat) : Nat × Nat :=
  (score + comboScore, combo + 1)

/-- `isSpecial` inside `onSwapAnimationComplete`. -/
def isSpecialT : SpecialType → Bool
  | some .rocketH => true
  | some .rocketV => true
  | some .rainbow => true
  | some .bomb => true
  | some .propeller => true
  | none => false

/-- Result of resolving one completed swap. -/
inductive SwapOutcome
  | accepted (b : Board)
  | reverted (b : Board)
  | combo (o : ComboOutcome)
deriving DecidableEq

/-- The non-combo path of `onSwapAnimationComplete` plus
`onReverseAnimationComplete`: perform the swap; keep the swapped board
when it has matches, otherwise swap back (the reverse animation ends in
the second `swapBlocks`) and return to idle. -/
def normalSwapResolve (board : Board) (fromP toP : Pos) : SwapOutcome :=
  let newBoard := swapBlocks board fromP.1 fromP.2 toP.1 toP.2
  if (findMatches newBoard).matchList.length > 0 then .accepted newBoard
  else .reverted (swapBlocks newBoard toP.1 toP.2 fromP.1 fromP.2)

/-- `onSwapAnimationComplete` of the game-logic hook: two special
endpoints with a known fusion run `executeCombo` on the swapped board at
the `to` cell with `block1.color || block2.color`; every other swap goes
through normal match detection with revert-on-no-match. -/
def swapMove (board : Board) (fromP toP : Pos) (orientStream : Nat → Bool) :
    SwapOutcome :=
  let block1 := getBlock board fromP.1 fromP.2
  let block2 := getBlock board toP.1 toP.2
  if isSpecialT block1.specialType ∧ isSpecialT block2.specialType then
    match detectComboType block1.specialType block2.specialType with
    | some comboType =>
      let newBoard := swapBlocks board fromP.1 fromP.2 toP.1 toP.2
      let targetColor := match block1.color with
        | some c => some c
        | none => block2.color
      .combo (executeCombo comboType toP.1 toP.2 targetColor newBoard orientStream)
    | none => normalSwapResolve board fromP toP
  else normalSwapResolve board fromP toP

/-! ## Theorems -/

/-- The additive step of `calculateScore`'s match loop equals the spec
formula term. -/
theorem calcStep_eq (m : Match) (s : Nat) :
    (let blockCount := m.blocks.length
     let s2 := s + blockCount * 10
     if blockCount > 3 then s2 + (blockCount - 3) * 15 else s2) =
      s + (10 * m.blocks.length + 15 * (m.blocks.length - 3)) := by
  by_cases h : m.blocks.length > 3
  · simp only [h, if_pos]
    ring_nf
  · have h3 : m.blocks.length - 3 = 0 := by omega
    simp [h, h3]
    ring

theorem calc_fold_eq (l : List Match) (s : Nat) :
    l.foldl (fun score m =>
      let blockCount := m.blocks.length
      let score := score + blockCount * 10
      if blockCount > 3 then score + (blockCount - 3) * 15 else score) s =
      s + (l.map (fun m => 10 * m.blocks.length + 15 * (m.blocks.length - 3))).sum := by
  induction l generalizing s with
  | nil => simp
  | cons m t ih =>
    simp only [List.foldl_cons, List.map_cons, List.sum_cons]
    rw [ih]
    have := calcStep_eq m s
    simp only at this
    rw [this]
    ring

/-- `calculateScore` computes the spec's closed formula. -/
theorem calculateScore_eq_spec (mr : MatchResult) :
    calculateScore mr = specRoundScore mr := by
  unfold calculateScore specRoundScore
  rw [calc_fold_eq]
  ring

/-- `Nat` division by 2 is the rational floor of the half-integer the
source computes with floats. -/
theorem half_floor_eq (n cmb : Nat) :
    ((n * (2 + cmb) / 2 : Nat) : ℤ) = ⌊(n : ℚ) * (1 + (cmb : ℚ) * (1 / 2))⌋ := by
  have h : (n : ℚ) * (1 + (cmb : ℚ) * (1 / 2)) = ((n * (2 + cmb) : ℕ) : ℚ) / ((2 : ℕ) : ℚ) := by
    push_cast
    ring
  rw [h, Rat.floor_natCast_div_natCast]
  exact Int.ofNat_tdiv _ _

/-- Build an 8×8 board from a cell function (for concrete instances). -/
def mkBoard (f : Nat → Nat → Block) : Board :=
  (List.range GRID_SIZE).map (fun r => (List.range GRID_SIZE).map (fun c => f r c))

/-- A plain colored block with no special and no obstacle. -/
def plainBlock (r c : Nat) (col : Color) : Block :=
  { color := col, row := r, col := c, specialType := none, obstacle := none }

/-- A two-coloring with no run of two equal colors in a row or column. -/
def checkerColor (r c : Nat) : Color :=
  if (r + c) % 2 = 0 then some .green else some .blue

/-- A board whose only run is the horizontal red 4-run at row 0,
columns 0–3. -/
def fourRunBoard : Board :=
  mkBoard (fun r c => plainBlock r c (if r = 0 ∧ c < 4 then some .red else checkerColor r c))

/-- C2: `calculateScore` is the spec formula
Σ (10·len + 15·max(0,len−3)) + 50·rockets + 100·rainbows + 75·bombs +
60·propellers, and the cascade round awards that amount multiplied by
`(1 + comboCount × 0.5)` **and floored to an integer** (amended), with
the combo counter incrementing on a matching round and resetting to 0 on
an empty round. -/
theorem C2_round_score :
    (∀ mr : MatchResult, calculateScore mr = specRoundScore mr) ∧
    (∀ (b : Board) (score combo : Nat),
      processRound b score combo =
        if (findMatches b).matchList.isEmpty then (score, 0)
        else (score + specRoundScore (findMatches b) * (2 + combo) / 2, combo + 1)) ∧
    (∀ n cmb : Nat,
      ((n * (2 + cmb) / 2 : Nat) : ℤ) = ⌊(n : ℚ) * (1 + (cmb : ℚ) * (1 / 2))⌋) := by
  refine ⟨calculateScore_eq_spec, ?_, half_floor_eq⟩
  intro b score combo
  unfold processRound
  rcases h : (findMatches b).matchList with _ | ⟨m, t⟩
  · simp [h]
  · simp [h, calculateScore_eq_spec]

/-- C2 counterexample: on the board with a single red 4-run, at combo
count 1, the base score is 55 but the awarded score is 82, while the
claim's unfloored formula gives 55 × 1.5 = 82.5 — the claim omits the
floor. -/
theorem C2_counterexample :
    calculateScore (findMatches fourRunBoard) = 55 ∧
    processRound fourRunBoard 0 1 = (82, 2) ∧
    ¬(((processRound fourRunBoard 0 1).1 : ℚ) =
        (calculateScore (findMatches fourRunBoard) : ℚ) * (1 + (1 : ℚ) * (1 / 2))) := by
  refine ⟨by decide, by decide, ?_⟩
  have h1 : (processRound fourRunBoard 0 1).1 = 82 := by decide
  have h2 : calculateScore (findMatches fourRunBoard) = 55 := by decide
  rw [h1, h2]
  norm_num

/-! ### Read-after-write lemmas for the board -/

theorem getBlock_setBlock (b : Board) (r c : Nat) (blk : Block) (r' c' : Nat) :
    getBlock (setBlock b r c blk) r' c' =
      if r = r' ∧ c = c' ∧ r < b.length ∧ c < (b.getD r []).length then blk
      else getBlock b r' c' := by
  unfold getBlock setBlock
  simp only [List.getD_eq_getElem?_getD, List.getElem?_set]
  by_cases hr : r = r'
  · subst hr
    by_cases hrl : r < b.length
    · simp only [hrl, if_true, if_pos rfl, Option.getD_some]
      rw [List.getElem?_set]
      by_cases hc : c = c'
      · subst hc
        have hbr : b[r]?.getD [] = b[r] := by simp [List.getElem?_eq_getElem hrl]
        by_cases hcl : c < (b[r]?.getD []).length
        · rw [hbr] at hcl
          simp [hcl, hrl, hbr]
        · rw [hbr] at hcl
          have hnone : (b[r])[c]? = none := List.getElem?_eq_none (le_of_not_lt hcl)
          simp [hcl, hrl, hbr, hnone]
      · simp [hc, hrl]
    · have hnone : b[r]? = none := List.getElem?_eq_none (le_of_not_lt hrl)
      simp [hrl, hnone]
  · simp [hr]

theorem getBlock_setBlock_ne (b : Board) (r c : Nat) (blk : Block) (r' c' : Nat)
    (h : ¬(r = r' ∧ c = c')) :
    getBlock (setBlock b r c blk) r' c' = getBlock b r' c' := by
  rw [getBlock_setBlock]
  have hx : ¬(r = r' ∧ c = c' ∧ r < b.length ∧ c < (b.getD r []).length) := by
    rintro ⟨h1, h2, -⟩; exact h ⟨h1, h2⟩
  rw [if_neg hx]

theorem length_setBlock (b : Board) (r c : Nat) (blk : Block) :
    (setBlock b r c blk).length = b.length := by
  unfold setBlock; exact List.length_set ..

theorem rowLength_setBlock (b : Board) (r c : Nat) (blk : Block) (r' : Nat) :
    ((setBlock b r c blk).getD r' []).length = (b.getD r' []).length := by
  unfold setBlock
  simp only [List.getD_eq_getElem?_getD, List.getElem?_set]
  by_cases hr : r = r'
  · subst hr
    by_cases hrl : r < b.length
    · simp [hrl, List.length_set]
    · have hnone : b[r]? = none := List.getElem?_eq_none (le_of_not_lt hrl)
      simp [hrl, hnone]
  · simp [hr]

/-- An 8×8 board shape (always true of boards the engine builds). -/
def wfBoard (b : Board) : Prop :=
  b.length = GRID_SIZE ∧ ∀ r, r < GRID_SIZE → (b.getD r []).length = GRID_SIZE

instance (b : Board) : Decidable (wfBoard b) := by
  unfold wfBoard; infer_instance

/-! ### C3: rocket+rocket fusion -/

/-- C3: a rocket+rocket fusion at (3,3) clears exactly row 3 ∪ column 3
(15 cells), awards the flat 200 + 15×15 = 425 bonus, and the score
update adds it unmultiplied for every current combo count. -/
theorem C3_rocket_fusion (b : Board) (color : Color) (orientStream : Nat → Bool)
    (score combo : Nat) :
    (∀ p : Pos, p ∈ (executeCombo .rocketRocket 3 3 color b orientStream).toRemove ↔
        ((p.1 = 3 ∧ p.2 < GRID_SIZE) ∨ (p.2 = 3 ∧ p.1 < GRID_SIZE))) ∧
    (executeCombo .rocketRocket 3 3 color b orientStream).toRemove.length = 15 ∧
    (executeCombo .rocketRocket 3 3 color b orientStream).comboScore = 200 + 15 * 15 ∧
    executeComboScoreUpdate
        (executeCombo .rocketRocket 3 3 color b orientStream).comboScore score combo =
      (score + 425, combo + 1) := by
  have hto : (executeCombo .rocketRocket 3 3 color b orientStream).toRemove =
      [(3, 3), (3, 0), (3, 1), (3, 2), (3, 4), (3, 5), (3, 6), (3, 7),
       (0, 3), (1, 3), (2, 3), (4, 3), (5, 3), (6, 3), (7, 3)] := rfl
  refine ⟨?_, by rw [hto]; rfl, by rfl, by rfl⟩
  intro p
  obtain ⟨p1, p2⟩ := p
  rw [hto]
  simp only [List.mem_cons, List.not_mem_nil, or_false, Prod.mk.injEq, GRID_SIZE]
  omega

/-! ### C10: combo fusion never touches obstacles -/

/-- One step of the `executeCombo` removal loop. -/
def comboClearStep (nb : Board) (p : Pos) : Board :=
  setBlock nb p.1 p.2 { getBlock nb p.1 p.2 with color := none, specialType := none }

theorem executeCombo_board_eq_fold (t : ComboType) (row col : Nat) (color : Color)
    (b : Board) (orientStream : Nat → Bool) :
    (executeCombo t row col color b orientStream).board =
      (executeCombo t row col color b orientStream).toRemove.foldl comboClearStep b := rfl

theorem comboClearFold_obstacle (l : List Pos) (nb : Board) (r c : Nat) :
    (getBlock (l.foldl comboClearStep nb) r c).obstacle = (getBlock nb r c).obstacle := by
  induction l generalizing nb with
  | nil => rfl
  | cons p t ih =>
    rw [List.foldl_cons, ih]
    unfold comboClearStep
    rw [getBlock_setBlock]
    split
    · next h => simp [← h.1, ← h.2.1]
    · rfl

theorem comboClearFold_notMem (l : List Pos) (nb : Board) (r c : Nat)
    (h : (r, c) ∉ l) :
    getBlock (l.foldl comboClearStep nb) r c = getBlock nb r c := by
  induction l generalizing nb with
  | nil => rfl
  | cons p t ih =>
    rw [List.foldl_cons, ih _ (fun hm => h (List.mem_cons_of_mem _ hm))]
    unfold comboClearStep
    refine getBlock_setBlock_ne _ _ _ _ _ _ ?_
    rintro ⟨h1, h2⟩
    exact h (by simp [← h1, ← h2])

theorem wf_setBlock (b : Board) (r c : Nat) (blk : Block) (h : wfBoard b) :
    wfBoard (setBlock b r c blk) := by
  refine ⟨by rw [length_setBlock]; exact h.1, fun r' hr' => ?_⟩
  rw [rowLength_setBlock]; exact h.2 r' hr'

theorem comboClearFold_mem (l : List Pos) (nb : Board) (p : Pos)
    (hwf : wfBoard nb) (hp : p ∈ l) (h1 : p.1 < GRID_SIZE) (h2 : p.2 < GRID_SIZE) :
    (getBlock (l.foldl comboClearStep nb) p.1 p.2).color = none ∧
      (getBlock (l.foldl comboClearStep nb) p.1 p.2).specialType = none := by
  induction l generalizing nb with
  | nil => cases hp
  | cons q t ih =>
    rw [List.foldl_cons]
    by_cases hqt : p ∈ t
    · exact ih _ (wf_setBlock _ _ _ _ hwf) hqt
    · have hpq : p = q := by
        rcases List.mem_cons.mp hp with h | h
        · exact h
        · exact absurd h hqt
      subst hpq
      rw [comboClearFold_notMem _ _ _ _ (by simpa using hqt)]
      unfold comboClearStep
      rw [getBlock_setBlock]
      have hin : p.1 = p.1 ∧ p.2 = p.2 ∧ p.1 < nb.length ∧ p.2 < (nb.getD p.1 []).length := by
        refine ⟨rfl, rfl, ?_, ?_⟩
        · rw [hwf.1]; exact h1
        · rw [hwf.2 p.1 h1]; exact h2
      rw [if_pos hin]
      exact ⟨rfl, rfl⟩

/-- Agreement of two boards on the color and specialType of every grid
cell (obstacles may differ). -/
def agreeColorSpecial (a b : Board) : Prop :=
  ∀ r, r < GRID_SIZE → ∀ c, c < GRID_SIZE →
    (getBlock a r c).color = (getBlock b r c).color ∧
    (getBlock a r c).specialType = (getBlock b r c).specialType

instance (a b : Board) : Decidable (agreeColorSpecial a b) :=
  Nat.decidableBallLT GRID_SIZE
    (fun r _ => ∀ c, c < GRID_SIZE →
      (getBlock a r c).color = (getBlock b r c).color ∧
      (getBlock a r c).specialType = (getBlock b r c).specialType)

theorem mem_allPositions (p : Pos) (h : p ∈ allPositions) :
    p.1 < GRID_SIZE ∧ p.2 < GRID_SIZE := by
  unfold allPositions at h
  rcases List.mem_flatMap.mp h with ⟨r, hr, hp⟩
  rcases List.mem_map.mp hp with ⟨c, hc, rfl⟩
  exact ⟨List.mem_range.mp hr, List.mem_range.mp hc⟩

/-- The combo clear set reads the board only through `color` and
`specialType`: boards agreeing on those produce the same clear set. -/
theorem comboToRemove_obstacle_blind (t : ComboType) (row col : Nat) (color : Color)
    (b1 b2 : Board) (orientStream : Nat → Bool)
    (h : agreeColorSpecial b1 b2) :
    comboToRemove t row col color b1 orientStream =
      comboToRemove t row col color b2 orientStream := by
  have htargets : ∀ count cleared, findBestPropellerTargets b1 count cleared =
      findBestPropellerTargets b2 count cleared := by
    intro count cleared
    unfold findBestPropellerTargets
    have hcand : ∀ acc, (List.range GRID_SIZE).foldl (fun acc r =>
        (List.range GRID_SIZE).foldl (fun acc c =>
          if (r, c) ∈ cleared then acc
          else if (getBlock b1 r c).color = none then acc
          else acc ++ [(⟨r, c, comboTargetScore (getBlock b1 r c) r⟩ : TCand)]) acc) acc =
        (List.range GRID_SIZE).foldl (fun acc r =>
        (List.range GRID_SIZE).foldl (fun acc c =>
          if (r, c) ∈ cleared then acc
          else if (getBlock b2 r c).color = none then acc
          else acc ++ [(⟨r, c, comboTargetScore (getBlock b2 r c) r⟩ : TCand)]) acc) acc := by
      intro acc
      refine List.foldl_ext _ _ _ (fun a r hr => ?_)
      refine List.foldl_ext _ _ _ (fun a2 c hc => ?_)
      have hb := h r (List.mem_range.mp hr) c (List.mem_range.mp hc)
      rw [hb.1]
      unfold comboTargetScore
      rw [hb.2]
    simp only [hcand]
  unfold comboToRemove
  cases t
  case rocketRocket => rfl
  case rocketBomb => rfl
  case bombBomb => rfl
  case rainbowRainbow => rfl
  case rocketRainbow =>
    simp only
    congr 1
    refine List.foldl_ext _ _ _ (fun a p hp => ?_)
    rw [(h p.1 (mem_allPositions p hp).1 p.2 (mem_allPositions p hp).2).1]
  case bombRainbow =>
    simp only
    refine List.foldl_ext _ _ _ (fun a p hp => ?_)
    rw [(h p.1 (mem_allPositions p hp).1 p.2 (mem_allPositions p hp).2).1]
  case propellerRocket => simp only [htargets]
  case propellerPropeller => simp only [htargets]
  case propellerRainbow => simp only [htargets]
  case propellerBomb => simp only [htargets]

/-- C10: executing a combo fusion leaves every cell's obstacle exactly
as it was (no damage, blockers untouched); a cleared cell loses only its
color and specialType, other cells are untouched; the flat score counts
every cleared cell, obstacle or not — the clear set is computed without
looking at obstacles. -/
theorem C10_combo_obstacle_frame (t : ComboType) (row col : Nat) (color : Color)
    (b : Board) (orientStream : Nat → Bool) :
    (∀ r c, (getBlock (executeCombo t row col color b orientStream).board r c).obstacle =
        (getBlock b r c).obstacle) ∧
    (∀ p : Pos, p ∈ (executeCombo t row col color b orientStream).toRemove →
      p.1 < GRID_SIZE → p.2 < GRID_SIZE → wfBoard b →
      (getBlock (executeCombo t row col color b orientStream).board p.1 p.2).color = none ∧
      (getBlock (executeCombo t row col color b orientStream).board p.1 p.2).specialType = none) ∧
    (∀ r c, ((r, c) : Pos) ∉ (executeCombo t row col color b orientStream).toRemove →
      getBlock (executeCombo t row col color b orientStream).board r c = getBlock b r c) ∧
    (executeCombo t row col color b orientStream).comboScore =
      200 + (executeCombo t row col color b orientStream).toRemove.length * 15 ∧
    (∀ b2, agreeColorSpecial b b2 →
      (executeCombo t row col color b2 orientStream).toRemove =
        (executeCombo t row col color b orientStream).toRemove) := by
  refine ⟨?_, ?_, ?_, rfl, ?_⟩
  · intro r c
    rw [executeCombo_board_eq_fold]
    exact comboClearFold_obstacle _ _ _ _
  · intro p hp h1 h2 hwf
    rw [executeCombo_board_eq_fold]
    exact comboClearFold_mem _ _ _ hwf hp h1 h2
  · intro r c hnot
    rw [executeCombo_board_eq_fold]
    exact comboClearFold_notMem _ _ _ _ hnot
  · intro b2 hagree
    show comboToRemove t row col color b2 orientStream =
      comboToRemove t row col color b orientStream
    exact comboToRemove_obstacle_blind _ _ _ _ _ _ _
      (fun r hr c hc => ⟨((hagree r hr c hc).1).symm, ((hagree r hr c hc).2).symm⟩)

/-- A checkered board with a 2-health box obstacle at (3,4). -/
def boxedBoard : Board :=
  mkBoard (fun r c =>
    if r = 3 ∧ c = 4 then
      { color := checkerColor r c, row := r, col := c, specialType := none,
        obstacle := some ⟨.box, 2⟩ }
    else plainBlock r c (checkerColor r c))

/-- The same board with its obstacle removed. -/
def boxedBoardBare : Board := mkBoard (fun r c => plainBlock r c (checkerColor r c))

/-- Instance of C10: a bomb+bomb fusion at (3,3) clears the obstacle
cell (3,4) — color and special gone — while its box obstacle survives
untouched, and the clear set ignores obstacles entirely. -/
theorem C10_combo_obstacle_frame_witness :
    (((3, 4) : Pos) ∈ (executeCombo .bombBomb 3 3 (some .red) boxedBoard (fun _ => true)).toRemove ∧
      wfBoard boxedBoard) ∧
    ((getBlock (executeCombo .bombBomb 3 3 (some .red) boxedBoard (fun _ => true)).board 3 4).color = none ∧
      (getBlock (executeCombo .bombBomb 3 3 (some .red) boxedBoard (fun _ => true)).board 3 4).specialType = none) ∧
    (getBlock (executeCombo .bombBomb 3 3 (some .red) boxedBoard (fun _ => true)).board 3 4).obstacle =
      (getBlock boxedBoard 3 4).obstacle ∧
    (executeCombo .bombBomb 3 3 (some .red) boxedBoardBare (fun _ => true)).toRemove =
      (executeCombo .bombBomb 3 3 (some .red) boxedBoard (fun _ => true)).toRemove := by
  refine ⟨⟨by decide, by decide⟩, ?_, ?_, ?_⟩
  · exact (C10_combo_obstacle_frame .bombBomb 3 3 (some .red) boxedBoard (fun _ => true)).2.1
      (3, 4) (by decide) (by decide) (by decide) (by decide)
  · exact (C10_combo_obstacle_frame .bombBomb 3 3 (some .red) boxedBoard (fun _ => true)).1 3 4
  · exact (C10_combo_obstacle_frame .bombBomb 3 3 (some .red) boxedBoard (fun _ => true)).2.2.2.2
      boxedBoardBare (by decide)

/-! ### C7 / C6: swap resolution -/

theorem content_withPos (b : Block) (r c : Nat) :
    content { b with row := r, col := c } = content b := rfl

/-- Applying a swap and its reversal restores every cell's value
(color, specialType, obstacle). -/
theorem swap_roundtrip (b : Board) (r1 c1 r2 c2 : Nat) (hwf : wfBoard b)
    (h1 : r1 < GRID_SIZE) (h2 : c1 < GRID_SIZE) (h3 : r2 < GRID_SIZE) (h4 : c2 < GRID_SIZE) :
    boardEq3 (swapBlocks (swapBlocks b r1 c1 r2 c2) r2 c2 r1 c1) b := by
  intro r hr c hc
  have hlen : b.length = GRID_SIZE := hwf.1
  have h5 := hwf.2 r1 h1
  have h6 := hwf.2 r2 h3
  unfold swapBlocks
  simp only [getBlock_setBlock, length_setBlock, rowLength_setBlock, hlen, h5, h6,
    h1, h2, h3, h4, and_true, true_and, content_withPos]
  split_ifs <;> simp_all <;> rfl

/-- C7: a swap of two adjacent, in-grid, not-both-special cells whose
post-swap board has zero matches is resolved by swapping back, and the
board after swap + reversal is value-equal (color, specialType,
obstacle) to the pre-swap board at every position. -/
theorem C7_invalid_swap_reverts (b : Board) (p q : Pos) (orientStream : Nat → Bool)
    (hwf : wfBoard b) (hp1 : p.1 < GRID_SIZE) (hp2 : p.2 < GRID_SIZE)
    (hq1 : q.1 < GRID_SIZE) (hq2 : q.2 < GRID_SIZE)
    (_hadj : areAdjacent p.1 p.2 q.1 q.2 = true)
    (hns : ¬(isSpecialT (getBlock b p.1 p.2).specialType = true ∧
        isSpecialT (getBlock b q.1 q.2).specialType = true))
    (hnm : (findMatches (swapBlocks b p.1 p.2 q.1 q.2)).matchList = []) :
    swapMove b p q orientStream =
      .reverted (swapBlocks (swapBlocks b p.1 p.2 q.1 q.2) q.1 q.2 p.1 p.2) ∧
    boardEq3 (swapBlocks (swapBlocks b p.1 p.2 q.1 q.2) q.1 q.2 p.1 p.2) b := by
  constructor
  · unfold swapMove
    rw [if_neg (by simpa using hns)]
    simp [normalSwapResolve, hnm]
  · exact swap_roundtrip b p.1 p.2 q.1 q.2 hwf hp1 hp2 hq1 hq2

/-- A checkered board with no matches anywhere. -/
def checkerBoard : Board := mkBoard (fun r c => plainBlock r c (checkerColor r c))

/-- Witness for C7: swapping (0,0) and (0,1) on the checkered board
yields no matches and is reverted exactly. -/
theorem C7_invalid_swap_reverts_witness :
    swapMove checkerBoard (0, 0) (0, 1) (fun _ => true) =
      .reverted (swapBlocks (swapBlocks checkerBoard 0 0 0 1) 0 1 0 0) ∧
    boardEq3 (swapBlocks (swapBlocks checkerBoard 0 0 0 1) 0 1 0 0) checkerBoard :=
  C7_invalid_swap_reverts checkerBoard (0, 0) (0, 1) (fun _ => true)
    (by decide) (by decide) (by decide) (by decide) (by decide) (by decide)
    (by decide) (by decide)

/-- A board whose cell (0,3) is a blocker and where swapping the red at
(1,3) up into row 0 completes a red horizontal triple. -/
def blockerSwapBoard : Board :=
  mkBoard (fun r c =>
    if r = 0 ∧ c = 3 then
      { color := none, row := r, col := c, specialType := none,
        obstacle := some ⟨.blocker, 999⟩ }
    else if (r = 0 ∧ (c = 1 ∨ c = 2)) ∨ (r = 1 ∧ c = 3) then
      plainBlock r c (some .red)
    else plainBlock r c (checkerColor r c))

/-- C6 counterexample: the engine accepts a swap with the blocker at
(0,3) — the post-swap board has a match, so the board is kept with the
blocker moved to (1,3): the swap is not rejected and the state changes. -/
theorem C6_counterexample :
    isBlockerB (getBlock blockerSwapBoard 0 3) = true ∧
    swapMove blockerSwapBoard (1, 3) (0, 3) (fun _ => true) =
      .accepted (swapBlocks blockerSwapBoard 1 3 0 3) ∧
    isBlockerB (getBlock (swapBlocks blockerSwapBoard 1 3 0 3) 1 3) = true ∧
    ¬ boardEq3 (swapBlocks blockerSwapBoard 1 3 0 3) blockerSwapBoard := by
  refine ⟨by decide, by decide, by decide, by decide⟩

/-- C6 (amended): a swap involving a blocker cell is not rejected up
front — only the demo AI's `canSwap` refuses blockers.  The swap goes
through normal match resolution: when it yields zero matches it is
reverted with no net state change, but a blocker swap that creates a
match commits and moves the blocker (see the counterexample). -/
theorem C6_blocker_swap (b : Board) (p q : Pos) (orientStream : Nat → Bool)
    (hwf : wfBoard b) (hp1 : p.1 < GRID_SIZE) (hp2 : p.2 < GRID_SIZE)
    (hq1 : q.1 < GRID_SIZE) (hq2 : q.2 < GRID_SIZE)
    (hblk : isBlockerB (getBlock b q.1 q.2) = true)
    (hbs : (getBlock b q.1 q.2).specialType = none)
    (hnm : (findMatches (swapBlocks b p.1 p.2 q.1 q.2)).matchList = []) :
    canSwap (getBlock b q.1 q.2) = false ∧
    swapMove b p q orientStream =
      .reverted (swapBlocks (swapBlocks b p.1 p.2 q.1 q.2) q.1 q.2 p.1 p.2) ∧
    boardEq3 (swapBlocks (swapBlocks b p.1 p.2 q.1 q.2) q.1 q.2 p.1 p.2) b := by
  refine ⟨?_, ?_, swap_roundtrip b p.1 p.2 q.1 q.2 hwf hp1 hp2 hq1 hq2⟩
  · unfold canSwap
    by_cases hc : (getBlock b q.1 q.2).color = none
    · simp [hc]
    · simp [hc, hblk]
  · unfold swapMove
    rw [if_neg (by rw [hbs]; simp [isSpecialT])]
    simp [normalSwapResolve, hnm]

/-- Witness for C6 (amended): swapping the cell below a blocker with the
blocker yields no match on this quiet board, so it reverts exactly. -/
def blockerQuietBoard : Board :=
  mkBoard (fun r c =>
    if r = 0 ∧ c = 0 then
      { color := none, row := r, col := c, specialType := none,
        obstacle := some ⟨.blocker, 999⟩ }
    else plainBlock r c (checkerColor r c))

theorem C6_blocker_swap_witness :
    canSwap (getBlock blockerQuietBoard 0 0) = false ∧
    swapMove blockerQuietBoard (1, 0) (0, 0) (fun _ => true) =
      .reverted (swapBlocks (swapBlocks blockerQuietBoard 1 0 0 0) 0 0 1 0) ∧
    boardEq3 (swapBlocks (swapBlocks blockerQuietBoard 1 0 0 0) 0 0 1 0) blockerQuietBoard :=
  C6_blocker_swap blockerQuietBoard (1, 0) (0, 0) (fun _ => true)
    (by decide) (by decide) (by decide) (by decide) (by decide) (by decide)
    (by decide) (by decide)

/-! ### C1: no-spontaneous-match invariant -/

/-- Three in-bounds blocks form a run of equal matchable color. -/
def tripleAt (x y z : Block) : Bool :=
  canMatch x && canMatch y && canMatch z && x.color == y.color && y.color == z.color

/-- A run of ≥3 equal matchable colors exists somewhere (any such run
contains three consecutive cells, so this is exactly the spec's "no run
of ≥3" predicate). -/
def hasRun3 (b : Board) : Prop :=
  (∃ r, r < GRID_SIZE ∧ ∃ c, c + 2 < GRID_SIZE ∧
    tripleAt (getBlock b r c) (getBlock b r (c + 1)) (getBlock b r (c + 2)) = true) ∨
  (∃ c, c < GRID_SIZE ∧ ∃ r, r + 2 < GRID_SIZE ∧
    tripleAt (getBlock b r c) (getBlock b (r + 1) c) (getBlock b (r + 2) c) = true)

/-- All-red board with a hole at (0,2): gravity moves nothing (the hole
is at the top of its column) and the refill draws red. -/
def holeBoard : Board :=
  mkBoard (fun r c =>
    plainBlock r c (if r = 0 ∧ c = 2 then none else some .red))

/-- C1 counterexample: `fillEmptySpaces ∘ applyGravity` yields a board
with a horizontal run of three equal matchable colors — refill colors are
unconstrained, so the invariant fails after refill. -/
theorem C1_counterexample :
    hasRun3 (fillEmptySpaces (applyGravity holeBoard) (fun _ => .red)) :=
  Or.inl ⟨0, by decide, 0, by decide, by decide⟩

/-- `whileBad` establishes the loop's exit condition whenever some
palette color passes the test. -/
theorem whileBad_exit (bad : GColor → Bool) (s : Nat → GColor) (fuel : Nat)
    (c : GColor) (i : Nat) (h : ∃ g ∈ allGColors, bad g = false) :
    bad (whileBad bad s fuel c i).1 = false := by
  induction fuel generalizing c i with
  | zero =>
    unfold whileBad
    by_cases hc : bad c
    · simp only [hc, if_true]
      obtain ⟨g, hg, hbad⟩ := h
      have hsome : allGColors.find? (fun g => !bad g) ≠ none := by
        intro hnone
        have := List.find?_eq_none.mp hnone g hg
        simp [hbad] at this
      rcases hfind : allGColors.find? (fun g => !bad g) with _ | g'
      · exact absurd hfind hsome
      · have := List.find?_some hfind
        unfold firstGoodColor
        rw [hfind]
        simpa using this
    · simpa [hc]
  | succ fuel ih =>
    unfold whileBad
    by_cases hc : bad c
    · simpa [hc] using ih (s i) (i + 1)
    · simpa [hc]

/-- A test that can only accept one fixed color rejects some palette
color. -/
theorem exists_good (bad : GColor → Bool)
    (h : ∀ g g', bad g = true → bad g' = true → g = g') :
    ∃ g ∈ allGColors, bad g = false := by
  by_cases hr : bad .red = true
  · refine ⟨.green, by simp [allGColors], ?_⟩
    by_cases hg : bad .green = true
    · cases h _ _ hr hg
    · simpa using hg
  · exact ⟨.red, by simp [allGColors], by simpa using hr⟩

/-- `badVert` accepts at most one color. -/
theorem badVert_unique (bb : List (List Block)) (row col : Nat) (g g' : GColor)
    (h : badVert bb row col g = true) (h' : badVert bb row col g' = true) : g = g' := by
  unfold badVert at h h'
  simp only [Bool.and_eq_true, decide_eq_true_eq] at h h'
  have h1 := h.2.1
  have h2 := h'.2.1
  rw [h1] at h2
  exact Option.some.inj h2

/-- The color picked for a cell never completes a vertical triple. -/
theorem colorPick_exit (bb : List (List Block)) (row : Nat) (rowBlocks : List Block)
    (s : Nat → GColor) (i : Nat) :
    badVert bb row rowBlocks.length (colorPick bb row rowBlocks s i).1 = false := by
  unfold colorPick
  exact whileBad_exit _ _ _ _ _ (exists_good _ (badVert_unique bb row rowBlocks.length))

theorem buildRow_succ (bb : List (List Block)) (row : Nat) (s : Nat → GColor)
    (fuel : Nat) (rowBlocks : List Block) (i : Nat) :
    buildRow bb row s (fuel + 1) rowBlocks i =
      buildRow bb row s fuel
        (rowBlocks ++
          [{ color := some (colorPick bb row rowBlocks s i).1, row := row,
             col := rowBlocks.length, specialType := none, obstacle := none }])
        (colorPick bb row rowBlocks s i).2 := rfl

/-- The appended cells of `buildRow` carry a color passing the vertical
reroll exit condition; earlier cells are untouched; each step appends
exactly one block. -/
theorem buildRow_spec (bb : List (List Block)) (row : Nat) (s : Nat → GColor) :
    ∀ (fuel : Nat) (rowBlocks : List Block) (i : Nat),
      (buildRow bb row s fuel rowBlocks i).1.length = rowBlocks.length + fuel ∧
      (∀ k, k < rowBlocks.length →
        (buildRow bb row s fuel rowBlocks i).1.getD k junkBlock = rowBlocks.getD k junkBlock) ∧
      (∀ k, rowBlocks.length ≤ k → k < rowBlocks.length + fuel →
        ∃ g, ((buildRow bb row s fuel rowBlocks i).1.getD k junkBlock).color = some g ∧
          badVert bb row k g = false) := by
  intro fuel
  induction fuel with
  | zero =>
    intro rowBlocks i
    refine ⟨by simp [buildRow], fun k hk => rfl, fun k hk1 hk2 => absurd hk2 (by omega)⟩
  | succ fuel ih =>
    intro rowBlocks i
    rw [buildRow_succ]
    obtain ⟨ihlen, ihpre, ihnew⟩ :=
      ih (rowBlocks ++
          [{ color := some (colorPick bb row rowBlocks s i).1, row := row,
             col := rowBlocks.length, specialType := none, obstacle := none }])
        (colorPick bb row rowBlocks s i).2
    refine ⟨by rw [ihlen]; simp; omega, ?_, ?_⟩
    · intro k hk
      rw [ihpre k (by simp; omega)]
      exact List.getD_append _ _ _ _ hk
    · intro k hk1 hk2
      by_cases hke : k = rowBlocks.length
      · subst hke
        refine ⟨(colorPick bb row rowBlocks s i).1, ?_, ?_⟩
        · rw [ihpre rowBlocks.length (by simp)]
          simp [List.getD_eq_getElem?_getD, List.getElem?_concat_length]
        · exact colorPick_exit bb row rowBlocks s i
      · obtain ⟨g, hg1, hg2⟩ := ihnew k (by simp; omega) (by simp; omega)
        exact ⟨g, hg1, hg2⟩

/-- `badVert` only reads rows below `row`. -/
theorem badVert_congr (bb1 bb2 : List (List Block)) (row col : Nat) (g : GColor)
    (h : ∀ j, j < row → colorAt bb1 j col = colorAt bb2 j col) :
    badVert bb1 row col g = badVert bb2 row col g := by
  unfold badVert
  by_cases hr : row ≥ 2
  · rw [h (row - 1) (by omega), h (row - 2) (by omega)]
  · simp [hr]

theorem buildRows_succ (s : Nat → GColor) (fuel : Nat) (bb : List (List Block)) (i : Nat) :
    buildRows s (fuel + 1) bb i =
      buildRows s fuel (bb ++ [(buildRow bb bb.length s GRID_SIZE [] i).1])
        (buildRow bb bb.length s GRID_SIZE [] i).2 := rfl

/-- Every row built by `buildRows` has `GRID_SIZE` cells, each carrying
a color that fails the vertical reroll test against the final board. -/
theorem buildRows_spec (s : Nat → GColor) :
    ∀ (fuel : Nat) (bb : List (List Block)) (i : Nat),
      (buildRows s fuel bb i).length = bb.length + fuel ∧
      (∀ k, k < bb.length → (buildRows s fuel bb i).getD k [] = bb.getD k []) ∧
      (∀ k, bb.length ≤ k → k < bb.length + fuel →
        ((buildRows s fuel bb i).getD k []).length = GRID_SIZE ∧
        ∀ col, col < GRID_SIZE →
          ∃ g, colorAt (buildRows s fuel bb i) k col = some g ∧
            badVert (buildRows s fuel bb i) k col g = false) := by
  intro fuel
  induction fuel with
  | zero =>
    intro bb i
    exact ⟨by simp [buildRows], fun k hk => rfl, fun k hk1 hk2 => absurd hk2 (by omega)⟩
  | succ fuel ih =>
    intro bb i
    rw [buildRows_succ]
    obtain ⟨rlen, rpre, rnew⟩ := buildRow_spec bb bb.length s GRID_SIZE [] i
    obtain ⟨ihlen, ihpre, ihnew⟩ :=
      ih (bb ++ [(buildRow bb bb.length s GRID_SIZE [] i).1])
        (buildRow bb bb.length s GRID_SIZE [] i).2
    have hpre2 : ∀ k, k < bb.length + 1 →
        (buildRows s fuel (bb ++ [(buildRow bb bb.length s GRID_SIZE [] i).1])
          (buildRow bb bb.length s GRID_SIZE [] i).2).getD k [] =
          (bb ++ [(buildRow bb bb.length s GRID_SIZE [] i).1]).getD k [] := by
      intro k hk
      exact ihpre k (by simp; omega)
    refine ⟨by rw [ihlen]; simp; omega, ?_, ?_⟩
    · intro k hk
      rw [hpre2 k (by omega)]
      exact List.getD_append _ _ _ _ hk
    · intro k hk1 hk2
      by_cases hke : k = bb.length
      · subst hke
        have hroweq : (buildRows s fuel (bb ++ [(buildRow bb bb.length s GRID_SIZE [] i).1])
            (buildRow bb bb.length s GRID_SIZE [] i).2).getD bb.length [] =
            (buildRow bb bb.length s GRID_SIZE [] i).1 := by
          rw [hpre2 bb.length (by omega)]
          simp [List.getD_eq_getElem?_getD, List.getElem?_concat_length]
        refine ⟨by rw [hroweq]; simpa using rlen, ?_⟩
        intro col hcol
        obtain ⟨g, hg1, hg2⟩ := rnew col (by simp) (by simpa using hcol)
        refine ⟨g, ?_, ?_⟩
        · unfold colorAt getBlock
          rw [hroweq]
          exact hg1
        · rw [← hg2]
          refine badVert_congr _ _ _ _ _ (fun j hj => ?_)
          unfold colorAt getBlock
          rw [hpre2 j (by omega), List.getD_append _ _ _ _ (by omega)]
      · obtain ⟨hlen2, hcells⟩ := ihnew k (by simp; omega) (by simp; omega)
        exact ⟨hlen2, hcells⟩

/-- `setSpecial` is a `setBlock` that only replaces `specialType`. -/
theorem setSpecial_eq (bb : List (List Block)) (r c : Nat) (t : SpecialType) :
    setSpecial bb r c t = setBlock bb r c { getBlock bb r c with specialType := t } := rfl

theorem colorAt_setSpecial (bb : List (List Block)) (r0 c0 : Nat) (t : SpecialType)
    (r c : Nat) : colorAt (setSpecial bb r0 c0 t) r c = colorAt bb r c := by
  rw [setSpecial_eq]
  unfold colorAt
  rw [getBlock_setBlock]
  split
  · next h => simp [← h.1, ← h.2.1]
  · rfl

/-- Special placement never changes colors. -/
theorem placeSpecials_colorAt (posStream : Nat → Pos) (orientStream : Nat → Bool)
    (isRocket : Bool) (count : Nat) :
    ∀ (fuel : Nat) (bb : List (List Block)) (used : List Pos) (pidx oidx r c : Nat),
      colorAt (placeSpecials bb posStream orientStream isRocket count fuel used pidx oidx).1 r c =
        colorAt bb r c := by
  intro fuel
  induction fuel with
  | zero => intro bb used pidx oidx r c; rfl
  | succ fuel ih =>
    intro bb used pidx oidx r c
    unfold placeSpecials
    by_cases h1 : used.length < count
    · simp only [h1, if_true]
      by_cases h2 : posStream pidx ∈ used
      · simp only [h2, if_true]
        exact ih bb used (pidx + 1) oidx r c
      · simp only [h2, if_false]
        rw [ih]
        exact colorAt_setSpecial _ _ _ _ _ _
    · simp [h1]

/-- C1 (amended): the constructed initial board never contains a
vertical run of three equal colors — the vertical reroll is the last
one applied to every cell, so its exit condition survives in the final
board.  (The horizontal reroll precedes it and can be undone by it, and
refill never re-checks at all: see the counterexample.) -/
theorem C1_initial_no_vertical_run (difficulty : Difficulty) (s : Nat → GColor)
    (posStream : Nat → Pos) (orientStream : Nat → Bool) (r c : Nat)
    (h1 : r + 2 < GRID_SIZE) (h2 : c < GRID_SIZE) :
    ¬∃ g : GColor,
      colorAt (createInitialBoard difficulty s posStream orientStream) r c = some g ∧
      colorAt (createInitialBoard difficulty s posStream orientStream) (r + 1) c = some g ∧
      colorAt (createInitialBoard difficulty s posStream orientStream) (r + 2) c = some g := by
  rintro ⟨g, hg0, hg1, hg2⟩
  have hplace : ∀ r' c', colorAt (createInitialBoard difficulty s posStream orientStream) r' c' =
      colorAt (buildRows s GRID_SIZE [] 0) r' c' := by
    intro r' c'
    unfold createInitialBoard
    simp only
    rw [placeSpecials_colorAt, placeSpecials_colorAt]
  rw [hplace] at hg0 hg1 hg2
  obtain ⟨-, -, hnew⟩ := buildRows_spec s GRID_SIZE [] 0
  obtain ⟨-, hcells⟩ := hnew (r + 2) (by simp) (by simpa using h1)
  obtain ⟨g', hc1, hc2⟩ := hcells c h2
  have hgg : g' = g := by
    rw [hg2] at hc1
    exact (Option.some.inj hc1).symm
  subst hgg
  have : ¬(r + 2 ≥ 2 ∧ colorAt (buildRows s GRID_SIZE [] 0) (r + 2 - 1) c = some g' ∧
      colorAt (buildRows s GRID_SIZE [] 0) (r + 2 - 2) c = some g') := by
    intro hcontra
    rw [show badVert (buildRows s GRID_SIZE [] 0) (r + 2) c g' = true from ?_] at hc2
    · exact absurd hc2 (by simp)
    · unfold badVert
      simp only [Bool.and_eq_true, decide_eq_true_eq]
      exact ⟨by omega, hcontra.2.1, hcontra.2.2⟩
  have e1 : r + 2 - 1 = r + 1 := by omega
  have e2 : r + 2 - 2 = r := by omega
  exact this ⟨by omega, by rw [e1]; exact hg1, by rw [e2]; exact hg0⟩

/-- Witness for C1 (amended): on a concrete stream the theorem applies
at the top-left column. -/
theorem C1_initial_no_vertical_run_witness :
    ¬∃ g : GColor,
      colorAt (createInitialBoard .medium (fun _ => .red) (fun _ => (0, 0)) (fun _ => true)) 0 0 = some g ∧
      colorAt (createInitialBoard .medium (fun _ => .red) (fun _ => (0, 0)) (fun _ => true)) 1 0 = some g ∧
      colorAt (createInitialBoard .medium (fun _ => .red) (fun _ => (0, 0)) (fun _ => true)) 2 0 = some g :=
  C1_initial_no_vertical_run .medium (fun _ => .red) (fun _ => (0, 0)) (fun _ => true) 0 0
    (by decide) (by decide)

/-! ### Scan invariants (C4, C9) -/

/-- All matched positions across the recorded matches of a scan state. -/
def allBlocks (st : ScanSt) : List Pos :=
  (st.hMatches ++ st.vMatches).flatMap Match.blocks

/-- Positions of the queued obstacle damage. -/
def damagePositions (st : ScanSt) : List Pos :=
  st.obstacleDamage.map (fun d => (d.row, d.col))

/-- The invariant carried through both scans; `acc` is the run being
walked (its cells are not yet part of a recorded match). -/
def ScanInvAcc (board : Board) (st : ScanSt) (acc : List Pos) : Prop :=
  (∀ p ∈ allBlocks st ++ acc, p ∈ st.matched) ∧
  (allBlocks st ++ acc).Nodup ∧
  damagePositions st = st.damagedObstacles ∧
  st.damagedObstacles.Nodup ∧
  (∀ p ∈ allBlocks st ++ acc, ∀ ob, (getBlock board p.1 p.2).obstacle = some ob →
      ob.type ≠ ObstacleKind.blocker → p ∈ st.damagedObstacles)

theorem recordActivation_fields (block : Block) (runColor : GColor) (r c : Nat) (st : ScanSt) :
    (recordActivation block runColor r c st).matched = st.matched ∧
    (recordActivation block runColor r c st).hMatches = st.hMatches ∧
    (recordActivation block runColor r c st).vMatches = st.vMatches ∧
    (recordActivation block runColor r c st).obstacleDamage = st.obstacleDamage ∧
    (recordActivation block runColor r c st).damagedObstacles = st.damagedObstacles := by
  unfold recordActivation
  rcases block.specialType with _ | k
  · exact ⟨rfl, rfl, rfl, rfl, rfl⟩
  · cases k <;> exact ⟨rfl, rfl, rfl, rfl, rfl⟩

theorem recordDamage_fields (block : Block) (r c : Nat) (st : ScanSt) :
    (recordDamage block r c st).matched = st.matched ∧
    (recordDamage block r c st).hMatches = st.hMatches ∧
    (recordDamage block r c st).vMatches = st.vMatches := by
  unfold recordDamage
  rcases block.obstacle with _ | ob
  · exact ⟨rfl, rfl, rfl⟩
  · dsimp only
    by_cases h : ob.type ≠ ObstacleKind.blocker ∧ (r, c) ∉ st.damagedObstacles
    · rw [if_pos h]; exact ⟨rfl, rfl, rfl⟩
    · rw [if_neg h]; exact ⟨rfl, rfl, rfl⟩

/-- `recordDamage` keeps the damage bookkeeping invariants, keeps all
previous members, and adds the visited cell when its obstacle is a
damageable one. -/
theorem recordDamage_spec (block : Block) (r c : Nat) (st : ScanSt)
    (h1 : damagePositions st = st.damagedObstacles) (h2 : st.damagedObstacles.Nodup) :
    damagePositions (recordDamage block r c st) = (recordDamage block r c st).damagedObstacles ∧
    (recordDamage block r c st).damagedObstacles.Nodup ∧
    (∀ p ∈ st.damagedObstacles, p ∈ (recordDamage block r c st).damagedObstacles) ∧
    (∀ ob, block.obstacle = some ob → ob.type ≠ ObstacleKind.blocker →
      (r, c) ∈ (recordDamage block r c st).damagedObstacles) := by
  unfold recordDamage
  rcases hob : block.obstacle with _ | ob
  · dsimp only
    exact ⟨h1, h2, fun p hp => hp, fun ob h => Option.noConfusion h⟩
  · dsimp only
    by_cases h : ob.type ≠ ObstacleKind.blocker ∧ (r, c) ∉ st.damagedObstacles
    · rw [if_pos h]
      refine ⟨?_, ?_, ?_, ?_⟩
      · unfold damagePositions at h1 ⊢
        simp [h1]
      · exact List.Nodup.append h2 (List.nodup_singleton _) (by simpa using h.2)
      · intro p hp; exact List.mem_append_left _ hp
      · intro ob2 hob2 hnb
        exact List.mem_append_right _ (by simp)
    · rw [if_neg h]
      refine ⟨h1, h2, fun p hp => hp, ?_⟩
      intro ob2 hob2 hnb
      have hoe : ob = ob2 := Option.some.inj hob2
      subst hoe
      rcases Decidable.not_and_iff_or_not.mp h with hx | hx
      · exact absurd hnb (by simpa using hx)
      · simpa using hx

/-- `visitCell` preserves the scan invariant. -/
theorem visitCell_inv (board : Board) (runColor : GColor) (r c : Nat)
    (blocks : List Pos) (st : ScanSt) (hinv : ScanInvAcc board st blocks) :
    ScanInvAcc board (visitCell board runColor r c blocks st).2
      (visitCell board runColor r c blocks st).1 := by
  obtain ⟨hA1, hA2, hB1, hB2, hB3⟩ := hinv
  unfold visitCell
  by_cases hm : (r, c) ∈ st.matched
  · simpa [hm] using ⟨hA1, hA2, hB1, hB2, hB3⟩
  · simp only [hm, if_false]
    set st1 : ScanSt := { st with matched := st.matched ++ [(r, c)] } with hst1
    set blk := getBlock board r c with hblk
    set st2 := recordActivation blk runColor r c st1 with hst2
    set st3 := recordDamage blk r c st2 with hst3
    have hF2 := recordActivation_fields blk runColor r c st1
    have hF3 := recordDamage_fields blk r c st2
    have hmat2 : st2.matched = st.matched ++ [(r, c)] := hF2.1
    have hh2 : st2.hMatches = st.hMatches := hF2.2.1
    have hv2 : st2.vMatches = st.vMatches := hF2.2.2.1
    have hd2 : st2.obstacleDamage = st.obstacleDamage := hF2.2.2.2.1
    have hg2 : st2.damagedObstacles = st.damagedObstacles := hF2.2.2.2.2
    have hB1b : damagePositions st2 = st2.damagedObstacles := by
      unfold damagePositions
      rw [hd2, hg2]
      exact hB1
    have hB2b : st2.damagedObstacles.Nodup := by rw [hg2]; exact hB2
    have hrs := recordDamage_spec blk r c st2 hB1b hB2b
    have hall3 : allBlocks st3 = allBlocks st := by
      unfold allBlocks
      rw [hF3.2.1, hF3.2.2, hh2, hv2]
    have hmat3 : st3.matched = st.matched ++ [(r, c)] := by rw [hF3.1, hmat2]
    have hnotin : (r, c) ∉ allBlocks st ++ blocks := fun hin => hm (hA1 _ hin)
    refine ⟨?_, ?_, hrs.1, hrs.2.1, ?_⟩
    · intro p hp
      rw [hall3] at hp
      rw [hmat3]
      rcases List.mem_append.mp hp with hp1 | hp2
      · exact List.mem_append_left _ (hA1 _ (List.mem_append_left _ hp1))
      · rcases List.mem_append.mp hp2 with hx | hx
        · exact List.mem_append_left _ (hA1 _ (List.mem_append_right _ hx))
        · exact List.mem_append_right _ hx
    · rw [hall3, ← List.append_assoc]
      refine List.Nodup.append hA2 (List.nodup_singleton _) ?_
      intro x hx hx2
      have : x = (r, c) := by simpa using hx2
      subst this
      exact hnotin hx
    · intro p hp ob hob hnb
      rw [hall3] at hp
      have hsplit : p ∈ allBlocks st ++ blocks ∨ p = (r, c) := by
        rcases List.mem_append.mp hp with hp1 | hp2
        · exact Or.inl (List.mem_append_left _ hp1)
        · rcases List.mem_append.mp hp2 with hx | hx
          · exact Or.inl (List.mem_append_right _ hx)
          · exact Or.inr (by simpa using hx)
      rcases hsplit with hx | hx
      · refine hrs.2.2.1 _ ?_
        rw [hg2]
        exact hB3 _ hx ob hob hnb
      · subst hx
        exact hrs.2.2.2 ob hob hnb

/-- Moving a finished run into the match list (or discarding it)
preserves the invariant with an emptied run accumulator. -/
theorem ScanInvAcc_perm (board : Board) (st st2 : ScanSt) (acc acc2 : List Pos)
    (hperm : (allBlocks st ++ acc).Perm (allBlocks st2 ++ acc2))
    (hmat : st2.matched = st.matched)
    (hdmg : st2.obstacleDamage = st.obstacleDamage)
    (hdam : st2.damagedObstacles = st.damagedObstacles)
    (h : ScanInvAcc board st acc) : ScanInvAcc board st2 acc2 := by
  obtain ⟨hA1, hA2, hB1, hB2, hB3⟩ := h
  refine ⟨?_, hperm.nodup_iff.mp hA2, ?_, by rw [hdam]; exact hB2, ?_⟩
  · intro p hp
    rw [hmat]
    exact hA1 _ (hperm.symm.mem_iff.mp hp)
  · unfold damagePositions
    rw [hdmg, hdam]
    exact hB1
  · intro p hp ob hob hnb
    rw [hdam]
    exact hB3 _ (hperm.symm.mem_iff.mp hp) ob hob hnb

theorem ScanInvAcc_drop (board : Board) (st : ScanSt) (acc : List Pos)
    (h : ScanInvAcc board st acc) : ScanInvAcc board st [] := by
  obtain ⟨hA1, hA2, hB1, hB2, hB3⟩ := h
  refine ⟨?_, ?_, hB1, hB2, ?_⟩
  · intro p hp
    exact hA1 _ (by simpa using List.mem_append_left acc (by simpa using hp))
  · rw [List.append_nil]
    exact (List.nodup_append.mp hA2).1
  · intro p hp ob hob hnb
    exact hB3 _ (by simpa using List.mem_append_left acc (by simpa using hp)) ob hob hnb

theorem ScanInvAcc_pushH (board : Board) (st : ScanSt) (acc : List Pos)
    (h : ScanInvAcc board st acc) :
    ScanInvAcc board { st with hMatches := st.hMatches ++ [⟨acc, .horizontal⟩] } [] := by
  refine ScanInvAcc_perm board st _ acc [] ?_ rfl rfl rfl h
  unfold allBlocks
  simp only [List.flatMap_append, List.append_nil, List.flatMap_cons, List.flatMap_nil]
  rw [List.append_assoc, List.append_assoc]
  exact List.Perm.append_left _ List.perm_append_comm

theorem ScanInvAcc_pushV (board : Board) (st : ScanSt) (acc : List Pos)
    (h : ScanInvAcc board st acc) :
    ScanInvAcc board { st with vMatches := st.vMatches ++ [⟨acc, .vertical⟩] } [] := by
  refine ScanInvAcc_perm board st _ acc [] ?_ rfl rfl rfl h
  unfold allBlocks
  simp [List.flatMap_append, List.append_assoc]

theorem walkH_inv (board : Board) (row : Nat) (runColor : GColor) :
    ∀ (fuel endCol : Nat) (blocks : List Pos) (st : ScanSt),
      ScanInvAcc board st blocks →
      ScanInvAcc board (walkH board row runColor fuel endCol blocks st).2.2
        (walkH board row runColor fuel endCol blocks st).2.1 := by
  intro fuel
  induction fuel with
  | zero => intro endCol blocks st h; exact h
  | succ fuel ih =>
    intro endCol blocks st h
    unfold walkH
    by_cases hc : endCol < GRID_SIZE ∧ canBlockMatch board row endCol ∧
        (getBlock board row endCol).color = some runColor
    · rw [if_pos hc]
      exact ih _ _ _ (visitCell_inv board runColor row endCol blocks st h)
    · rw [if_neg hc]
      exact h

theorem walkV_inv (board : Board) (col : Nat) (runColor : GColor) :
    ∀ (fuel endRow : Nat) (blocks : List Pos) (st : ScanSt),
      ScanInvAcc board st blocks →
      ScanInvAcc board (walkV board col runColor fuel endRow blocks st).2.2
        (walkV board col runColor fuel endRow blocks st).2.1 := by
  intro fuel
  induction fuel with
  | zero => intro endRow blocks st h; exact h
  | succ fuel ih =>
    intro endRow blocks st h
    unfold walkV
    by_cases hc : endRow < GRID_SIZE ∧ canBlockMatch board endRow col ∧
        (getBlock board endRow col).color = some runColor
    · rw [if_pos hc]
      exact ih _ _ _ (visitCell_inv board runColor endRow col blocks st h)
    · rw [if_neg hc]
      exact h

theorem hScanRow_inv (board : Board) (row : Nat) :
    ∀ (fuel col : Nat) (st : ScanSt),
      ScanInvAcc board st [] →
      ScanInvAcc board (hScanRow board row fuel col st) [] := by
  intro fuel
  induction fuel with
  | zero => intro col st h; exact h
  | succ fuel ih =>
    intro col st h
    unfold hScanRow
    by_cases h1 : col < GRID_SIZE - 2
    · rw [if_pos h1]
      by_cases h2 : canBlockMatch board row col
      · rw [if_pos h2]
        rcases hcol : (getBlock board row col).color with _ | color
        · exact ih _ _ h
        · dsimp only
          by_cases h3 : canBlockMatch board row (col + 1) ∧ canBlockMatch board row (col + 2) ∧
              (getBlock board row (col + 1)).color = some color ∧
              (getBlock board row (col + 2)).color = some color
          · rw [if_pos h3]
            have hw := walkH_inv board row color (GRID_SIZE - col) col [] st h
            rcases hwv : walkH board row color (GRID_SIZE - col) col [] st with ⟨endCol, blocks, st2⟩
            rw [hwv] at hw
            dsimp only
            by_cases h4 : blocks.length ≥ 3
            · rw [if_pos h4]
              exact ih _ _ (ScanInvAcc_pushH board _ _ hw)
            · rw [if_neg h4]
              exact ih _ _ (ScanInvAcc_drop board _ _ hw)
          · rw [if_neg h3]
            exact ih _ _ h
      · rw [if_neg h2]
        exact ih _ _ h
    · rw [if_neg h1]
      exact h

theorem vScanCol_inv (board : Board) (col : Nat) :
    ∀ (fuel row : Nat) (st : ScanSt),
      ScanInvAcc board st [] →
      ScanInvAcc board (vScanCol board col fuel row st) [] := by
  intro fuel
  induction fuel with
  | zero => intro row st h; exact h
  | succ fuel ih =>
    intro row st h
    unfold vScanCol
    by_cases h1 : row < GRID_SIZE - 2
    · rw [if_pos h1]
      by_cases h2 : canBlockMatch board row col
      · rw [if_pos h2]
        rcases hcol : (getBlock board row col).color with _ | color
        · exact ih _ _ h
        · dsimp only
          by_cases h3 : canBlockMatch board (row + 1) col ∧ canBlockMatch board (row + 2) col ∧
              (getBlock board (row + 1) col).color = some color ∧
              (getBlock board (row + 2) col).color = some color
          · rw [if_pos h3]
            have hw := walkV_inv board col color (GRID_SIZE - row) row [] st h
            rcases hwv : walkV board col color (GRID_SIZE - row) row [] st with ⟨endRow, blocks, st2⟩
            rw [hwv] at hw
            dsimp only
            by_cases h4 : blocks.length ≥ 3
            · rw [if_pos h4]
              exact ih _ _ (ScanInvAcc_pushV board _ _ hw)
            · rw [if_neg h4]
              exact ih _ _ (ScanInvAcc_drop board _ _ hw)
          · rw [if_neg h3]
            exact ih _ _ h
      · rw [if_neg h2]
        exact ih _ _ h
    · rw [if_neg h1]
      exact h

theorem foldl_preserve {α β : Type} (P : α → Prop) (f : α → β → α) (l : List β)
    (hstep : ∀ a x, P a → P (f a x)) : ∀ a, P a → P (l.foldl f a) := by
  induction l with
  | nil => intro a h; exact h
  | cons x t ih => intro a h; exact ih _ (hstep a x h)

/-- The full double scan satisfies the invariant. -/
theorem runScans_inv (board : Board) : ScanInvAcc board (runScans board) [] := by
  have hinit : ScanInvAcc board ScanSt.init [] := by
    refine ⟨?_, ?_, rfl, ?_, ?_⟩ <;> simp [allBlocks, ScanSt.init, damagePositions]
  show ScanInvAcc board
    (List.foldl (fun st col => vScanCol board col GRID_SIZE 0 st)
      (List.foldl (fun st row => hScanRow board row GRID_SIZE 0 st) ScanSt.init
        (List.range GRID_SIZE))
      (List.range GRID_SIZE)) []
  refine foldl_preserve (fun st => ScanInvAcc board st []) _ _
    (fun st col h => vScanCol_inv board col GRID_SIZE 0 st h) _ ?_
  exact foldl_preserve (fun st => ScanInvAcc board st []) _ _
    (fun st row h => hScanRow_inv board row GRID_SIZE 0 st h) _ hinit

/-! ## The ice-adjacency damage pass (claim C9) -/

/-- The four orthogonal direction offsets of the ice-adjacency loop. -/
def iceDirs : List (Int × Int) := [(-1, 0), (1, 0), (0, -1), (0, 1)]

/-- One direction step of the ice-adjacency pass of `findMatches`. -/
def iceDirStep (board : Board) (p : Pos) (acc : List Pos × List ObstacleDamage)
    (d : Int × Int) : List Pos × List ObstacleDamage :=
  let nr := (p.1 : Int) + d.1
  let nc := (p.2 : Int) + d.2
  if 0 ≤ nr ∧ nr < (GRID_SIZE : Int) ∧ 0 ≤ nc ∧ nc < (GRID_SIZE : Int) then
    match (getBlock board nr.toNat nc.toNat).obstacle with
    | some ob =>
      if ob.type = .ice ∧ (nr.toNat, nc.toNat) ∉ acc.1 then
        (acc.1 ++ [(nr.toNat, nc.toNat)],
         acc.2 ++ [⟨nr.toNat, nc.toNat, .ice, ob.health ≤ 1⟩])
      else acc
    | none => acc
  else acc

theorem iceAdjacentDamage_eq (board : Board) (ml : List Match)
    (damaged : List Pos) (damage : List ObstacleDamage) :
    iceAdjacentDamage board ml damaged damage =
      ml.foldl (fun acc m => m.blocks.foldl
        (fun acc p => iceDirs.foldl (iceDirStep board p) acc) acc) (damaged, damage) := rfl

/-- A fold whose step can only grow the goal predicate reaches it as
soon as one listed element forces it. -/
theorem foldl_coverage {α β : Type} (Q : α → Prop) (f : α → β → α) (l : List β)
    (hmono : ∀ a x, Q a → Q (f a x)) (x : β) (hx : x ∈ l) (hstep : ∀ a, Q (f a x)) :
    ∀ a, Q (l.foldl f a) := by
  induction l with
  | nil => cases hx
  | cons y t ih =>
    intro a
    rcases List.mem_cons.mp hx with he | ht
    · subst he
      exact foldl_preserve Q f t hmono _ (hstep a)
    · exact ih ht _

/-- A fold all of whose listed steps fix the accumulator is the
identity. -/
theorem foldl_fixed {α β : Type} (f : α → β → α) (l : List β) (a : α)
    (h : ∀ a x, x ∈ l → f a x = a) : l.foldl f a = a := by
  induction l generalizing a with
  | nil => rfl
  | cons x t ih =>
    rw [List.foldl_cons, h a x (by simp)]
    exact ih _ (fun a y hy => h a y (by simp [hy]))

theorem iceDirStep_lockstep (board : Board) (p : Pos)
    (acc : List Pos × List ObstacleDamage) (d : Int × Int)
    (h : acc.2.map (fun dg => (dg.row, dg.col)) = acc.1 ∧ acc.1.Nodup) :
    (iceDirStep board p acc d).2.map (fun dg => (dg.row, dg.col)) =
        (iceDirStep board p acc d).1 ∧ (iceDirStep board p acc d).1.Nodup := by
  unfold iceDirStep
  by_cases hb : 0 ≤ (p.1 : Int) + d.1 ∧ (p.1 : Int) + d.1 < (GRID_SIZE : Int) ∧
      0 ≤ (p.2 : Int) + d.2 ∧ (p.2 : Int) + d.2 < (GRID_SIZE : Int)
  · rw [if_pos hb]
    rcases hob : (getBlock board ((p.1 : Int) + d.1).toNat ((p.2 : Int) + d.2).toNat).obstacle
      with _ | ob
    · exact h
    · dsimp only
      by_cases hc : ob.type = ObstacleKind.ice ∧
          (((p.1 : Int) + d.1).toNat, ((p.2 : Int) + d.2).toNat) ∉ acc.1
      · rw [if_pos hc]
        constructor
        · simp [h.1]
        · simp [List.nodup_append, h.2, hc.2]
      · rw [if_neg hc]
        exact h
  · rw [if_neg hb]
    exact h

theorem iceDirStep_mono (board : Board) (p : Pos)
    (acc : List Pos × List ObstacleDamage) (d : Int × Int) (q : Pos)
    (h : q ∈ acc.1) : q ∈ (iceDirStep board p acc d).1 := by
  unfold iceDirStep
  by_cases hb : 0 ≤ (p.1 : Int) + d.1 ∧ (p.1 : Int) + d.1 < (GRID_SIZE : Int) ∧
      0 ≤ (p.2 : Int) + d.2 ∧ (p.2 : Int) + d.2 < (GRID_SIZE : Int)
  · rw [if_pos hb]
    rcases hob : (getBlock board ((p.1 : Int) + d.1).toNat ((p.2 : Int) + d.2).toNat).obstacle
      with _ | ob
    · exact h
    · dsimp only
      by_cases hc : ob.type = ObstacleKind.ice ∧
          (((p.1 : Int) + d.1).toNat, ((p.2 : Int) + d.2).toNat) ∉ acc.1
      · rw [if_pos hc]
        exact List.mem_append_left _ h
      · rw [if_neg hc]
        exact h
  · rw [if_neg hb]
    exact h

/-- The direction step at an in-bounds ice neighbour puts that
neighbour's position into the damaged list. -/
theorem iceDirStep_covers (board : Board) (p : Pos) (d : Int × Int) (q : Pos) (ob : Obstacle)
    (hb1 : (p.1 : Int) + d.1 = (q.1 : Int)) (hb2 : (p.2 : Int) + d.2 = (q.2 : Int))
    (hq1 : q.1 < GRID_SIZE) (hq2 : q.2 < GRID_SIZE)
    (hob : (getBlock board q.1 q.2).obstacle = some ob)
    (hice : ob.type = ObstacleKind.ice) :
    ∀ acc, q ∈ (iceDirStep board p acc d).1 := by
  intro acc
  unfold iceDirStep
  have hbnd : 0 ≤ (p.1 : Int) + d.1 ∧ (p.1 : Int) + d.1 < (GRID_SIZE : Int) ∧
      0 ≤ (p.2 : Int) + d.2 ∧ (p.2 : Int) + d.2 < (GRID_SIZE : Int) := by
    refine ⟨by omega, by rw [hb1]; exact_mod_cast hq1, by omega, by rw [hb2]; exact_mod_cast hq2⟩
  rw [if_pos hbnd]
  have hr : ((p.1 : Int) + d.1).toNat = q.1 := by omega
  have hc : ((p.2 : Int) + d.2).toNat = q.2 := by omega
  rw [hr, hc, hob]
  dsimp only
  by_cases hm : q ∈ acc.1
  · rw [if_neg (by simp [hice, hm])]
    exact hm
  · rw [if_pos ⟨hice, hm⟩]
    simp

/-- Lockstep (positions of the queued damage = damaged list, no
duplicates) is preserved by the whole ice-adjacency pass. -/
theorem iceAdjacentDamage_lockstep (board : Board) (ml : List Match)
    (damaged : List Pos) (damage : List ObstacleDamage)
    (h : damage.map (fun dg => (dg.row, dg.col)) = damaged ∧ damaged.Nodup) :
    (iceAdjacentDamage board ml damaged damage).2.map (fun dg => (dg.row, dg.col)) =
        (iceAdjacentDamage board ml damaged damage).1 ∧
      (iceAdjacentDamage board ml damaged damage).1.Nodup := by
  rw [iceAdjacentDamage_eq]
  refine foldl_preserve
    (fun (acc : List Pos × List ObstacleDamage) =>
      acc.2.map (fun dg => (dg.row, dg.col)) = acc.1 ∧ acc.1.Nodup) _ ml
    (fun acc m ha => ?_) _ h
  refine foldl_preserve
    (fun (acc : List Pos × List ObstacleDamage) =>
      acc.2.map (fun dg => (dg.row, dg.col)) = acc.1 ∧ acc.1.Nodup) _ m.blocks
    (fun acc p ha => ?_) _ ha
  exact foldl_preserve
    (fun (acc : List Pos × List ObstacleDamage) =>
      acc.2.map (fun dg => (dg.row, dg.col)) = acc.1 ∧ acc.1.Nodup) _ iceDirs
    (fun acc d ha => iceDirStep_lockstep board p acc d ha) _ ha

/-- Membership in the damaged list is preserved by the whole
ice-adjacency pass. -/
theorem iceAdjacentDamage_mono (board : Board) (ml : List Match)
    (damaged : List Pos) (damage : List ObstacleDamage) (q : Pos)
    (h : q ∈ damaged) : q ∈ (iceAdjacentDamage board ml damaged damage).1 := by
  rw [iceAdjacentDamage_eq]
  refine foldl_preserve (fun (acc : List Pos × List ObstacleDamage) => q ∈ acc.1) _ ml
    (fun acc m ha => ?_) _ h
  refine foldl_preserve (fun (acc : List Pos × List ObstacleDamage) => q ∈ acc.1) _ m.blocks
    (fun acc p ha => ?_) _ ha
  exact foldl_preserve (fun (acc : List Pos × List ObstacleDamage) => q ∈ acc.1) _ iceDirs
    (fun acc d ha => iceDirStep_mono board p acc d q ha) _ ha

/-- Every in-bounds ice neighbour of a matched cell is in the damaged
list after the ice-adjacency pass. -/
theorem iceAdjacentDamage_covers (board : Board) (ml : List Match)
    (damaged : List Pos) (damage : List ObstacleDamage)
    (m : Match) (hm : m ∈ ml) (p : Pos) (hp : p ∈ m.blocks)
    (d : Int × Int) (hd : d ∈ iceDirs) (q : Pos) (ob : Obstacle)
    (hb1 : (p.1 : Int) + d.1 = (q.1 : Int)) (hb2 : (p.2 : Int) + d.2 = (q.2 : Int))
    (hq1 : q.1 < GRID_SIZE) (hq2 : q.2 < GRID_SIZE)
    (hob : (getBlock board q.1 q.2).obstacle = some ob)
    (hice : ob.type = ObstacleKind.ice) :
    q ∈ (iceAdjacentDamage board ml damaged damage).1 := by
  rw [iceAdjacentDamage_eq]
  refine foldl_coverage (fun (acc : List Pos × List ObstacleDamage) => q ∈ acc.1) _ ml
    (fun acc m' ha => ?_) m hm (fun acc => ?_) _
  · refine foldl_preserve (fun (acc : List Pos × List ObstacleDamage) => q ∈ acc.1) _ m'.blocks
      (fun acc p' ha => ?_) _ ha
    exact foldl_preserve (fun (acc : List Pos × List ObstacleDamage) => q ∈ acc.1) _ iceDirs
      (fun acc d' ha => iceDirStep_mono board p' acc d' q ha) _ ha
  · refine foldl_coverage (fun (acc : List Pos × List ObstacleDamage) => q ∈ acc.1) _ m.blocks
      (fun acc p' ha => ?_) p hp (fun acc => ?_) _
    · exact foldl_preserve (fun (acc : List Pos × List ObstacleDamage) => q ∈ acc.1) _ iceDirs
        (fun acc d' ha => iceDirStep_mono board p' acc d' q ha) _ ha
    · exact foldl_coverage (fun (acc : List Pos × List ObstacleDamage) => q ∈ acc.1) _ iceDirs
        (fun acc d' ha => iceDirStep_mono board p acc d' q ha) d hd
        (fun acc => iceDirStep_covers board p d q ob hb1 hb2 hq1 hq2 hob hice acc) _

theorem findMatches_matchList (board : Board) :
    (findMatches board).matchList = (runScans board).hMatches ++ (runScans board).vMatches := rfl

theorem findMatches_obstacleDamage (board : Board) :
    (findMatches board).obstacleDamage =
      (iceAdjacentDamage board ((runScans board).hMatches ++ (runScans board).vMatches)
        (runScans board).damagedObstacles (runScans board).obstacleDamage).2 := rfl

/-- In a duplicate-free projection, a projected member is hit by exactly
one list entry. -/
theorem map_nodup_filter_length {α β : Type} [DecidableEq β] (f : α → β) (l : List α) (b : β)
    (hnd : (l.map f).Nodup) (hm : b ∈ l.map f) :
    (l.filter (fun x => f x = b)).length = 1 := by
  induction l with
  | nil => cases hm
  | cons a t ih =>
    simp only [List.map_cons, List.nodup_cons] at hnd
    rw [List.map_cons, List.mem_cons] at hm
    by_cases he : f a = b
    · rw [List.filter_cons_of_pos (by simpa using he)]
      have ht : t.filter (fun x => f x = b) = [] := by
        rw [List.filter_eq_nil_iff]
        intro x hx
        simp only [decide_eq_true_eq]
        intro hfx
        exact hnd.1 (he ▸ hfx ▸ List.mem_map_of_mem f hx)
      simp [ht]
    · rw [List.filter_cons_of_neg (by simpa using he)]
      rcases hm with hb | hb
      · exact absurd hb.symm he
      · exact ih hnd.2 hb

/-- Every orthogonal adjacency is one of the four direction offsets. -/
theorem areAdjacent_cases (a b : Pos) (h : areAdjacent a.1 a.2 b.1 b.2 = true) :
    ∃ d ∈ iceDirs, (a.1 : Int) + d.1 = (b.1 : Int) ∧ (a.2 : Int) + d.2 = (b.2 : Int) := by
  unfold areAdjacent at h
  simp only [Bool.or_eq_true, Bool.and_eq_true, decide_eq_true_eq] at h
  rcases h with ⟨h1, h2⟩ | ⟨h1, h2⟩
  · have h2' : (a.2 : Int) = b.2 := by
      have := Int.natAbs_eq_zero.mp h2
      omega
    rcases Int.natAbs_eq_iff.mp h1 with he | he
    · exact ⟨(-1, 0), by simp [iceDirs], by omega, by omega⟩
    · exact ⟨(1, 0), by simp [iceDirs], by omega, by omega⟩
  · have h1' : (a.1 : Int) = b.1 := by
      have := Int.natAbs_eq_zero.mp h1
      omega
    rcases Int.natAbs_eq_iff.mp h2 with he | he
    · exact ⟨(0, -1), by simp [iceDirs], by omega, by omega⟩
    · exact ⟨(0, 1), by simp [iceDirs], by omega, by omega⟩

/-- C9: in every `findMatches` result, a matched cell carrying a
non-blocker obstacle has exactly one point of obstacle damage queued at
its position, and every cell orthogonally adjacent to a matched cell
that carries an ice obstacle has exactly one point of damage queued,
whether or not the ice cell itself matched. -/
theorem C9_obstacle_damage (board : Board) :
    (∀ p, p ∈ (findMatches board).matchList.flatMap Match.blocks →
      ∀ ob, (getBlock board p.1 p.2).obstacle = some ob → ob.type ≠ ObstacleKind.blocker →
      ((findMatches board).obstacleDamage.filter
          (fun dg => (dg.row, dg.col) = p)).length = 1) ∧
    (∀ p, p ∈ (findMatches board).matchList.flatMap Match.blocks →
      ∀ q : Pos, q.1 < GRID_SIZE → q.2 < GRID_SIZE →
        areAdjacent p.1 p.2 q.1 q.2 →
        ∀ ob, (getBlock board q.1 q.2).obstacle = some ob → ob.type = ObstacleKind.ice →
        ((findMatches board).obstacleDamage.filter
            (fun dg => (dg.row, dg.col) = q)).length = 1) := by
  obtain ⟨hA1, hA2, hB1, hB2, hB3⟩ := runScans_inv board
  have hfin := iceAdjacentDamage_lockstep board
    ((runScans board).hMatches ++ (runScans board).vMatches)
    (runScans board).damagedObstacles (runScans board).obstacleDamage ⟨hB1, hB2⟩
  constructor
  · intro p hp ob hob hnb
    have hpA : p ∈ allBlocks (runScans board) ++ [] := by
      rw [List.append_nil]
      rw [findMatches_matchList] at hp
      exact hp
    have hdam : p ∈ (runScans board).damagedObstacles := hB3 p hpA ob hob hnb
    have hmem : p ∈ (iceAdjacentDamage board
        ((runScans board).hMatches ++ (runScans board).vMatches)
        (runScans board).damagedObstacles (runScans board).obstacleDamage).1 :=
      iceAdjacentDamage_mono board _ _ _ p hdam
    rw [findMatches_obstacleDamage]
    exact map_nodup_filter_length _ _ p (by rw [hfin.1]; exact hfin.2) (by rw [hfin.1]; exact hmem)
  · intro p hp q hq1 hq2 hadj ob hob hice
    rw [findMatches_matchList] at hp
    obtain ⟨m, hm, hpm⟩ := List.mem_flatMap.mp hp
    obtain ⟨d, hd, hd1, hd2⟩ := areAdjacent_cases p q hadj
    have hmem : q ∈ (iceAdjacentDamage board
        ((runScans board).hMatches ++ (runScans board).vMatches)
        (runScans board).damagedObstacles (runScans board).obstacleDamage).1 :=
      iceAdjacentDamage_covers board _ _ _ m hm p hpm d hd q ob hd1 hd2 hq1 hq2 hob hice
    rw [findMatches_obstacleDamage]
    exact map_nodup_filter_length _ _ q (by rw [hfin.1]; exact hfin.2) (by rw [hfin.1]; exact hmem)

/-- A board with a red triple at row 0, columns 0–2, a box obstacle on
the matched cell (0,1), and an ice obstacle on the unmatched cell
(1,0) below the matched (0,0). -/
def iceBoard : Board :=
  mkBoard (fun r c =>
    if r = 0 ∧ c < 3 then
      { color := some .red, row := r, col := c, specialType := none,
        obstacle := if c = 1 then some ⟨.box, 2⟩ else none }
    else if r = 1 ∧ c = 0 then
      { plainBlock r c (checkerColor r c) with obstacle := some ⟨.ice, 1⟩ }
    else plainBlock r c (checkerColor r c))

theorem C9_obstacle_damage_witness :
    (((0, 1) : Pos) ∈ (findMatches iceBoard).matchList.flatMap Match.blocks ∧
      ((findMatches iceBoard).obstacleDamage.filter
          (fun dg => (dg.row, dg.col) = ((0, 1) : Pos))).length = 1) ∧
    (((0, 0) : Pos) ∈ (findMatches iceBoard).matchList.flatMap Match.blocks ∧
      areAdjacent 0 0 1 0 = true ∧
      ((findMatches iceBoard).obstacleDamage.filter
          (fun dg => (dg.row, dg.col) = ((1, 0) : Pos))).length = 1) := by
  refine ⟨⟨by decide, ?_⟩, by decide, by decide, ?_⟩
  · exact (C9_obstacle_damage iceBoard).1 (0, 1) (by decide) ⟨.box, 2⟩ (by decide) (by decide)
  · exact (C9_obstacle_damage iceBoard).2 (0, 0) (by decide) (1, 0) (by decide) (by decide)
      (by decide) ⟨.ice, 1⟩ (by decide) (by decide)

/-! ## Special-token creations (claim C4) -/

/-- The middle cell of a match, `blocks[floor(blocks.length / 2)]`. -/
def midPos (m : Match) : Pos := m.blocks.getD (m.blocks.length / 2) (0, 0)

theorem midPos_mem (m : Match) (h : m.blocks ≠ []) : midPos m ∈ m.blocks := by
  have hlen : 0 < m.blocks.length := List.length_pos.mpr h
  have hlt : m.blocks.length / 2 < m.blocks.length := Nat.div_lt_self hlen (by omega)
  unfold midPos
  rw [List.getD_eq_getElem _ _ hlt]
  exact List.getElem_mem hlt

/-- A variant of `foldl_preserve` whose step hypothesis knows the
element is listed. -/
theorem foldl_preserve_mem {α β : Type} (P : α → Prop) (f : α → β → α) (l : List β)
    (hstep : ∀ a x, x ∈ l → P a → P (f a x)) : ∀ a, P a → P (l.foldl f a) := by
  induction l with
  | nil => intro a h; exact h
  | cons x t ih =>
    intro a h
    exact ih (fun a y hy hp => hstep a y (by simp [hy]) hp) _ (hstep a x (by simp) h)

/-- Distinct matches of a duplicate-free flattening never share a
cell. -/
theorem flat_nodup_shared (ml : List Match) (hnd : (ml.flatMap Match.blocks).Nodup)
    (m1 m2 : Match) (h1 : m1 ∈ ml) (h2 : m2 ∈ ml) (p : Pos)
    (hp1 : p ∈ m1.blocks) (hp2 : p ∈ m2.blocks) : m1 = m2 := by
  induction ml with
  | nil => cases h1
  | cons m t ih =>
    rw [List.flatMap_cons] at hnd
    have h2' := (List.nodup_append.mp hnd).2.1
    have hdis := (List.nodup_append.mp hnd).2.2
    rcases List.mem_cons.mp h1 with e1 | t1 <;> rcases List.mem_cons.mp h2 with e2 | t2
    · rw [e1, e2]
    · subst e1
      exact absurd (List.mem_flatMap.mpr ⟨m2, t2, hp2⟩) (hdis hp1)
    · subst e2
      exact absurd (List.mem_flatMap.mpr ⟨m1, t1, hp1⟩) (hdis hp2)
    · exact ih h2' t1 t2

/-- The middle cells of the filtered matches of a duplicate-free
flattening are pairwise distinct. -/
theorem mids_nodup (ml : List Match) (hnd : (ml.flatMap Match.blocks).Nodup)
    (P : Match → Bool) (hP : ∀ m, P m = true → m.blocks ≠ []) :
    ((ml.filter P).map midPos).Nodup := by
  induction ml with
  | nil => simp
  | cons m t ih =>
    rw [List.flatMap_cons] at hnd
    have h2 := (List.nodup_append.mp hnd).2.1
    have hdis := (List.nodup_append.mp hnd).2.2
    by_cases hp : P m
    · rw [List.filter_cons_of_pos hp, List.map_cons, List.nodup_cons]
      refine ⟨?_, ih h2⟩
      intro hmem
      obtain ⟨m', hm', hkey⟩ := List.mem_map.mp hmem
      have hm't : m' ∈ t := List.mem_of_mem_filter hm'
      have hPm' : P m' = true := List.of_mem_filter hm'
      have hmidm : midPos m ∈ m.blocks := midPos_mem m (hP m hp)
      have hmidm' : midPos m' ∈ m'.blocks := midPos_mem m' (hP m' hPm')
      exact hdis hmidm (List.mem_flatMap.mpr ⟨m', hm't, hkey ▸ hmidm'⟩)
    · rw [List.filter_cons_of_neg hp]
      exact ih h2

theorem findMatches_flat_nodup (board : Board) :
    ((findMatches board).matchList.flatMap Match.blocks).Nodup := by
  have h := (runScans_inv board).2.1
  rw [List.append_nil] at h
  rw [findMatches_matchList]
  exact h

/-- With disjoint horizontal and vertical matches the L/T intersection
scan finds nothing. -/
theorem intersectionScan_disjoint (board : Board) (hM vM : List Match)
    (hdisj : ∀ p ∈ hM.flatMap Match.blocks, p ∉ vM.flatMap Match.blocks) :
    intersectionScan board hM vM = ([], []) := by
  unfold intersectionScan
  apply foldl_fixed
  intro a hm hhm
  apply foldl_fixed
  intro a vm hvm
  apply foldl_fixed
  intro a hb hhb
  apply foldl_fixed
  intro a vb hvb
  rw [if_neg]
  rintro ⟨e1, e2⟩
  have he : hb = vb := Prod.ext e1 e2
  exact hdisj hb (List.mem_flatMap.mpr ⟨hm, hhm, hhb⟩)
    (he ▸ List.mem_flatMap.mpr ⟨vm, hvm, hvb⟩)

/-- With no intersection points the rainbow creations are exactly the
middles of the matches of length ≥ 5. -/
theorem bigMatchRainbows_nil (board : Board) (ml : List Match) (acc : List RainbowCreation) :
    bigMatchRainbows board ml [] acc =
      acc ++ (ml.filter (fun m => m.blocks.length ≥ 5)).map
        (fun m => ⟨(midPos m).1, (midPos m).2,
          (getBlock board (midPos m).1 (midPos m).2).color⟩) := by
  unfold bigMatchRainbows
  induction ml generalizing acc with
  | nil => simp
  | cons m t ih =>
    rw [List.foldl_cons]
    by_cases h5 : m.blocks.length ≥ 5
    · rw [if_pos h5]
      dsimp only
      rw [if_neg (List.not_mem_nil _), ih, List.filter_cons_of_pos (by simpa using h5),
        List.map_cons]
      simp [midPos]
    · rw [if_neg h5, ih, List.filter_cons_of_neg (by simpa using h5)]

theorem findMatches_rainbowCreations (board : Board) :
    (findMatches board).rainbowCreations =
      bigMatchRainbows board
        ((runScans board).hMatches ++ (runScans board).vMatches)
        (intersectionScan board (runScans board).hMatches (runScans board).vMatches).1
        (intersectionScan board (runScans board).hMatches (runScans board).vMatches).2 := rfl

theorem findMatches_rocketCreations (board : Board) :
    (findMatches board).rocketCreations =
      fourMatchRockets ((runScans board).hMatches ++ (runScans board).vMatches)
        ((findMatches board).rainbowCreations.map (fun r => (r.row, r.col))) := rfl

/-- The rainbow creations of a full `findMatches` run are exactly the
middles of the length ≥ 5 matches (the L/T branch never fires: the
matched-set dedup keeps horizontal and vertical matches disjoint). -/
theorem findMatches_rainbow_closed (board : Board) :
    (findMatches board).rainbowCreations =
      ((findMatches board).matchList.filter (fun m => m.blocks.length ≥ 5)).map
        (fun m => ⟨(midPos m).1, (midPos m).2,
          (getBlock board (midPos m).1 (midPos m).2).color⟩) := by
  have hnd := findMatches_flat_nodup board
  rw [findMatches_matchList, List.flatMap_append] at hnd
  have hdisj := (List.nodup_append.mp hnd).2.2
  have hint := intersectionScan_disjoint board (runScans board).hMatches
    (runScans board).vMatches hdisj
  rw [findMatches_rainbowCreations, hint, findMatches_matchList]
  exact bigMatchRainbows_nil board _ []

/-- The rocket-creation positions are pairwise distinct (the
`alreadyCreating` guard of the source). -/
theorem fourMatchRockets_nodup (ml : List Match) (rps : List Pos) :
    ((fourMatchRockets ml rps).map (fun rc => (rc.row, rc.col))).Nodup := by
  unfold fourMatchRockets
  refine foldl_preserve
    (fun (acc : List RocketCreation) => (acc.map (fun rc => (rc.row, rc.col))).Nodup) _ ml
    (fun acc m h => ?_) [] (by simp)
  by_cases h4 : m.blocks.length = 4
  · rw [if_pos h4]
    dsimp only
    by_cases hrp : m.blocks.getD (m.blocks.length / 2) (0, 0) ∈ rps
    · rw [if_pos hrp]
      exact h
    · rw [if_neg hrp]
      by_cases hany : acc.any (fun r => r.row = (m.blocks.getD (m.blocks.length / 2) (0, 0)).1 ∧
          r.col = (m.blocks.getD (m.blocks.length / 2) (0, 0)).2)
      · rw [if_pos hany]
        exact h
      · rw [if_neg hany]
        rw [List.map_append, List.nodup_append]
        refine ⟨h, by simp, ?_⟩
        intro x hx
        obtain ⟨rc, hrc, hrcx⟩ := List.mem_map.mp hx
        simp only [List.map_cons, List.map_nil, List.mem_singleton]
        intro he
        rw [Bool.not_eq_true, List.any_eq_false] at hany
        have hfalse := hany rc hrc
        rw [decide_eq_true_eq] at hfalse
        rw [he] at hrcx
        exact hfalse ⟨congrArg Prod.fst hrcx, congrArg Prod.snd hrcx⟩
  · rw [if_neg h4]
    exact h

/-- Every length-4 match whose middle avoids the rainbow cells leaves a
rocket creation at its middle. -/
theorem fourMatchRockets_covers (ml : List Match) (rps : List Pos)
    (m : Match) (hm : m ∈ ml) (h4 : m.blocks.length = 4) (hrp : midPos m ∉ rps) :
    ∃ rc ∈ fourMatchRockets ml rps, (rc.row, rc.col) = midPos m := by
  unfold fourMatchRockets
  refine foldl_coverage
    (fun (acc : List RocketCreation) => ∃ rc ∈ acc, (rc.row, rc.col) = midPos m) _ ml
    (fun acc m' h => ?_) m hm (fun acc => ?_) []
  · obtain ⟨rc, hrc, he⟩ := h
    refine ⟨rc, ?_, he⟩
    by_cases h4' : m'.blocks.length = 4
    · rw [if_pos h4']
      dsimp only
      by_cases hrp' : m'.blocks.getD (m'.blocks.length / 2) (0, 0) ∈ rps
      · rw [if_pos hrp']; exact hrc
      · rw [if_neg hrp']
        by_cases hany : acc.any (fun r => r.row = (m'.blocks.getD (m'.blocks.length / 2) (0, 0)).1 ∧
            r.col = (m'.blocks.getD (m'.blocks.length / 2) (0, 0)).2)
        · rw [if_pos hany]; exact hrc
        · rw [if_neg hany]; exact List.mem_append_left _ hrc
    · rw [if_neg h4']; exact hrc
  · rw [if_pos h4]
    dsimp only
    rw [if_neg (by exact hrp)]
    by_cases hany : acc.any (fun r => r.row = (m.blocks.getD (m.blocks.length / 2) (0, 0)).1 ∧
        r.col = (m.blocks.getD (m.blocks.length / 2) (0, 0)).2)
    · rw [if_pos hany]
      obtain ⟨rc, hrc, hprop⟩ := List.any_eq_true.mp hany
      simp only [decide_eq_true_eq] at hprop
      exact ⟨rc, hrc, by
        unfold midPos
        exact Prod.ext hprop.1 hprop.2⟩
    · rw [if_neg hany]
      refine ⟨_, List.mem_append_right _ (List.mem_singleton_self _), ?_⟩
      rfl

/-- Every rocket creation stems from a listed length-4 match: it sits at
that match's middle, is typed by its direction, and avoids the rainbow
cells. -/
theorem fourMatchRockets_source (ml : List Match) (rps : List Pos) :
    ∀ rc ∈ fourMatchRockets ml rps, ∃ m ∈ ml, m.blocks.length = 4 ∧
      (rc.row, rc.col) = midPos m ∧ (rc.row, rc.col) ∉ rps ∧
      rc.type = (if m.direction = MatchDirection.horizontal
        then SpecialKind.rocketH else SpecialKind.rocketV) := by
  unfold fourMatchRockets
  refine foldl_preserve_mem
    (fun (acc : List RocketCreation) => ∀ rc ∈ acc, ∃ m ∈ ml, m.blocks.length = 4 ∧
      (rc.row, rc.col) = midPos m ∧ (rc.row, rc.col) ∉ rps ∧
      rc.type = (if m.direction = MatchDirection.horizontal
        then SpecialKind.rocketH else SpecialKind.rocketV)) _ ml
    (fun acc m hm h => ?_) [] (by simp)
  by_cases h4 : m.blocks.length = 4
  · rw [if_pos h4]
    dsimp only
    by_cases hrp : m.blocks.getD (m.blocks.length / 2) (0, 0) ∈ rps
    · rw [if_pos hrp]; exact h
    · rw [if_neg hrp]
      by_cases hany : acc.any (fun r => r.row = (m.blocks.getD (m.blocks.length / 2) (0, 0)).1 ∧
          r.col = (m.blocks.getD (m.blocks.length / 2) (0, 0)).2)
      · rw [if_pos hany]; exact h
      · rw [if_neg hany]
        intro rc hrc
        rcases List.mem_append.mp hrc with hin | hnew
        · exact h rc hin
        · rw [List.mem_singleton] at hnew
          subst hnew
          exact ⟨m, hm, h4, rfl, hrp, rfl⟩
  · rw [if_neg h4]
    exact h

/-- C4: in every `findMatches` result, a horizontal match of exactly 4
cells sharing no cell with any vertical match yields exactly one rocket
creation — of row-clearing type — at its middle cell and no rainbow
creation anywhere on the run; a match of length ≥ 5 yields exactly one
rainbow creation at its middle cell; and no cell carries both a rainbow
creation and a rocket creation. -/
theorem C4_creations (board : Board) :
    (∀ m ∈ (findMatches board).matchList, m.direction = MatchDirection.horizontal →
      m.blocks.length = 4 →
      (∀ m' ∈ (findMatches board).matchList, m'.direction = MatchDirection.vertical →
        ∀ p ∈ m.blocks, p ∉ m'.blocks) →
      ((findMatches board).rocketCreations.filter
          (fun rc => (rc.row, rc.col) = midPos m)).length = 1 ∧
      (∃ rc ∈ (findMatches board).rocketCreations,
        (rc.row, rc.col) = midPos m ∧ rc.type = SpecialKind.rocketH) ∧
      (∀ rb ∈ (findMatches board).rainbowCreations, (rb.row, rb.col) ∉ m.blocks)) ∧
    (∀ m ∈ (findMatches board).matchList, m.blocks.length ≥ 5 →
      ((findMatches board).rainbowCreations.filter
          (fun rb => (rb.row, rb.col) = midPos m)).length = 1) ∧
    (∀ rc ∈ (findMatches board).rocketCreations,
      ∀ rb ∈ (findMatches board).rainbowCreations,
        (rc.row, rc.col) ≠ (rb.row, rb.col)) := by
  have hnd := findMatches_flat_nodup board
  have hP5 : ∀ m : Match, decide (m.blocks.length ≥ 5) = true → m.blocks ≠ [] := by
    intro m h
    rw [decide_eq_true_eq] at h
    intro he
    rw [he] at h
    simp at h
  have hrbmap : ∀ rb ∈ (findMatches board).rainbowCreations,
      ∃ m' ∈ (findMatches board).matchList, m'.blocks.length ≥ 5 ∧
        (rb.row, rb.col) = midPos m' := by
    intro rb hrb
    rw [findMatches_rainbow_closed] at hrb
    obtain ⟨m', hm', he⟩ := List.mem_map.mp hrb
    exact ⟨m', List.mem_of_mem_filter hm',
      by simpa using List.of_mem_filter hm', by rw [← he]⟩
  have hnoRb : ∀ m ∈ (findMatches board).matchList, m.blocks.length = 4 →
      ∀ rb ∈ (findMatches board).rainbowCreations, (rb.row, rb.col) ∉ m.blocks := by
    intro m hm h4 rb hrb hmem
    obtain ⟨m', hm', h5, he⟩ := hrbmap rb hrb
    have hmid' : midPos m' ∈ m'.blocks := midPos_mem m' (by
      intro hnil
      rw [hnil] at h5
      simp at h5)
    have : m = m' := flat_nodup_shared _ hnd m m' hm hm' (rb.row, rb.col) hmem (he ▸ hmid')
    rw [this] at h4
    omega
  refine ⟨?_, ?_, ?_⟩
  · intro m hm hdir h4 _
    have hmmem : midPos m ∈ m.blocks := midPos_mem m (by
      intro hnil
      rw [hnil] at h4
      simp at h4)
    have hrps : midPos m ∉ (findMatches board).rainbowCreations.map
        (fun r => (r.row, r.col)) := by
      intro hmem
      obtain ⟨rb, hrb, he⟩ := List.mem_map.mp hmem
      exact hnoRb m hm h4 rb hrb (he ▸ hmmem)
    have hml : m ∈ (runScans board).hMatches ++ (runScans board).vMatches := by
      rw [← findMatches_matchList]
      exact hm
    obtain ⟨rc, hrc, hrce⟩ := fourMatchRockets_covers _ _ m hml h4 hrps
    rw [← findMatches_rocketCreations] at hrc
    refine ⟨?_, ⟨rc, hrc, hrce, ?_⟩, hnoRb m hm h4⟩
    · refine map_nodup_filter_length _ _ _ ?_ ?_
      · rw [findMatches_rocketCreations]
        exact fourMatchRockets_nodup _ _
      · exact List.mem_map.mpr ⟨rc, hrc, hrce⟩
    · obtain ⟨m', hm', h4', he', _, htype⟩ :=
        fourMatchRockets_source _ _ rc (by rw [← findMatches_rocketCreations] at *; exact hrc)
      have hmid' : midPos m' ∈ m'.blocks := midPos_mem m' (by
        intro hnil
        rw [hnil] at h4'
        simp at h4')
      have hmm' : m = m' := flat_nodup_shared _ hnd m m'
        hm (by rw [findMatches_matchList]; exact hm') (midPos m)
        hmmem (by rw [hrce] at he'; exact he' ▸ hmid')
      rw [htype, ← hmm', hdir]
      simp
  · intro m hm h5
    rw [findMatches_rainbow_closed]
    refine map_nodup_filter_length (fun (rb : RainbowCreation) => (rb.row, rb.col)) _ _ ?_ ?_
    · rw [List.map_map]
      have hfe : ((fun (rb : RainbowCreation) => (rb.row, rb.col)) ∘
          (fun m => (⟨(midPos m).1, (midPos m).2,
            (getBlock board (midPos m).1 (midPos m).2).color⟩ : RainbowCreation))) =
          midPos := by
        funext m'
        rfl
      rw [hfe]
      exact mids_nodup _ hnd _ hP5
    · refine List.mem_map.mpr ⟨⟨(midPos m).1, (midPos m).2,
        (getBlock board (midPos m).1 (midPos m).2).color⟩, ?_, rfl⟩
      refine List.mem_map.mpr ⟨m, ?_, rfl⟩
      exact List.mem_filter.mpr ⟨hm, by simpa using h5⟩
  · intro rc hrc rb hrb
    obtain ⟨m', hm', h4', he', hnp, htype⟩ :=
      fourMatchRockets_source _ _ rc (by rw [← findMatches_rocketCreations] at *; exact hrc)
    intro he
    exact hnp (by rw [he]; exact List.mem_map.mpr ⟨rb, hrb, rfl⟩)

/-- A board with a horizontal red 4-run (row 0, columns 0–3) and a
horizontal orange 5-run (row 2, columns 2–6). -/
def c4Board : Board :=
  mkBoard (fun r c => plainBlock r c (
    if r = 0 ∧ c < 4 then some .red
    else if r = 2 ∧ 2 ≤ c ∧ c < 7 then some .orange
    else checkerColor r c))

theorem C4_creations_witness :
    ((⟨[(0, 0), (0, 1), (0, 2), (0, 3)], .horizontal⟩ : Match) ∈
        (findMatches c4Board).matchList ∧
      ((findMatches c4Board).rocketCreations.filter
          (fun rc => (rc.row, rc.col) =
            midPos ⟨[(0, 0), (0, 1), (0, 2), (0, 3)], .horizontal⟩)).length = 1 ∧
      (∃ rc ∈ (findMatches c4Board).rocketCreations,
        (rc.row, rc.col) = midPos ⟨[(0, 0), (0, 1), (0, 2), (0, 3)], .horizontal⟩ ∧
          rc.type = SpecialKind.rocketH)) ∧
    ((⟨[(2, 2), (2, 3), (2, 4), (2, 5), (2, 6)], .horizontal⟩ : Match) ∈
        (findMatches c4Board).matchList ∧
      ((findMatches c4Board).rainbowCreations.filter
          (fun rb => (rb.row, rb.col) =
            midPos ⟨[(2, 2), (2, 3), (2, 4), (2, 5), (2, 6)], .horizontal⟩)).length = 1) := by
  obtain ⟨h1, h2, h3⟩ := C4_creations c4Board
  have ha := h1 ⟨[(0, 0), (0, 1), (0, 2), (0, 3)], .horizontal⟩ (by decide) (by decide)
    (by decide) (by decide)
  have hb := h2 ⟨[(2, 2), (2, 3), (2, 4), (2, 5), (2, 6)], .horizontal⟩ (by decide) (by decide)
  exact ⟨⟨by decide, ha.1, ha.2.1⟩, by decide, hb⟩

/-! ## Propeller targeting (claim C5) -/

theorem mem_setAdd_self (s : List Pos) (p : Pos) : p ∈ setAdd s p := by
  unfold setAdd
  split
  · assumption
  · simp

theorem mem_setAdd_of_mem (s : List Pos) (p q : Pos) (h : q ∈ s) : q ∈ setAdd s p := by
  unfold setAdd
  split
  · exact h
  · exact List.mem_append_left _ h

theorem foldl_setAdd_mem_init (L s : List Pos) (q : Pos) (h : q ∈ s) :
    q ∈ L.foldl setAdd s :=
  foldl_preserve (fun s => q ∈ s) setAdd L (fun s p h => mem_setAdd_of_mem s p q h) s h

theorem foldl_setAdd_mem_elem (L s : List Pos) (q : Pos) (h : q ∈ L) :
    q ∈ L.foldl setAdd s :=
  foldl_coverage (fun s => q ∈ s) setAdd L (fun s p h => mem_setAdd_of_mem s p q h) q h
    (fun s => mem_setAdd_self s q) s

theorem pickFirstMax_mem (l : List TCand) (t : TCand) (h : pickFirstMax l = some t) : t ∈ l := by
  have hinv := foldl_preserve_mem
    (fun (b : Option TCand) => ∀ t, b = some t → t ∈ l)
    (fun best x => match best with
      | none => some x
      | some b => if x.key > b.key then some x else some b) l
    (fun b x hx hb => by
      rcases b with _ | b
      · intro t ht
        rw [Option.some.injEq] at ht
        exact ht ▸ hx
      · dsimp only
        by_cases hk : x.key > b.key
        · rw [if_pos hk]
          intro t ht
          rw [Option.some.injEq] at ht
          exact ht ▸ hx
        · rw [if_neg hk]
          exact hb)
    none (fun t ht => by cases ht)
  exact hinv t h

theorem specialTargets_mem (board : Board) (cleared : List Pos) :
    ∀ t ∈ specialTargets board cleared,
      t.row < GRID_SIZE ∧ t.col < GRID_SIZE ∧ (t.row, t.col) ∉ cleared := by
  unfold specialTargets
  refine foldl_preserve_mem
    (fun (acc : List TCand) => ∀ t ∈ acc,
      t.row < GRID_SIZE ∧ t.col < GRID_SIZE ∧ (t.row, t.col) ∉ cleared) _
    (List.range GRID_SIZE) (fun acc r hr h => ?_) [] (by simp)
  refine foldl_preserve_mem
    (fun (acc : List TCand) => ∀ t ∈ acc,
      t.row < GRID_SIZE ∧ t.col < GRID_SIZE ∧ (t.row, t.col) ∉ cleared) _
    (List.range GRID_SIZE) (fun acc2 c hc h2 => ?_) acc h
  by_cases hcl : (r, c) ∈ cleared
  · rw [if_pos hcl]
    exact h2
  · rw [if_neg hcl]
    rcases hst : (getBlock board r c).specialType with _ | k
    · exact h2
    · dsimp only
      by_cases hk : k ≠ SpecialKind.propeller
      · rw [if_pos hk]
        intro t ht
        rcases List.mem_append.mp ht with hin | hnew
        · exact h2 t hin
        · rw [List.mem_singleton] at hnew
          subst hnew
          exact ⟨List.mem_range.mp hr, List.mem_range.mp hc, hcl⟩
      · rw [if_neg hk]
        exact h2

theorem colorCandidates_mem (board : Board) (cleared : List Pos) :
    ∀ t ∈ colorCandidates board cleared,
      t.row < GRID_SIZE ∧ t.col < GRID_SIZE ∧ (t.row, t.col) ∉ cleared := by
  unfold colorCandidates
  refine foldl_preserve_mem
    (fun (acc : List TCand) => ∀ t ∈ acc,
      t.row < GRID_SIZE ∧ t.col < GRID_SIZE ∧ (t.row, t.col) ∉ cleared) _
    (List.range GRID_SIZE) (fun acc r hr h => ?_) [] (by simp)
  refine foldl_preserve_mem
    (fun (acc : List TCand) => ∀ t ∈ acc,
      t.row < GRID_SIZE ∧ t.col < GRID_SIZE ∧ (t.row, t.col) ∉ cleared) _
    (List.range GRID_SIZE) (fun acc2 c hc h2 => ?_) acc h
  by_cases hcl : (r, c) ∈ cleared
  · rw [if_pos hcl]
    exact h2
  · rw [if_neg hcl]
    by_cases hco : (getBlock board r c).color = none
    · rw [if_pos hco]
      exact h2
    · rw [if_neg hco]
      dsimp only
      by_cases hkey : 10 * neighborScore board cleared r c (getBlock board r c).color + r > 0
      · rw [if_pos hkey]
        intro t ht
        rcases List.mem_append.mp ht with hin | hnew
        · exact h2 t hin
        · rw [List.mem_singleton] at hnew
          subst hnew
          exact ⟨List.mem_range.mp hr, List.mem_range.mp hc, hcl⟩
      · rw [if_neg hkey]
        exact h2

theorem fallbackScan_some (board : Board) (cleared : List Pos) (p : Pos)
    (h : fallbackScan board cleared = some p) :
    p.1 < GRID_SIZE ∧ p.2 < GRID_SIZE ∧ p ∉ cleared ∧
      (getBlock board p.1 p.2).color ≠ none := by
  unfold fallbackScan at h
  have h1 := List.find?_some h
  rw [decide_eq_true_eq] at h1
  have h2 := List.mem_of_find?_eq_some h
  obtain ⟨r, hr, hp⟩ := List.mem_flatMap.mp h2
  obtain ⟨c, hc, he⟩ := List.mem_map.mp hp
  rw [List.mem_reverse, List.mem_range] at hr
  rw [List.mem_range] at hc
  rw [← he]
  exact ⟨hr, hc, (he ▸ h1).1, (he ▸ h1).2⟩

theorem fallbackScan_none (board : Board) (cleared : List Pos)
    (h : fallbackScan board cleared = none) (q : Pos) (h1 : q.1 < GRID_SIZE)
    (h2 : q.2 < GRID_SIZE) (h3 : q ∉ cleared)
    (h4 : (getBlock board q.1 q.2).color ≠ none) : False := by
  unfold fallbackScan at h
  rw [List.find?_eq_none] at h
  refine h q ?_ (by rw [decide_eq_true_eq]; exact ⟨h3, h4⟩)
  refine List.mem_flatMap.mpr ⟨q.1, ?_, List.mem_map.mpr ⟨q.2, List.mem_range.mpr h2, rfl⟩⟩
  rw [List.mem_reverse, List.mem_range]
  exact h1

theorem choosePropellerTarget_inbounds (board : Board) (cleared : List Pos) :
    (choosePropellerTarget board cleared).1 < GRID_SIZE ∧
      (choosePropellerTarget board cleared).2 < GRID_SIZE := by
  unfold choosePropellerTarget
  rcases h1 : pickFirstMax (specialTargets board cleared) with _ | t
  · rcases h2 : pickFirstMax (colorCandidates board cleared) with _ | t
    · rcases h3 : fallbackScan board cleared with _ | p
      · exact ⟨by decide, by decide⟩
      · have := fallbackScan_some board cleared p h3
        exact ⟨this.1, this.2.1⟩
    · have := colorCandidates_mem board cleared t (pickFirstMax_mem _ t h2)
      exact ⟨this.1, this.2.1⟩
  · have := specialTargets_mem board cleared t (pickFirstMax_mem _ t h1)
    exact ⟨this.1, this.2.1⟩

/-- As long as some in-bounds colored cell is still outside the cleared
set, the propeller target search never reaches the unchecked
board-centre fallback, so the chosen target avoids the cleared set. -/
theorem choosePropellerTarget_fresh (board : Board) (cleared : List Pos)
    (hsurv : ∃ q : Pos, q.1 < GRID_SIZE ∧ q.2 < GRID_SIZE ∧
      (getBlock board q.1 q.2).color ≠ none ∧ q ∉ cleared) :
    choosePropellerTarget board cleared ∉ cleared := by
  unfold choosePropellerTarget
  rcases h1 : pickFirstMax (specialTargets board cleared) with _ | t
  · rcases h2 : pickFirstMax (colorCandidates board cleared) with _ | t
    · rcases h3 : fallbackScan board cleared with _ | p
      · obtain ⟨q, hq1, hq2, hq3, hq4⟩ := hsurv
        exact absurd (fallbackScan_none board cleared h3 q hq1 hq2 hq4 hq3) id
      · exact (fallbackScan_some board cleared p h3).2.2.1
    · exact (colorCandidates_mem board cleared t (pickFirstMax_mem _ t h2)).2.2
  · exact (specialTargets_mem board cleared t (pickFirstMax_mem _ t h1)).2.2

theorem cells3x3_eq (row col : Nat) :
    cells3x3 row col =
      ([(-1, -1), (-1, 0), (-1, 1), (0, -1), (0, 0), (0, 1), (1, -1), (1, 0), (1, 1)] :
          List (Int × Int)).foldl (fun acc d =>
        if 0 ≤ (row : Int) + d.1 ∧ (row : Int) + d.1 < (GRID_SIZE : Int) ∧
            0 ≤ (col : Int) + d.2 ∧ (col : Int) + d.2 < (GRID_SIZE : Int) then
          acc ++ [(((row : Int) + d.1).toNat, ((col : Int) + d.2).toNat)]
        else acc) [] := rfl

theorem mem_boundFold (row col : Nat) (l : List (Int × Int)) (acc : List Pos) (y : Pos) :
    y ∈ l.foldl (fun acc d =>
      if 0 ≤ (row : Int) + d.1 ∧ (row : Int) + d.1 < (GRID_SIZE : Int) ∧
          0 ≤ (col : Int) + d.2 ∧ (col : Int) + d.2 < (GRID_SIZE : Int) then
        acc ++ [(((row : Int) + d.1).toNat, ((col : Int) + d.2).toNat)]
      else acc) acc ↔
      y ∈ acc ∨ ∃ d ∈ l, (0 ≤ (row : Int) + d.1 ∧ (row : Int) + d.1 < (GRID_SIZE : Int) ∧
          0 ≤ (col : Int) + d.2 ∧ (col : Int) + d.2 < (GRID_SIZE : Int)) ∧
        (((row : Int) + d.1).toNat, ((col : Int) + d.2).toNat) = y := by
  induction l generalizing acc with
  | nil => simp
  | cons d t ih =>
    rw [List.foldl_cons]
    by_cases hd : 0 ≤ (row : Int) + d.1 ∧ (row : Int) + d.1 < (GRID_SIZE : Int) ∧
        0 ≤ (col : Int) + d.2 ∧ (col : Int) + d.2 < (GRID_SIZE : Int)
    · rw [if_pos hd, ih]
      constructor
      · rintro (hy | ⟨d', hd', hb', he'⟩)
        · rcases List.mem_append.mp hy with h | h
          · exact Or.inl h
          · rw [List.mem_singleton] at h
            exact Or.inr ⟨d, by simp, hd, h.symm⟩
        · exact Or.inr ⟨d', by simp [hd'], hb', he'⟩
      · rintro (hy | ⟨d', hd', hb', he'⟩)
        · exact Or.inl (List.mem_append_left _ hy)
        · rcases List.mem_cons.mp hd' with he | ht
          · subst he
            exact Or.inl (List.mem_append_right _ (by simp [he']))
          · exact Or.inr ⟨d', ht, hb', he'⟩
    · rw [if_neg hd, ih]
      constructor
      · rintro (hy | ⟨d', hd', hb', he'⟩)
        · exact Or.inl hy
        · exact Or.inr ⟨d', by simp [hd'], hb', he'⟩
      · rintro (hy | ⟨d', hd', hb', he'⟩)
        · exact Or.inl hy
        · rcases List.mem_cons.mp hd' with he | ht
          · subst he
            exact absurd hb' hd
          · exact Or.inr ⟨d', ht, hb', he'⟩

set_option maxHeartbeats 1000000 in
/-- The 3×3 clear area around `(row, col)` is exactly the in-bounds
cells at Chebyshev distance ≤ 1. -/
theorem mem_cells3x3 (row col : Nat) (y : Pos) :
    y ∈ cells3x3 row col ↔
      y.1 < GRID_SIZE ∧ y.2 < GRID_SIZE ∧
        ((y.1 : Int) - row).natAbs ≤ 1 ∧ ((y.2 : Int) - col).natAbs ≤ 1 := by
  rw [cells3x3_eq, mem_boundFold]
  constructor
  · rintro (hy | ⟨d, hd, hb, he⟩)
    · exact absurd hy (List.not_mem_nil y)
    · simp only [List.mem_cons, List.not_mem_nil, or_false] at hd
      have e1 : ((row : Int) + d.1).toNat = y.1 := congrArg Prod.fst he
      have e2 : ((col : Int) + d.2).toNat = y.2 := congrArg Prod.snd he
      rcases hd with hd | hd | hd | hd | hd | hd | hd | hd | hd <;> subst hd <;>
        dsimp only at e1 e2 hb <;> exact ⟨by omega, by omega, by omega, by omega⟩
  · rintro ⟨h1, h2, h3, h4⟩
    refine Or.inr ⟨((y.1 : Int) - row, (y.2 : Int) - col), ?_, ?_, ?_⟩
    · simp only [List.mem_cons, List.mem_singleton, Prod.mk.injEq]
      omega
    · dsimp only
      exact ⟨by omega, by omega, by omega, by omega⟩
    · dsimp only
      exact Prod.ext (by omega) (by omega)

/-- A starved board: one red triple at row 0 with propellers on its
first two cells, every other cell an uncolored blocker. -/
def propStarveBoard : Board :=
  mkBoard (fun r c =>
    if r = 0 ∧ c < 3 then
      { color := some .red, row := r, col := c,
        specialType := if c < 2 then some .propeller else none, obstacle := none }
    else
      { color := none, row := r, col := c, specialType := none,
        obstacle := some ⟨.blocker, 1⟩ })

set_option maxHeartbeats 4000000 in
set_option maxRecDepth 16000 in
/-- C5 counterexample: two propellers matched in the same round can
compute the SAME target.  On `propStarveBoard` every candidate priority
fails (everything else is an uncolored blocker, and the matched cells
are in the will-be-cleared set), so both propellers fall back to the
unchecked board centre (4,4): the two targets coincide and each lies
inside the other's 3×3 area. -/
theorem C5_counterexample :
    (findMatches propStarveBoard).propellerActivations =
      [⟨0, 0, 4, 4⟩, ⟨0, 1, 4, 4⟩] ∧
    ∃ a1 a2, (findMatches propStarveBoard).propellerActivations = [a1, a2] ∧
      (a1.targetRow, a1.targetCol) = (a2.targetRow, a2.targetCol) ∧
      (a1.targetRow, a1.targetCol) ∈ cells3x3 a2.targetRow a2.targetCol := by
  refine ⟨by decide, ⟨0, 0, 4, 4⟩, ⟨0, 1, 4, 4⟩, by decide, by decide, by decide⟩

set_option maxHeartbeats 1600000 in
/-- C5 (amended): resolving two propellers adds the first target's 3×3
area to the cleared set before choosing the second target, and — as
long as some in-bounds colored cell survives outside the first
propeller's cleared set, so that the second search cannot fall through
to the unchecked centre fallback — the two targets are distinct and
neither lies in the other's 3×3 clear area. -/
theorem C5_propeller_separation (board : Board) (p1 p2 : Pos) (cleared : List Pos)
    (hsurv : ∃ q : Pos, q.1 < GRID_SIZE ∧ q.2 < GRID_SIZE ∧
      (getBlock board q.1 q.2).color ≠ none ∧
      q ∉ (resolvePropellers board [p1] cleared).2) :
    resolvePropellers board [p1, p2] cleared =
      ([⟨p1.1, p1.2, (choosePropellerTarget board cleared).1,
          (choosePropellerTarget board cleared).2⟩,
        ⟨p2.1, p2.2,
          (choosePropellerTarget board (resolvePropellers board [p1] cleared).2).1,
          (choosePropellerTarget board (resolvePropellers board [p1] cleared).2).2⟩],
        (cells3x3 (choosePropellerTarget board (resolvePropellers board [p1] cleared).2).1
            (choosePropellerTarget board (resolvePropellers board [p1] cleared).2).2).foldl
          setAdd (resolvePropellers board [p1] cleared).2) ∧
    (∀ q ∈ cells3x3 (choosePropellerTarget board cleared).1
        (choosePropellerTarget board cleared).2,
      q ∈ (resolvePropellers board [p1] cleared).2) ∧
    choosePropellerTarget board (resolvePropellers board [p1] cleared).2 ≠
      choosePropellerTarget board cleared ∧
    choosePropellerTarget board (resolvePropellers board [p1] cleared).2 ∉
      cells3x3 (choosePropellerTarget board cleared).1
        (choosePropellerTarget board cleared).2 ∧
    choosePropellerTarget board cleared ∉
      cells3x3 (choosePropellerTarget board (resolvePropellers board [p1] cleared).2).1
        (choosePropellerTarget board (resolvePropellers board [p1] cleared).2).2 := by
  have hc1 : (resolvePropellers board [p1] cleared).2 =
      (cells3x3 (choosePropellerTarget board cleared).1
        (choosePropellerTarget board cleared).2).foldl setAdd cleared := rfl
  have hsub : ∀ q ∈ cells3x3 (choosePropellerTarget board cleared).1
      (choosePropellerTarget board cleared).2,
      q ∈ (resolvePropellers board [p1] cleared).2 := by
    intro q hq
    rw [hc1]
    exact foldl_setAdd_mem_elem _ cleared q hq
  have hb1 := choosePropellerTarget_inbounds board cleared
  have hb2 := choosePropellerTarget_inbounds board (resolvePropellers board [p1] cleared).2
  have ht1mem : choosePropellerTarget board cleared ∈
      cells3x3 (choosePropellerTarget board cleared).1
        (choosePropellerTarget board cleared).2 := by
    rw [mem_cells3x3]
    exact ⟨hb1.1, hb1.2, by omega, by omega⟩
  have hfresh : choosePropellerTarget board (resolvePropellers board [p1] cleared).2 ∉
      (resolvePropellers board [p1] cleared).2 :=
    choosePropellerTarget_fresh board _ hsurv
  have hnotin : choosePropellerTarget board (resolvePropellers board [p1] cleared).2 ∉
      cells3x3 (choosePropellerTarget board cleared).1
        (choosePropellerTarget board cleared).2 := by
    intro hmem
    exact hfresh (hsub _ hmem)
  refine ⟨rfl, hsub, ?_, hnotin, ?_⟩
  · intro he
    exact hfresh (hsub _ (by rw [he]; exact ht1mem))
  · intro hmem
    rw [mem_cells3x3] at hmem
    refine hnotin ?_
    rw [mem_cells3x3]
    exact ⟨hb2.1, hb2.2, by omega, by omega⟩

set_option maxHeartbeats 4000000 in
set_option maxRecDepth 16000 in
theorem C5_propeller_separation_witness :
    (((0, 7) : Pos).1 < GRID_SIZE ∧ ((0, 7) : Pos).2 < GRID_SIZE ∧
      (getBlock checkerBoard 0 7).color ≠ none ∧
      ((0, 7) : Pos) ∉ (resolvePropellers checkerBoard [(0, 0)] []).2) ∧
    (choosePropellerTarget checkerBoard
        (resolvePropellers checkerBoard [(0, 0)] []).2 ≠
      choosePropellerTarget checkerBoard [] ∧
    choosePropellerTarget checkerBoard (resolvePropellers checkerBoard [(0, 0)] []).2 ∉
      cells3x3 (choosePropellerTarget checkerBoard []).1
        (choosePropellerTarget checkerBoard []).2 ∧
    choosePropellerTarget checkerBoard [] ∉
      cells3x3 (choosePropellerTarget checkerBoard
          (resolvePropellers checkerBoard [(0, 0)] []).2).1
        (choosePropellerTarget checkerBoard
          (resolvePropellers checkerBoard [(0, 0)] []).2).2) := by
  have h := C5_propeller_separation checkerBoard (0, 0) (0, 1) []
    ⟨(0, 7), by decide, by decide, by decide, by decide⟩
  exact ⟨⟨by decide, by decide, by decide, by decide⟩, h.2.2.1, h.2.2.2.1, h.2.2.2.2⟩

/-! ## Gravity (claim C8) -/

/-- The value projection of an engine-made empty cell. -/
def contentEmpty : Color × SpecialType × Option Obstacle := (none, none, none)

/-- The blocks of rows `lo, …, lo + n - 1` of column `c`. -/
def colBlocks (nb : Board) (c lo n : Nat) : List Block :=
  (List.range n).map (fun i => getBlock nb (lo + i) c)

/-- The colored blocks among rows `lo, …, lo + n - 1` of column `c`, in
top-to-bottom order. -/
def coloredOf (nb : Board) (c lo n : Nat) : List Block :=
  (colBlocks nb c lo n).filter (fun b => b.color ≠ none)

/-- The per-column gravity loop restricted to rows `lo, …, lo + n - 1`
(visited bottom-up), threading the board together with the `emptyRow`
cursor.  `gravRun c 0 fuel` is exactly `gravColumn c fuel`. -/
def gravRun (c lo : Nat) : Nat → Board × Int → Board × Int
  | 0, s => s
  | n + 1, s =>
    let nb := s.1
    let emptyRow := s.2
    let row := lo + n
    let block := getBlock nb row c
    if isBlockerB block then gravRun c lo n (nb, (row : Int) - 1)
    else if block.color ≠ none then
      if (row : Int) ≠ emptyRow then
        gravRun c lo n
          (setBlock (setBlock nb emptyRow.toNat c { block with row := emptyRow.toNat, col := c })
            row c (emptyBlock row c), emptyRow - 1)
      else gravRun c lo n (nb, emptyRow - 1)
    else gravRun c lo n (nb, emptyRow)

theorem gravColumn_eq_run (c : Nat) :
    ∀ (fuel : Nat) (E : Int) (nb : Board),
      gravColumn c fuel E nb = (gravRun c 0 fuel (nb, E)).1 := by
  intro fuel
  induction fuel with
  | zero => intro E nb; rfl
  | succ n ih =>
    intro E nb
    show gravColumn c (n + 1) E nb = (gravRun c 0 (n + 1) (nb, E)).1
    unfold gravColumn gravRun
    dsimp only
    simp only [Nat.zero_add]
    split_ifs <;> exact ih _ _

/-- One bottom-up step of the gravity loop at `row`. -/
def gravStep (c row : Nat) (s : Board × Int) : Board × Int :=
  let block := getBlock s.1 row c
  if isBlockerB block then (s.1, (row : Int) - 1)
  else if block.color ≠ none then
    if (row : Int) ≠ s.2 then
      (setBlock (setBlock s.1 s.2.toNat c { block with row := s.2.toNat, col := c })
        row c (emptyBlock row c), s.2 - 1)
    else (s.1, s.2 - 1)
  else (s.1, s.2)

theorem gravRun_succ (c lo n : Nat) (s : Board × Int) :
    gravRun c lo (n + 1) s = gravRun c lo n (gravStep c (lo + n) s) := by
  conv_lhs => unfold gravRun
  unfold gravStep
  dsimp only
  split_ifs <;> rfl

theorem gravRun_split (c lo a : Nat) :
    ∀ (b : Nat) (s : Board × Int),
      gravRun c lo (a + b) s = gravRun c lo a (gravRun c (lo + a) b s) := by
  intro b
  induction b with
  | zero => intro s; rfl
  | succ b ih =>
    intro s
    show gravRun c lo ((a + b) + 1) s = gravRun c lo a (gravRun c (lo + a) (b + 1) s)
    rw [gravRun_succ, gravRun_succ, Nat.add_assoc]
    exact ih _

theorem gravRun_frame_col (c lo : Nat) :
    ∀ (n : Nat) (s : Board × Int) (r c' : Nat), c' ≠ c →
      getBlock (gravRun c lo n s).1 r c' = getBlock s.1 r c' := by
  intro n
  induction n with
  | zero => intro s r c' h; rfl
  | succ n ih =>
    intro s r c' h
    unfold gravRun
    dsimp only
    split_ifs <;> rw [ih _ r c' h]
    rw [getBlock_setBlock_ne _ _ _ _ _ _ (by rintro ⟨-, hc⟩; exact h hc.symm),
      getBlock_setBlock_ne _ _ _ _ _ _ (by rintro ⟨-, hc⟩; exact h hc.symm)]

theorem gravRun_wf (c lo : Nat) :
    ∀ (n : Nat) (s : Board × Int), wfBoard s.1 → wfBoard (gravRun c lo n s).1 := by
  intro n
  induction n with
  | zero => intro s h; exact h
  | succ n ih =>
    intro s h
    unfold gravRun
    dsimp only
    split_ifs <;> exact ih _ (by first
      | exact h
      | exact wf_setBlock _ _ _ _ (wf_setBlock _ _ _ _ h))

theorem gravRun_untouched (c lo : Nat) :
    ∀ (n : Nat) (s : Board × Int) (r : Nat),
      (lo + n : Int) - 1 ≤ s.2 → (r : Int) > s.2 → lo + n ≤ r →
      getBlock (gravRun c lo n s).1 r c = getBlock s.1 r c := by
  intro n
  induction n with
  | zero => intro s r _ _ _; rfl
  | succ n ih =>
    intro s r hE hr hrn
    unfold gravRun
    dsimp only
    split_ifs with h1 h2 h3
    · rw [ih _ r (by push_cast; omega) (by push_cast; omega) (by omega)]
    · rw [ih _ r (by push_cast; omega) (by push_cast; omega) (by omega)]
      rw [getBlock_setBlock_ne _ _ _ _ _ _ (by rintro ⟨hrr, -⟩; omega),
        getBlock_setBlock_ne _ _ _ _ _ _ (by
          rintro ⟨hrr, -⟩
          have : (s.2.toNat : Int) = s.2 := Int.toNat_of_nonneg (by push_cast at hE; omega)
          omega)]
    · rw [ih _ r (by push_cast; omega) (by push_cast; omega) (by omega)]
    · rw [ih _ r (by push_cast; omega) (by push_cast; omega) (by omega)]

theorem content_update (b : Block) (r c : Nat) :
    content { b with row := r, col := c } = content b := rfl

theorem colBlocks_congr (nb' nb : Board) (c lo n : Nat)
    (h : ∀ i, i < n → getBlock nb' (lo + i) c = getBlock nb (lo + i) c) :
    colBlocks nb' c lo n = colBlocks nb c lo n :=
  List.map_congr_left (fun i hi => h i (List.mem_range.mp hi))

theorem coloredOf_congr (nb' nb : Board) (c lo n : Nat)
    (h : ∀ i, i < n → getBlock nb' (lo + i) c = getBlock nb (lo + i) c) :
    coloredOf nb' c lo n = coloredOf nb c lo n := by
  unfold coloredOf
  rw [colBlocks_congr nb' nb c lo n h]

theorem colBlocks_succ (nb : Board) (c lo n : Nat) :
    colBlocks nb c lo (n + 1) = colBlocks nb c lo n ++ [getBlock nb (lo + n) c] := by
  unfold colBlocks
  rw [List.range_succ, List.map_append, List.map_singleton]

theorem coloredOf_succ_colored (nb : Board) (c lo n : Nat)
    (h : (getBlock nb (lo + n) c).color ≠ none) :
    coloredOf nb c lo (n + 1) = coloredOf nb c lo n ++ [getBlock nb (lo + n) c] := by
  unfold coloredOf
  rw [colBlocks_succ, List.filter_append]
  simp [List.filter_singleton, h]

theorem coloredOf_succ_empty (nb : Board) (c lo n : Nat)
    (h : (getBlock nb (lo + n) c).color = none) :
    coloredOf nb c lo (n + 1) = coloredOf nb c lo n := by
  unfold coloredOf
  rw [colBlocks_succ, List.filter_append]
  simp [List.filter_singleton, h]

theorem getBlock_setBlock_wf (b : Board) (hwf : wfBoard b) (r c : Nat)
    (hr : r < GRID_SIZE) (hcb : c < GRID_SIZE) (blk : Block) :
    getBlock (setBlock b r c blk) r c = blk := by
  rw [getBlock_setBlock,
    if_pos ⟨rfl, rfl, by rw [hwf.1]; exact hr, by rw [hwf.2 r hr]; exact hcb⟩]

/-- Gravity on one blocker-free row segment `[lo, lo + n)`: reading
bottom-up with cursor `E` (the window `[lo + n, E]` being empty), the
run leaves everything below the cursor and outside the column alone,
moves the cursor up by the number of colored cells, empties the window
above the landed cells, and lands the colored cells at rows
`E - m + 1, …, E` in their original top-to-bottom order. -/
theorem gravRun_seg (c : Nat) (hc : c < GRID_SIZE) (lo : Nat) :
    ∀ (n : Nat) (E : Int) (nb : Board),
      wfBoard nb →
      (lo + n : Int) - 1 ≤ E → E < (GRID_SIZE : Int) →
      (∀ r, lo ≤ r → r < lo + n → ¬ isBlockerB (getBlock nb r c)) →
      (∀ r : Nat, lo + n ≤ r → (r : Int) ≤ E → content (getBlock nb r c) = contentEmpty) →
      (∀ r, lo ≤ r → r < lo + n → (getBlock nb r c).color = none →
        content (getBlock nb r c) = contentEmpty) →
      wfBoard (gravRun c lo n (nb, E)).1 ∧
      (gravRun c lo n (nb, E)).2 = E - (coloredOf nb c lo n).length ∧
      (∀ (r c' : Nat), c' ≠ c → getBlock (gravRun c lo n (nb, E)).1 r c' = getBlock nb r c') ∧
      (∀ r, r < lo → getBlock (gravRun c lo n (nb, E)).1 r c = getBlock nb r c) ∧
      (∀ r : Nat, (r : Int) > E → getBlock (gravRun c lo n (nb, E)).1 r c = getBlock nb r c) ∧
      (∀ r : Nat, lo ≤ r → (r : Int) ≤ E - (coloredOf nb c lo n).length →
        content (getBlock (gravRun c lo n (nb, E)).1 r c) = contentEmpty) ∧
      ((List.range (coloredOf nb c lo n).length).map (fun (i : Nat) =>
          content (getBlock (gravRun c lo n (nb, E)).1
            (E - (coloredOf nb c lo n).length + 1 + (i : Int)).toNat c)) =
        (coloredOf nb c lo n).map content) := by
  intro n
  induction n with
  | zero =>
    intro E nb hwf hE1 hE2 hseg hwin hplain
    refine ⟨hwf, by simp [gravRun, coloredOf, colBlocks], fun r c' h => rfl, fun r h => rfl,
      fun r h => rfl, ?_, by simp [coloredOf, colBlocks]⟩
    intro r hr1 hr2
    simp only [coloredOf, colBlocks, List.range_zero, List.map_nil, List.filter_nil,
      List.length_nil, Nat.cast_zero, Int.sub_zero] at hr2 ⊢
    exact hwin r (by omega) hr2
  | succ n ih =>
    intro E nb hwf hE1 hE2 hseg hwin hplain
    have hnb : ¬ isBlockerB (getBlock nb (lo + n) c) = true :=
      hseg (lo + n) (by omega) (by omega)
    have hEn : (lo + n : Int) ≤ E := by push_cast at hE1 ⊢; omega
    rw [gravRun_succ]
    by_cases hcol : (getBlock nb (lo + n) c).color ≠ none
    · by_cases hrow : ((lo + n : Nat) : Int) ≠ E
      · -- the colored cell at row lo + n falls to the cursor row E
        have hlt : (lo + n : Int) < E := by push_cast at hEn hrow ⊢; omega
        have hE0 : (0 : Int) ≤ E := by omega
        have hEcast : (E.toNat : Int) = E := Int.toNat_of_nonneg hE0
        have hstep : gravStep c (lo + n) (nb, E) =
            (setBlock (setBlock nb E.toNat c
                { getBlock nb (lo + n) c with row := E.toNat, col := c })
              (lo + n) c (emptyBlock (lo + n) c), E - 1) := by
          unfold gravStep
          dsimp only
          rw [if_neg hnb, if_pos hcol, if_pos (by push_cast at hrow ⊢; exact hrow)]
        rw [hstep]
        set nb1 := setBlock (setBlock nb E.toNat c
            { getBlock nb (lo + n) c with row := E.toNat, col := c })
          (lo + n) c (emptyBlock (lo + n) c) with hnb1
        have hwf1 : wfBoard nb1 := wf_setBlock _ _ _ _ (wf_setBlock _ _ _ _ hwf)
        have hread : ∀ r', r' ≠ lo + n → r' ≠ E.toNat →
            getBlock nb1 r' c = getBlock nb r' c := by
          intro r' h1 h2
          rw [getBlock_setBlock_ne _ _ _ _ _ _ (by rintro ⟨he, -⟩; exact h1 he.symm),
            getBlock_setBlock_ne _ _ _ _ _ _ (by rintro ⟨he, -⟩; exact h2 he.symm)]
        have hread_other : ∀ (r' c' : Nat), c' ≠ c →
            getBlock nb1 r' c' = getBlock nb r' c' := by
          intro r' c' h1
          rw [getBlock_setBlock_ne _ _ _ _ _ _ (by rintro ⟨-, he⟩; exact h1 he.symm),
            getBlock_setBlock_ne _ _ _ _ _ _ (by rintro ⟨-, he⟩; exact h1 he.symm)]
        have hread_E : getBlock nb1 E.toNat c =
            { getBlock nb (lo + n) c with row := E.toNat, col := c } := by
          rw [getBlock_setBlock_ne _ _ _ _ _ _ (by rintro ⟨he, -⟩; omega)]
          exact getBlock_setBlock_wf _ hwf _ _ (by omega) hc _
        have hread_row : getBlock nb1 (lo + n) c = emptyBlock (lo + n) c :=
          getBlock_setBlock_wf _ (wf_setBlock _ _ _ _ hwf) _ _ (by omega) hc _
        have hsame : ∀ i, i < n → getBlock nb1 (lo + i) c = getBlock nb (lo + i) c := by
          intro i hi
          exact hread _ (by omega) (by omega)
        have hcolored1 : coloredOf nb1 c lo n = coloredOf nb c lo n :=
          coloredOf_congr nb1 nb c lo n hsame
        obtain ⟨ihwf, ihcur, ihoth, ihabove, ihbelow, ihwin, ihland⟩ :=
          ih (E - 1) nb1 hwf1 (by push_cast; omega) (by omega)
            (fun r h1 h2 => by
              rw [hread r (by omega) (by omega)]
              exact hseg r h1 (by omega))
            (fun r h1 h2 => by
              by_cases he : r = lo + n
              · subst he
                rw [hread_row]
                rfl
              · rw [hread r he (by omega)]
                exact hwin r (by omega) (by omega))
            (fun r h1 h2 h3 => by
              rw [hread r (by omega) (by omega)] at h3 ⊢
              exact hplain r h1 (by omega) h3)
        rw [hcolored1] at ihcur ihwin ihland
        have hm : coloredOf nb c lo (n + 1) =
            coloredOf nb c lo n ++ [getBlock nb (lo + n) c] :=
          coloredOf_succ_colored nb c lo n hcol
        rw [hm]
        simp only [List.length_append, List.length_singleton]
        refine ⟨ihwf, by rw [ihcur]; push_cast; ring, ?_, ?_, ?_, ?_, ?_⟩
        · intro r c' h
          rw [ihoth r c' h, hread_other r c' h]
        · intro r h
          rw [ihabove r h, hread r (by omega) (by omega)]
        · intro r h
          rw [ihbelow r (by omega), hread r (by omega) (by omega)]
        · intro r h1 h2
          refine ihwin r h1 ?_
          push_cast at h2 ⊢
          omega
        · rw [List.range_succ, List.map_append, List.map_singleton, List.map_append,
            List.map_singleton]
          congr 1
          · rw [← ihland]
            refine List.map_congr_left (fun i hi => ?_)
            have he : (E - (((coloredOf nb c lo n).length : Int) + 1) + 1 + (i : Int)).toNat =
                (E - 1 - ((coloredOf nb c lo n).length : Int) + 1 + (i : Int)).toNat := by
              omega
            rw [show ((((coloredOf nb c lo n).length + 1 : Nat) : Int)) =
                (((coloredOf nb c lo n).length : Int) + 1) from by push_cast; ring, he]
          · have hrowE : (E - (((coloredOf nb c lo n).length : Int) + 1) + 1 +
                ((coloredOf nb c lo n).length : Int)).toNat = E.toNat := by omega
            rw [show ((((coloredOf nb c lo n).length + 1 : Nat) : Int)) =
                (((coloredOf nb c lo n).length : Int) + 1) from by push_cast; ring, hrowE]
            rw [ihbelow E.toNat (by omega), hread_E, content_update]
      · -- the colored cell already sits at the cursor row
        have hrowE : ((lo + n : Nat) : Int) = E := by
          push_cast at hrow ⊢
          omega
        have hstep : gravStep c (lo + n) (nb, E) = (nb, E - 1) := by
          unfold gravStep
          dsimp only
          rw [if_neg hnb, if_pos hcol, if_neg (by push_cast at hrowE ⊢; omega)]
        rw [hstep]
        obtain ⟨ihwf, ihcur, ihoth, ihabove, ihbelow, ihwin, ihland⟩ :=
          ih (E - 1) nb hwf (by push_cast; omega) (by omega)
            (fun r h1 h2 => hseg r h1 (by omega))
            (fun r h1 h2 => by omega)
            (fun r h1 h2 h3 => hplain r h1 (by omega) h3)
        have hm : coloredOf nb c lo (n + 1) =
            coloredOf nb c lo n ++ [getBlock nb (lo + n) c] :=
          coloredOf_succ_colored nb c lo n hcol
        rw [hm]
        simp only [List.length_append, List.length_singleton]
        refine ⟨ihwf, by rw [ihcur]; push_cast; ring, ihoth, ihabove, ?_, ?_, ?_⟩
        · intro r h
          exact ihbelow r (by omega)
        · intro r h1 h2
          refine ihwin r h1 ?_
          push_cast at h2 ⊢
          omega
        · rw [List.range_succ, List.map_append, List.map_singleton, List.map_append,
            List.map_singleton]
          congr 1
          · rw [← ihland]
            refine List.map_congr_left (fun i hi => ?_)
            have he : (E - (((coloredOf nb c lo n).length : Int) + 1) + 1 + (i : Int)).toNat =
                (E - 1 - ((coloredOf nb c lo n).length : Int) + 1 + (i : Int)).toNat := by
              omega
            rw [show ((((coloredOf nb c lo n).length + 1 : Nat) : Int)) =
                (((coloredOf nb c lo n).length : Int) + 1) from by push_cast; ring, he]
          · have hE0 : (0 : Int) ≤ E := by omega
            have hrowE2 : (E - (((coloredOf nb c lo n).length : Int) + 1) + 1 +
                ((coloredOf nb c lo n).length : Int)).toNat = E.toNat := by omega
            rw [show ((((coloredOf nb c lo n).length + 1 : Nat) : Int)) =
                (((coloredOf nb c lo n).length : Int) + 1) from by push_cast; ring, hrowE2]
            rw [ihbelow E.toNat (by omega)]
            have heq : E.toNat = lo + n := by omega
            rw [heq]
    · -- an empty cell: the cursor stays
      have hcol' : (getBlock nb (lo + n) c).color = none := by
        by_contra h
        exact hcol h
      have hstep : gravStep c (lo + n) (nb, E) = (nb, E) := by
        unfold gravStep
        dsimp only
        rw [if_neg hnb, if_neg (by simpa using hcol')]
      rw [hstep]
      obtain ⟨ihwf, ihcur, ihoth, ihabove, ihbelow, ihwin, ihland⟩ :=
        ih E nb hwf (by push_cast; omega) hE2
          (fun r h1 h2 => hseg r h1 (by omega))
          (fun r h1 h2 => by
            by_cases he : r = lo + n
            · subst he
              exact hplain _ (by omega) (by omega) hcol'
            · exact hwin r (by omega) h2)
          (fun r h1 h2 h3 => hplain r h1 (by omega) h3)
      rw [coloredOf_succ_empty nb c lo n hcol']
      exact ⟨ihwf, ihcur, ihoth, ihabove, ihbelow, ihwin, ihland⟩

/-- The compacted shape of one blocker-free column segment
`[lo, hi)` whose fall window reaches down to row `B`: reading the
output rows `lo, …, B` gives empties first, then the segment's colored
cells in their original top-to-bottom order. -/
def segDescr (c : Nat) (nb out : Board) (lo hi : Nat) (B : Int) : Prop :=
  (List.range (B + 1 - (lo : Int)).toNat).map (fun (j : Nat) =>
      content (getBlock out (lo + j) c)) =
    List.replicate ((B + 1 - (lo : Int)).toNat - (coloredOf nb c lo (hi - lo)).length)
      contentEmpty ++ (coloredOf nb c lo (hi - lo)).map content

theorem segDescr_of_parts (c : Nat) (nb out : Board) (lo hi : Nat) (B : Int)
    (hmB : ((coloredOf nb c lo (hi - lo)).length : Int) ≤ B + 1 - lo)
    (hwin : ∀ r : Nat, lo ≤ r → (r : Int) ≤ B - (coloredOf nb c lo (hi - lo)).length →
      content (getBlock out r c) = contentEmpty)
    (hland : (List.range (coloredOf nb c lo (hi - lo)).length).map (fun (i : Nat) =>
        content (getBlock out
          (B - (coloredOf nb c lo (hi - lo)).length + 1 + (i : Int)).toNat c)) =
      (coloredOf nb c lo (hi - lo)).map content) :
    segDescr c nb out lo hi B := by
  unfold segDescr
  set m := (coloredOf nb c lo (hi - lo)).length with hm
  set W := (B + 1 - (lo : Int)).toNat with hW
  have hmW : m ≤ W := by omega
  refine List.ext_getElem (by simp [List.length_replicate, List.length_map,
    List.length_range, List.length_append]; omega) ?_
  intro j hj1 hj2
  rw [List.length_map, List.length_range] at hj1
  rw [List.getElem_map, List.getElem_range]
  by_cases hcase : j < W - m
  · rw [List.getElem_append_left (by simp [List.length_replicate]; omega)]
    rw [List.getElem_replicate]
    exact hwin (lo + j) (by omega) (by omega)
  · rw [List.getElem_append_right (by simp [List.length_replicate]; omega)]
    simp only [List.length_replicate]
    have hib : j - (W - m) < m := by omega
    have hb2 : j - (W - m) < (coloredOf nb c lo (hi - lo)).length := by omega
    have hland' := congrArg (fun l => l[j - (W - m)]?) hland
    simp only [List.getElem?_map] at hland'
    rw [List.getElem?_range hib, List.getElem?_eq_getElem hb2] at hland'
    simp only [Option.map_some'] at hland'
    have hrow : (B - (m : Int) + 1 + ((j - (W - m) : Nat) : Int)).toNat = lo + j := by
      omega
    rw [hrow] at hland'
    rw [List.getElem_map]
    exact Option.some.inj hland'

/-- Gravity on the full column prefix `[0, fuel)` with arbitrary
blockers: blockers stay put, other columns and everything strictly
below the cursor stay put, and every maximal blocker-free segment
compacts as described by `segDescr` (the top segment falls down to the
cursor row `E`, every other segment down to the row above its bounding
blocker). -/
theorem gravRun_full (c : Nat) (hc : c < GRID_SIZE) :
    ∀ (fuel : Nat), fuel ≤ GRID_SIZE → ∀ (E : Int) (nb : Board),
      wfBoard nb →
      (fuel : Int) - 1 ≤ E → E < (GRID_SIZE : Int) →
      (∀ r : Nat, fuel ≤ r → (r : Int) ≤ E → content (getBlock nb r c) = contentEmpty) →
      (∀ r, r < fuel → ¬ isBlockerB (getBlock nb r c) → (getBlock nb r c).color = none →
        content (getBlock nb r c) = contentEmpty) →
      wfBoard (gravRun c 0 fuel (nb, E)).1 ∧
      (∀ (r c' : Nat), c' ≠ c →
        getBlock (gravRun c 0 fuel (nb, E)).1 r c' = getBlock nb r c') ∧
      (∀ r : Nat, (r : Int) > E → fuel ≤ r →
        getBlock (gravRun c 0 fuel (nb, E)).1 r c = getBlock nb r c) ∧
      (∀ r, r < fuel → isBlockerB (getBlock nb r c) →
        getBlock (gravRun c 0 fuel (nb, E)).1 r c = getBlock nb r c) ∧
      (∀ lo hi : Nat, lo ≤ hi → hi ≤ fuel →
        (lo = 0 ∨ isBlockerB (getBlock nb (lo - 1) c)) →
        (hi = fuel ∨ isBlockerB (getBlock nb hi c)) →
        (∀ r, lo ≤ r → r < hi → ¬ isBlockerB (getBlock nb r c)) →
        segDescr c nb (gravRun c 0 fuel (nb, E)).1 lo hi
          (if hi = fuel then E else (hi : Int) - 1)) := by
  intro fuel
  induction fuel using Nat.strong_induction_on with
  | _ fuel ih =>
    intro hfle E nb hwf hE1 hE2 hwin hplain
    by_cases hbl : ∃ r, r < fuel ∧ isBlockerB (getBlock nb r c)
    · -- there is a blocker: split at the highest one
      obtain ⟨r0, hr0f, hr0b⟩ := hbl
      obtain ⟨b, hPb, hbf, hmax⟩ : ∃ b, isBlockerB (getBlock nb b c) = true ∧ b < fuel ∧
          ∀ k, b < k → k < fuel → ¬ isBlockerB (getBlock nb k c) = true := by
        refine ⟨Nat.findGreatest (fun r => isBlockerB (getBlock nb r c) = true) (fuel - 1),
          @Nat.findGreatest_spec r0 (fun r => isBlockerB (getBlock nb r c) = true) _
            (fuel - 1) (by omega) hr0b, ?_, ?_⟩
        · have hle := @Nat.findGreatest_le
            (fun r => isBlockerB (getBlock nb r c) = true) _ (fuel - 1)
          omega
        · intro k hk1 hk2
          exact Nat.findGreatest_is_greatest hk1 (by omega)
      have hsplit : gravRun c 0 fuel (nb, E) =
          gravRun c 0 (b + 1) (gravRun c (b + 1) (fuel - (b + 1)) (nb, E)) := by
        conv_lhs => rw [show fuel = (b + 1) + (fuel - (b + 1)) from by omega]
        have h0 := gravRun_split c 0 (b + 1) (fuel - (b + 1)) (nb, E)
        rw [Nat.zero_add] at h0
        exact h0
      obtain ⟨swf, scur, soth, sabove, sbelow, swin, sland⟩ :=
        gravRun_seg c hc (b + 1) (fuel - (b + 1)) E nb hwf
          (by push_cast; omega) hE2
          (fun r h1 h2 => hmax r (by omega) (by omega))
          (fun r h1 h2 => hwin r (by omega) h2)
          (fun r h1 h2 h3 => hplain r (by omega) (hmax r (by omega) (by omega)) h3)
      set nb1 := (gravRun c (b + 1) (fuel - (b + 1)) (nb, E)).1 with hnb1
      have hmtle : (coloredOf nb c (b + 1) (fuel - (b + 1))).length ≤ fuel - (b + 1) := by
        calc (coloredOf nb c (b + 1) (fuel - (b + 1))).length
            ≤ (colBlocks nb c (b + 1) (fuel - (b + 1))).length := List.length_filter_le _ _
          _ = fuel - (b + 1) := by simp [colBlocks]
      have hstate : gravRun c (b + 1) (fuel - (b + 1)) (nb, E) =
          (nb1, E - (coloredOf nb c (b + 1) (fuel - (b + 1))).length) := by
        rw [hnb1]
        exact Prod.ext rfl scur
      rw [hstate] at hsplit
      have hblock1 : getBlock nb1 b c = getBlock nb b c := sabove b (by omega)
      have hsplit2 : gravRun c 0 (b + 1)
            (nb1, E - (coloredOf nb c (b + 1) (fuel - (b + 1))).length) =
          gravRun c 0 b (nb1, (b : Int) - 1) := by
        have h1 := gravRun_split c 0 b 1
          (nb1, E - (coloredOf nb c (b + 1) (fuel - (b + 1))).length)
        rw [h1]
        have h2 : gravRun c (0 + b) 1
            (nb1, E - (coloredOf nb c (b + 1) (fuel - (b + 1))).length) =
            (nb1, (b : Int) - 1) := by
          rw [gravRun_succ]
          have hstep : gravStep c (0 + b + 0)
              (nb1, E - (coloredOf nb c (b + 1) (fuel - (b + 1))).length) =
              (nb1, (b : Int) - 1) := by
            unfold gravStep
            dsimp only
            rw [show 0 + b + 0 = b from by omega, hblock1, if_pos hPb]
          rw [hstep]
          rfl
        rw [h2]
      rw [hsplit2] at hsplit
      obtain ⟨iwf, ioth, ibelow, iblock, iseg⟩ :=
        ih b hbf (by omega) ((b : Int) - 1) nb1 swf (by omega)
          (by have hg : fuel ≤ 8 := hfle; push_cast; omega)
          (fun r h1 h2 => by omega)
          (fun r h1 h2 h3 => by
            rw [sabove r (by omega)] at h2 h3 ⊢
            exact hplain r (by omega) h2 h3)
      rw [hsplit]
      set nb2 := (gravRun c 0 b (nb1, (b : Int) - 1)).1 with hnb2
      have htrans : ∀ r : Nat, b ≤ r → getBlock nb2 r c = getBlock nb1 r c := by
        intro r hr
        exact ibelow r (by push_cast; omega) hr
      refine ⟨iwf, ?_, ?_, ?_, ?_⟩
      · intro r c' h
        rw [ioth r c' h, soth r c' h]
      · intro r h1 h2
        rw [htrans r (by omega), sbelow r h1]
      · intro r h1 h2
        by_cases hrb : r = b
        · subst hrb
          rw [htrans r (by omega), hblock1]
        · by_cases hrlt : r < b
          · rw [iblock r hrlt (by rw [sabove r (by omega)]; exact h2),
              sabove r (by omega)]
          · exact absurd h2 (hmax r (by omega) h1)
      · intro lo hi hlohi hhif hlo hhi hfree
        by_cases hhieq : hi = fuel
        · -- the top segment, forced to be exactly [b+1, fuel)
          subst hhieq
          have hlob : lo = b + 1 := by
            by_cases hl0 : lo = 0
            · subst hl0
              exact absurd hPb (hfree b (by omega) (by omega))
            · rcases hlo with h0 | hblk
              · exact absurd h0 hl0
              · have h1 : ¬ b < lo - 1 := by
                  intro hck
                  exact hmax (lo - 1) hck (by omega) hblk
                have h2 : ¬ lo ≤ b := by
                  intro hck
                  exact hfree b hck (by omega) hPb
                omega
            -- hmm b < hi needed above: hi = fuel and b < fuel
          subst hlob
          rw [if_pos rfl]
          refine segDescr_of_parts c nb nb2 (b + 1) hi E ?_ ?_ ?_
          · push_cast
            omega
          · intro r h1 h2
            rw [htrans r (by omega)]
            exact swin r h1 h2
          · have hland2 : (List.range
                (coloredOf nb c (b + 1) (hi - (b + 1))).length).map (fun (i : Nat) =>
                  content (getBlock nb2
                    (E - (coloredOf nb c (b + 1) (hi - (b + 1))).length + 1 +
                      (i : Int)).toNat c)) =
                (List.range (coloredOf nb c (b + 1) (hi - (b + 1))).length).map
                  (fun (i : Nat) =>
                  content (getBlock nb1
                    (E - (coloredOf nb c (b + 1) (hi - (b + 1))).length + 1 +
                      (i : Int)).toNat c)) := by
              refine List.map_congr_left (fun i hi' => ?_)
              have hilt : i < (coloredOf nb c (b + 1) (hi - (b + 1))).length :=
                List.mem_range.mp hi'
              rw [htrans _ (by omega)]
            rw [hland2]
            exact sland
        · -- an inner segment, entirely below the highest blocker
          have hblkhi : isBlockerB (getBlock nb hi c) = true := by
            rcases hhi with he | hb'
            · exact absurd he hhieq
            · exact hb'
          have hhib : hi ≤ b := by
            by_contra hck
            exact hmax hi (by omega) (by omega) hblkhi
          have hs := iseg lo hi hlohi hhib
            (by
              rcases hlo with h0 | hblk
              · exact Or.inl h0
              · exact Or.inr (by rw [sabove (lo - 1) (by omega)]; exact hblk))
            (by
              by_cases hib : hi = b
              · exact Or.inl hib
              · exact Or.inr (by rw [sabove hi (by omega)]; exact hblkhi))
            (fun r h1 h2 => by
              rw [sabove r (by omega)]
              exact hfree r h1 h2)
          have hifs : (if hi = b then (b : Int) - 1 else (hi : Int) - 1) = (hi : Int) - 1 := by
            split_ifs with h
            · rw [h]
            · rfl
          rw [hifs] at hs
          rw [if_neg hhieq]
          unfold segDescr at hs ⊢
          rw [coloredOf_congr nb1 nb c lo (hi - lo)
            (fun i hi' => sabove (lo + i) (by omega))] at hs
          exact hs
    · -- no blocker below fuel: one single segment [0, fuel)
      push_neg at hbl
      obtain ⟨swf, scur, soth, sabove, sbelow, swin, sland⟩ :=
        gravRun_seg c hc 0 fuel E nb hwf (by push_cast; omega) hE2
          (fun r h1 h2 => hbl r (by omega))
          (fun r h1 h2 => hwin r (by omega) h2)
          (fun r h1 h2 h3 => hplain r (by omega) (hbl r (by omega)) h3)
      refine ⟨swf, soth, (fun r h1 h2 => sbelow r h1), ?_, ?_⟩
      · intro r h1 h2
        exact absurd h2 (hbl r h1)
      · intro lo hi hlohi hhif hlo hhi hfree
        have hl0 : lo = 0 := by
          by_cases hz : lo = 0
          · exact hz
          · rcases hlo with h0 | hblk
            · exact h0
            · exact absurd hblk (hbl (lo - 1) (by omega))
        have hhf : hi = fuel := by
          by_cases hz : hi = fuel
          · exact hz
          · rcases hhi with he | hb'
            · exact he
            · exact absurd hb' (hbl hi (by omega))
        rw [hl0, hhf, if_pos (rfl : fuel = fuel)]
        refine segDescr_of_parts c nb _ 0 fuel E ?_ ?_ ?_
        · have hlen : (coloredOf nb c 0 (fuel - 0)).length ≤ fuel := by
            calc (coloredOf nb c 0 (fuel - 0)).length
                ≤ (colBlocks nb c 0 (fuel - 0)).length := List.length_filter_le _ _
              _ = fuel - 0 := by simp [colBlocks]
              _ ≤ fuel := by omega
          push_cast
          omega
        · intro r h1 h2
          refine swin r (by omega) ?_
          rw [show fuel - 0 = fuel from rfl] at h2
          exact h2
        · rw [show fuel - 0 = fuel from rfl]
          exact sland

theorem gravColumn_frame (col fuel : Nat) (E : Int) (nb : Board) (r c' : Nat)
    (h : c' ≠ col) : getBlock (gravColumn col fuel E nb) r c' = getBlock nb r c' := by
  rw [gravColumn_eq_run]
  exact gravRun_frame_col col 0 fuel (nb, E) r c' h

theorem gravColumn_wf (col fuel : Nat) (E : Int) (nb : Board) (h : wfBoard nb) :
    wfBoard (gravColumn col fuel E nb) := by
  rw [gravColumn_eq_run]
  exact gravRun_wf col 0 fuel (nb, E) h

/-- Folding the per-column gravity pass over columns other than `c`
neither touches column `c` nor breaks well-formedness. -/
theorem foldlGrav_frame (c : Nat) :
    ∀ (L : List Nat), (∀ x ∈ L, x ≠ c) → ∀ nb : Board,
      (∀ r, getBlock (L.foldl (fun nb col =>
          gravColumn col GRID_SIZE ((GRID_SIZE : Int) - 1) nb) nb) r c = getBlock nb r c) ∧
      (wfBoard nb → wfBoard (L.foldl (fun nb col =>
          gravColumn col GRID_SIZE ((GRID_SIZE : Int) - 1) nb) nb)) := by
  intro L
  induction L with
  | nil => intro hL nb; exact ⟨fun r => rfl, fun h => h⟩
  | cons x t ih =>
    intro hL nb
    rw [List.foldl_cons]
    constructor
    · intro r
      rw [(ih (fun y hy => hL y (by simp [hy])) _).1 r]
      exact gravColumn_frame x _ _ nb r c (Ne.symm (hL x (by simp)))
    · intro h
      exact (ih (fun y hy => hL y (by simp [hy])) _).2 (gravColumn_wf x _ _ nb h)

/-- `applyGravity` factors, for each column `c`, into the passes left
of `c` (which leave column `c` alone), the pass on `c`, and the passes
right of `c` (which leave column `c` alone). -/
theorem applyGravity_col (board : Board) (hwf : wfBoard board) (c : Nat) (hc : c < GRID_SIZE) :
    ∃ nbmid : Board, wfBoard nbmid ∧
      (∀ r, getBlock nbmid r c = getBlock board r c) ∧
      (∀ r, getBlock (applyGravity board) r c =
        getBlock (gravColumn c GRID_SIZE ((GRID_SIZE : Int) - 1) nbmid) r c) := by
  have hrange : List.range GRID_SIZE = List.range c ++
      (c :: (List.range (GRID_SIZE - c - 1)).map (fun x => c + Nat.succ x)) := by
    rw [show GRID_SIZE = c + (GRID_SIZE - c) from by omega, List.range_add]
    congr 1
    rw [show GRID_SIZE - c = (GRID_SIZE - c - 1) + 1 from by omega, List.range_succ_eq_map,
      List.map_cons, List.map_map]
    congr 1
    rw [show c + (GRID_SIZE - c - 1 + 1) - c - 1 = GRID_SIZE - c - 1 from by omega]
    rfl
  refine ⟨(List.range c).foldl (fun nb col =>
      gravColumn col GRID_SIZE ((GRID_SIZE : Int) - 1) nb) board, ?_, ?_, ?_⟩
  · exact (foldlGrav_frame c (List.range c)
      (fun y hy => by have := List.mem_range.mp hy; omega) board).2 hwf
  · exact (foldlGrav_frame c (List.range c)
      (fun y hy => by have := List.mem_range.mp hy; omega) board).1
  · intro r
    show getBlock ((List.range GRID_SIZE).foldl (fun nb col =>
      gravColumn col GRID_SIZE ((GRID_SIZE : Int) - 1) nb) board) r c = _
    rw [hrange, List.foldl_append, List.foldl_cons]
    exact (foldlGrav_frame c _
      (fun y hy => by
        obtain ⟨x, hx, he⟩ := List.mem_map.mp hy
        omega) _).1 r

/-- Every empty non-blocker cell is a plain engine-made empty (true of
all boards the engine produces: cleared cells and refill holes carry no
special and no obstacle). -/
def plainEmpties (b : Board) : Prop :=
  ∀ r, r < GRID_SIZE → ∀ c, c < GRID_SIZE →
    ¬ isBlockerB (getBlock b r c) → (getBlock b r c).color = none →
    content (getBlock b r c) = contentEmpty

instance (b : Board) : Decidable (plainEmpties b) :=
  @Nat.decidableBallLT GRID_SIZE
    (fun r _ => ∀ c, c < GRID_SIZE →
      ¬ isBlockerB (getBlock b r c) = true → (getBlock b r c).color = none →
      content (getBlock b r c) = contentEmpty)
    (fun r _ => Nat.decidableBallLT GRID_SIZE (fun c _ =>
      ¬ isBlockerB (getBlock b r c) = true → (getBlock b r c).color = none →
      content (getBlock b r c) = contentEmpty))

/-- C8: `applyGravity` compacts every column independently: a blocker
cell never moves, and every maximal blocker-free segment of a column
ends up as empties on top followed by the segment's colored cells in
their original top-to-bottom order — cells above a blocker settle onto
it, cells below it compact within their own sub-segment. -/
theorem C8_gravity (board : Board) (hwf : wfBoard board) (hplain : plainEmpties board)
    (c : Nat) (hc : c < GRID_SIZE) :
    (∀ r, r < GRID_SIZE → isBlockerB (getBlock board r c) →
      getBlock (applyGravity board) r c = getBlock board r c) ∧
    (∀ lo hi : Nat, lo ≤ hi → hi ≤ GRID_SIZE →
      (lo = 0 ∨ isBlockerB (getBlock board (lo - 1) c)) →
      (hi = GRID_SIZE ∨ isBlockerB (getBlock board hi c)) →
      (∀ r, lo ≤ r → r < hi → ¬ isBlockerB (getBlock board r c)) →
      (List.range (hi - lo)).map (fun (j : Nat) =>
          content (getBlock (applyGravity board) (lo + j) c)) =
        List.replicate ((hi - lo) - (coloredOf board c lo (hi - lo)).length) contentEmpty ++
          (coloredOf board c lo (hi - lo)).map content) := by
  obtain ⟨nbmid, hwfm, hcol, happ⟩ := applyGravity_col board hwf c hc
  obtain ⟨gwf, goth, gbelow, gblock, gseg⟩ :=
    gravRun_full c hc GRID_SIZE (le_refl _) ((GRID_SIZE : Int) - 1) nbmid hwfm
      (le_refl _) (by omega)
      (fun r h1 h2 => absurd h1 (by omega))
      (fun r h1 h2 h3 => by
        rw [hcol r] at h2 h3 ⊢
        exact hplain r (by omega) c hc h2 h3)
  constructor
  · intro r h1 h2
    rw [happ r, gravColumn_eq_run]
    rw [gblock r (by omega) (by rw [hcol r]; exact h2), hcol r]
  · intro lo hi hlohi hhif hlo hhi hfree
    have hs := gseg lo hi hlohi hhif
      (by
        rcases hlo with h0 | hb
        · exact Or.inl h0
        · exact Or.inr (by rw [hcol (lo - 1)]; exact hb))
      (by
        rcases hhi with h0 | hb
        · exact Or.inl h0
        · exact Or.inr (by rw [hcol hi]; exact hb))
      (fun r ha hb => by
        rw [hcol r]
        exact hfree r ha hb)
    have hB : (if hi = GRID_SIZE then ((GRID_SIZE : Int) - 1) else (hi : Int) - 1) =
        (hi : Int) - 1 := by
      split_ifs with h
      · rw [h]
      · rfl
    rw [hB] at hs
    unfold segDescr at hs
    have hlen : ((hi : Int) - 1 + 1 - (lo : Int)).toNat = hi - lo := by omega
    rw [hlen] at hs
    rw [coloredOf_congr nbmid board c lo (hi - lo) (fun i hi' => hcol (lo + i))] at hs
    rw [← hs]
    refine List.map_congr_left (fun j hj => ?_)
    rw [happ (lo + j), gravColumn_eq_run]

/-- A board whose column 2 holds, top to bottom: a plain empty, a red
cell, an empty, a blue cell, a blocker, an empty, a green cell and an
empty; all other columns are full checker cells. -/
def gravBoard : Board :=
  mkBoard (fun r c =>
    if c = 2 then
      if r = 4 then
        { color := none, row := r, col := c, specialType := none,
          obstacle := some ⟨.blocker, 1⟩ }
      else if r = 1 then plainBlock r c (some .red)
      else if r = 3 then plainBlock r c (some .blue)
      else if r = 6 then plainBlock r c (some .green)
      else plainBlock r c none
    else plainBlock r c (checkerColor r c))

theorem C8_gravity_witness :
    wfBoard gravBoard ∧ plainEmpties gravBoard ∧
    getBlock (applyGravity gravBoard) 4 2 = getBlock gravBoard 4 2 ∧
    ((List.range (4 - 0)).map (fun (j : Nat) =>
        content (getBlock (applyGravity gravBoard) (0 + j) 2)) =
      List.replicate ((4 - 0) - (coloredOf gravBoard 2 0 (4 - 0)).length) contentEmpty ++
        (coloredOf gravBoard 2 0 (4 - 0)).map content) ∧
    ((List.range (8 - 5)).map (fun (j : Nat) =>
        content (getBlock (applyGravity gravBoard) (5 + j) 2)) =
      List.replicate ((8 - 5) - (coloredOf gravBoard 2 5 (8 - 5)).length) contentEmpty ++
        (coloredOf gravBoard 2 5 (8 - 5)).map content) := by
  have h := C8_gravity gravBoard (by decide) (by decide) 2 (by decide)
  refine ⟨by decide, by decide, h.1 4 (by decide) (by decide), ?_, ?_⟩
  · exact h.2 0 4 (by decide) (by decide) (Or.inl rfl) (Or.inr (by decide))
      (fun r h1 h2 => by interval_cases r <;> decide)
  · exact h.2 5 8 (by decide) (by decide) (Or.inr (by decide)) (Or.inl rfl)
      (fun r h1 h2 => by interval_cases r <;> decide)

end SpoilMuch
